import Mathlib

/-!
# ami: tokenizer and parser

A shallow embedding of `include/ami/lexer.hpp` and `include/ami/parser.hpp`.

* `std::string` is a `List Char`, `std::vector<T>` a `List T` (`push_back` appends at the end,
  `at` is a checked read that raises `std::out_of_range`).
* `std::size_t` is a `Nat` below `2 ^ 64`; sums are reduced modulo `2 ^ 64`, so that the
  calls `m_Advance(-1)` of the source add `2 ^ 64 - 1`.
* Loops and recursive calls spend one unit of a budget per call; a run that exhausts the
  budget ends in a result of its own (`Fault.fuel`, `Res.timeout`), never in a made-up value.
-/

namespace ami

/-! ## Machine integers -/

/-- The modulus of `std::size_t` arithmetic (64-bit target). -/
def SIZE_MOD : Nat := 18446744073709551616

/-- The value of `(std::size_t)(-1)`, the argument of `m_Advance(-1)`. -/
def NEG_ONE : Nat := 18446744073709551615

/-- Unsigned addition `a + b` on `std::size_t`. -/
def size_add (a b : Nat) : Nat := (a + b) % SIZE_MOD

/-- Unsigned subtraction `a - b` on `std::size_t`, for `a` and `b` below the modulus: exact
when `b ≤ a`, wrapped around the modulus otherwise. -/
def size_sub (a b : Nat) : Nat := if b ≤ a then a - b else (a + (SIZE_MOD - b)) % SIZE_MOD

/-! ## Tokens (lexer.hpp) -/

/-- The token kinds: `enum class Tokens`.  The last three enumerators are the ones that
parser.hpp names (`Tokens::FunctionDef`, `Tokens::KeywordNot`, `Tokens::KeywordNull`) and
that the enum of lexer.hpp does not list; the lexer never produces them. -/
inductive Tokens where
  | Digit
  | Lparen
  | Rparen
  | Plus
  | Minus
  | Dot
  | Mult
  | Div
  | Pow
  | Mod
  | Identifier
  | Delim
  | Comma
  | Unkown
  | Assign
  | Edelim
  | Semicolon
  | KeywordIf
  | KeywordElse
  | KeywordAnd
  | KeywordOr
  | Equals
  | GreaterThan
  | GreaterThanOrEqual
  | LessThan
  | LessThanOrEqual
  | Boolean
  | FunctionDef
  | KeywordNot
  | KeywordNull
  deriving DecidableEq, Repr

/-- One token: `struct TokenHandler`. -/
structure TokenHandler where
  value : List Char
  token : Tokens
  pos : Nat
  deriving DecidableEq, Repr

/-- The ways a run of the lexer model can end without a token vector. -/
inductive Fault where
  | out_of_range
  | fuel
  deriving DecidableEq, Repr

/-- The state of `class Lexer`. -/
structure Lexer where
  m_Tokens : List TokenHandler
  m_Pos : Nat
  m_Src : List Char
  deriving DecidableEq, Repr

namespace Lexer

/-- Checked read `m_Src.at(i)`. -/
def src_at (src : List Char) (i : Nat) : Except Fault Char :=
  match src[i]? with
  | some c => .ok c
  | none => .error Fault.out_of_range

def m_IsDigit (c : Char) : Bool := decide ('0' ≤ c) && decide (c ≤ '9')

def not_eof (l : Lexer) : Bool := decide (l.m_Pos < l.m_Src.length)

def m_IsAlpha (c : Char) : Bool :=
  (decide ('a' ≤ c) && decide (c ≤ 'z')) || (decide ('A' ≤ c) && decide (c ≤ 'Z')) || c == '_'

/-- The test `std::isspace` in the "C" locale. -/
def isspace (c : Char) : Bool :=
  c == ' ' || c == '\t' || c == '\n' || c == Char.ofNat 11 || c == Char.ofNat 12 || c == '\r'

def m_Get (l : Lexer) : Except Fault Char :=
  src_at l.m_Src (if l.m_Pos ≥ l.m_Src.length then size_sub l.m_Src.length 1 else l.m_Pos)

def m_Peek (l : Lexer) (x : Nat) : Except Fault Char :=
  src_at l.m_Src
    (if size_add l.m_Pos x ≥ l.m_Src.length then size_sub l.m_Src.length 1
     else size_add l.m_Pos x)

def m_GetKeyword (ident : List Char) : Tokens :=
  if ident = ['i', 'f'] then Tokens.KeywordIf
  else if ident = ['e', 'l', 's', 'e'] then Tokens.KeywordElse
  else if ident = ['t', 'r', 'u', 'e'] ∨ ident = ['f', 'a', 'l', 's', 'e'] then Tokens.Boolean
  else if ident = ['a', 'n', 'd'] then Tokens.KeywordAnd
  else if ident = ['o', 'r'] then Tokens.KeywordOr
  else Tokens.Identifier

def m_Advance (l : Lexer) (x : Nat) : Lexer := { l with m_Pos := size_add l.m_Pos x }

def m_AddTok (l : Lexer) (tok : Tokens) (val : List Char) : Lexer :=
  { l with m_Tokens := l.m_Tokens ++ [{ value := val, token := tok, pos := l.m_Pos }] }

/-- The `while` loop of `m_GetIdent`. -/
def m_GetIdentLoop : Nat → Lexer → List Char → Except Fault (List Char × Lexer)
  | 0, _, _ => .error Fault.fuel
  | n + 1, l, out =>
    if l.not_eof then
      match l.m_Get with
      | .error e => .error e
      | .ok c =>
        if m_IsAlpha c then m_GetIdentLoop n (l.m_Advance 1) (out ++ [c])
        else .ok (out, l)
    else .ok (out, l)

def m_GetIdent (n : Nat) (l : Lexer) : Except Fault (List Char × Lexer) :=
  match m_GetIdentLoop n l [] with
  | .error e => .error e
  | .ok (out, l1) => .ok (out, l1.m_Advance NEG_ONE)

/-- The `while` loop of `m_GetDigit`. -/
def m_GetDigitLoop : Nat → Lexer → List Char → Except Fault (List Char × Lexer)
  | 0, _, _ => .error Fault.fuel
  | n + 1, l, temp =>
    if l.not_eof then
      match l.m_Get with
      | .error e => .error e
      | .ok c =>
        if m_IsDigit c then m_GetDigitLoop n (l.m_Advance 1) (temp ++ [c])
        else .ok (temp, l)
    else .ok (temp, l)

def m_GetDigit (n : Nat) (l : Lexer) : Except Fault (List Char × Lexer) :=
  match m_GetDigitLoop n l [] with
  | .error e => .error e
  | .ok (temp, l1) => .ok (temp, l1.m_Advance NEG_ONE)

/-- The `default:` label of the `switch` in `lex`. -/
def lexDefault (n : Nat) (l : Lexer) : Except Fault Lexer :=
  match l.m_Get with
  | .error e => .error e
  | .ok c =>
    if m_IsDigit c then
      match m_GetDigit n l with
      | .error e => .error e
      | .ok (d, l1) => .ok (l1.m_AddTok Tokens.Digit d)
    else if m_IsAlpha c then
      match m_GetIdent n l with
      | .error e => .error e
      | .ok (ident, l1) => .ok (l1.m_AddTok (m_GetKeyword ident) ident)
    else if !isspace c then .ok (l.m_AddTok Tokens.Unkown [c])
    else .ok l

/-- The `switch (m_Src.at(m_Pos))` of `lex`, on the character `c` read there. -/
def lexSwitch (n : Nat) (c : Char) (l : Lexer) : Except Fault Lexer :=
  if c = '*' then .ok (l.m_AddTok Tokens.Mult ['*'])
  else if c = '+' then .ok (l.m_AddTok Tokens.Plus ['+'])
  else if c = '-' then .ok (l.m_AddTok Tokens.Minus ['-'])
  else if c = '/' then .ok (l.m_AddTok Tokens.Div ['/'])
  else if c = '(' then .ok (l.m_AddTok Tokens.Lparen ['('])
  else if c = ')' then .ok (l.m_AddTok Tokens.Rparen [')'])
  else if c = '^' then .ok (l.m_AddTok Tokens.Pow ['^'])
  else if c = '%' then .ok (l.m_AddTok Tokens.Mod ['%'])
  else if c = ',' then .ok (l.m_AddTok Tokens.Comma [','])
  else if c = '.' then .ok (l.m_AddTok Tokens.Dot ['.'])
  else if c = Char.ofNat 39 then .ok (l.m_AddTok Tokens.Delim [Char.ofNat 39])
  else if c = 'e' then
    match l.m_Peek 1 with
    | .error e => .error e
    | .ok k =>
      if m_IsAlpha k then
        match m_GetIdent n l with
        | .error e => .error e
        | .ok (ident, l1) => .ok (l1.m_AddTok Tokens.Identifier ident)
      else .ok (l.m_AddTok Tokens.Edelim ['e'])
  else if c = '=' then
    match l.m_Peek 1 with
    | .error e => .error e
    | .ok k =>
      if k = '=' then .ok (l.m_AddTok Tokens.Equals ['=', '='])
      else .ok (l.m_AddTok Tokens.Assign ['='])
  else if c = '<' then
    match l.m_Peek 1 with
    | .error e => .error e
    | .ok k =>
      if k = '=' then .ok (l.m_AddTok Tokens.LessThanOrEqual ['<', '='])
      else .ok (l.m_AddTok Tokens.LessThan ['<'])
  else if c = '>' then
    match l.m_Peek 1 with
    | .error e => .error e
    | .ok k =>
      if k = '=' then .ok (l.m_AddTok Tokens.GreaterThanOrEqual ['>', '='])
      else .ok (l.m_AddTok Tokens.GreaterThan ['>'])
  else if c = ';' then .ok (l.m_AddTok Tokens.Semicolon [';'])
  else lexDefault n l

/-- The `while (m_Pos < m_Src.size())` loop of `lex`. -/
def lexLoop : Nat → Lexer → Except Fault (List TokenHandler)
  | 0, _ => .error Fault.fuel
  | n + 1, l =>
    if l.m_Pos < l.m_Src.length then
      match src_at l.m_Src l.m_Pos with
      | .error e => .error e
      | .ok c =>
        match lexSwitch n c l with
        | .error e => .error e
        | .ok l1 => lexLoop n (l1.m_Advance 1)
    else .ok l.m_Tokens

/-- The constructor `Lexer(text)` followed by `lex()`, with budget `n`. -/
def lex (n : Nat) (text : List Char) : Except Fault (List TokenHandler) :=
  lexLoop n { m_Tokens := [], m_Pos := 0, m_Src := text }

end Lexer

/-! ## Syntax trees and errors (ast.hpp and errors.hpp) -/

/-- Modelled from the spec: `enum class Op` of ast.hpp, which is not among the sources; the
enumerators are the ones that parser.hpp passes to the node constructors. -/
inductive Op where
  | Plus
  | Minus
  | Mult
  | Div
  | Pow
  | Mod
  | Greater
  | GreaterOrEqual
  | Less
  | LessOrEqual
  | Equals
  | LogicalAnd
  | LogicalOr
  deriving DecidableEq, Repr

/-- Modelled from the spec: ast.hpp is not among the sources.  One constructor per node class
that parser.hpp builds with `std::make_shared`, with the constructor arguments in the order the
parser passes them; a `nullptr` child is `none`.  `Number` keeps the text that the parser hands
to `std::stold` / `std::stod`, once the conversion has returned: whether the conversion throws
is modelled (see `std.stold`, `std.stod`), the floating-point value it rounds to is not
computed. -/
inductive Expr where
  | Number (text : List Char)
  | BinaryOpExpr (op : Op) (lhs : Expr) (rhs : Option Expr)
  | Comparaison (op : Op) (lhs : Expr) (rhs : Expr)
  | LogicalExpr (op : Op) (lhs : Expr) (rhs : Expr)
  | NotExpr (operand : Expr)
  | NegativeExpr (operand : Expr)
  | Identifier (name : List Char)
  | UserDefinedIdentifier (name : List Char) (body : Expr)
  | Function (name : List Char) (body : Expr) (args : List Expr)
  | FunctionCall (name : List Char) (args : List Expr)
  | Boolean (value : List Char)
  | IfExpr (cond : Expr) (stmt1 : Expr) (stmt2 : Option Expr)
  | NullExpr

/-- Modelled from the spec: the test `e->type() == AstType::Identifier`, for the member
`type()` of ast.hpp. -/
def Expr.isIdentifier : Expr → Bool
  | Expr.Identifier _ => true
  | _ => false

/-- Modelled from the spec: errors.hpp is not among the sources.  `BaseException` is the
structured error thrown by `m_ThrowErr`, with the fields `name` (the category), `err` (the
message) and `linepos` that `m_ThrowErr` fills in; `out_of_range` is the `std::out_of_range`
of a failed `vector::at` or of a conversion `std::stold` / `std::stod` whose value does not
fit; `invalid_argument` is the `std::invalid_argument` of a conversion that finds no
number. -/
inductive Exn where
  | BaseException (name : String) (err : String) (linepos : Nat)
  | out_of_range
  | invalid_argument
  deriving DecidableEq, Repr

/-! ## The conversions `std::stold` and `std::stod`

The parser hands the text of a literal to `std::stold` (outside an argument list) or to
`std::stod` (inside one).  Both call `strtold` / `strtod` on the C string, throw
`std::invalid_argument` when no character is converted and `std::out_of_range` when the C
function reports `ERANGE`.  The model decides these two outcomes exactly, on the number
written by the text, for the x86-64 System V target with the GNU C library in the "C" locale
and the default rounding (to nearest, ties to even): `long double` is the x87 extended format,
`double` is IEEE binary64.  The rounded value itself is not computed: a `Number` node keeps
the text that was converted. -/

/-- A binary floating-point format: `prec` bits of significand, finite values below
`2 ^ emax`, least normal value `2 ^ (2 - emax)`, least subnormal value
`2 ^ (3 - emax - prec)`. -/
structure FloatFormat where
  prec : Nat
  emax : Nat
  deriving DecidableEq, Repr

/-- The format of `long double` (x87 extended, `LDBL_MANT_DIG = 64`, `LDBL_MAX_EXP = 16384`). -/
def LDBL : FloatFormat := ⟨64, 16384⟩

/-- The format of `double` (`DBL_MANT_DIG = 53`, `DBL_MAX_EXP = 1024`). -/
def DBL : FloatFormat := ⟨53, 1024⟩

namespace FloatFormat

/-- The least number that is rounded beyond the largest finite value: the midpoint
`2 ^ emax - 2 ^ (emax - prec - 1)` between the largest finite value and `2 ^ emax`. -/
def overflowBound (F : FloatFormat) : Nat := 2 ^ F.emax - 2 ^ (F.emax - F.prec - 1)

/-- Whether `strtold` / `strtod` reports `ERANGE` for a text that writes the magnitude
`num / den` (with `den > 0`): the number is not zero and either overflows, or is tiny (its
rounding to `prec` bits is below the least normal value) and not a multiple of the least
subnormal value, so that the result is inexact. -/
def erange (F : FloatFormat) (num den : Nat) : Bool :=
  decide (num ≠ 0) &&
    (decide (den * F.overflowBound ≤ num) ||
      (decide (num * 2 ^ (F.emax + F.prec - 1) < den * (2 ^ (F.prec + 1) - 1)) &&
        !decide (num * 2 ^ (F.emax + F.prec - 3) % den = 0)))

end FloatFormat

/-- The natural number written by a run of decimal digits. -/
def digitsValue (ds : List Char) : Nat :=
  ds.foldl (fun acc c => acc * 10 + (c.toNat - '0'.toNat)) 0

namespace std

/-- The test `isdigit`. -/
def isdigit (c : Char) : Bool := decide ('0' ≤ c) && decide (c ≤ '9')

/-- The test `isxdigit`. -/
def isxdigit (c : Char) : Bool :=
  isdigit c || (decide ('a' ≤ c) && decide (c ≤ 'f')) || (decide ('A' ≤ c) && decide (c ≤ 'F'))

/-- The function `tolower` in the "C" locale. -/
def tolower (c : Char) : Char :=
  if 'A' ≤ c ∧ c ≤ 'Z' then Char.ofNat (c.toNat + 32) else c

/-- The value of a hexadecimal digit. -/
def xdigitValue (c : Char) : Nat :=
  if isdigit c then c.toNat - '0'.toNat
  else if 'a' ≤ c then c.toNat - 'a'.toNat + 10
  else c.toNat - 'A'.toNat + 10

/-- The natural number written by a run of hexadecimal digits. -/
def xdigitsValue (ds : List Char) : Nat :=
  ds.foldl (fun acc c => acc * 16 + xdigitValue c) 0

/-- The digits of an exponent, read as a number with the sign `neg`; zero when there is no
digit, since then the marker is not part of the number. -/
def signedDigits (neg : Bool) (s : List Char) : Int :=
  if s.takeWhile isdigit = [] then 0
  else if neg then -(digitsValue (s.takeWhile isdigit) : Int)
  else (digitsValue (s.takeWhile isdigit) : Int)

/-- The exponent part at the head of `s`: the marker (`lo` or `up`), an optional sign and at
least one decimal digit.  Without a digit there is no exponent part and the exponent is
zero. -/
def exponentOf (lo up : Char) (s : List Char) : Int :=
  match s with
  | [] => 0
  | c :: t =>
    if c = lo ∨ c = up then
      match t with
      | [] => 0
      | g :: u =>
        if g = '-' then signedDigits true u
        else if g = '+' then signedDigits false u
        else signedDigits false t
    else 0

/-- The magnitude `(num, den)`, standing for `num / den`, of a significand `m` scaled by
`b ^ sh`. -/
def scaled (m b : Nat) (sh : Int) : Nat × Nat :=
  if 0 ≤ sh then (m * b ^ sh.toNat, 1) else (m, b ^ (-sh).toNat)

/-- The digits behind a point at the head of `s`, and the text behind them; no digits when
`s` does not start with a point. -/
def fractionOf (isd : Char → Bool) (s : List Char) : List Char × List Char :=
  match s with
  | [] => ([], s)
  | c :: t => if c = '.' then (t.takeWhile isd, t.dropWhile isd) else ([], s)

/-- The decimal number at the head of `s`: digits with an optional decimal point, at least
one digit in all, then an optional exponent part `e`.  `none` when there is no digit. -/
def decimalAt (s : List Char) : Option (Nat × Nat) :=
  let ip := s.takeWhile isdigit
  let fr := fractionOf isdigit (s.dropWhile isdigit)
  if ip ++ fr.1 = [] then none
  else
    some (scaled (digitsValue (ip ++ fr.1)) 10 (exponentOf 'e' 'E' fr.2 - (fr.1.length : Int)))

/-- The hexadecimal number at the head of `s`, the text behind `0x`: hexadecimal digits with
an optional point, at least one digit in all, then an optional binary exponent part `p`. -/
def hexAt (s : List Char) : Option (Nat × Nat) :=
  let ip := s.takeWhile isxdigit
  let fr := fractionOf isxdigit (s.dropWhile isxdigit)
  if ip ++ fr.1 = [] then none
  else
    some (scaled (xdigitsValue (ip ++ fr.1)) 2
      (exponentOf 'p' 'P' fr.2 - 4 * (fr.1.length : Int)))

/-- What `strtold` finds at the head of a text: nothing, one of the words for an infinity or
a NaN, or a number of the magnitude `num / den`. -/
inductive Subject where
  | noconv
  | special
  | number (num den : Nat)
  deriving DecidableEq, Repr

/-- Whether `s` starts, in either case, with the three letters `w`. -/
def startsWithWord (w : List Char) (s : List Char) : Bool :=
  (s.take 3).map tolower == w

/-- The text behind an optional sign. -/
def skipSign (s : List Char) : List Char :=
  match s with
  | [] => s
  | c :: t => if c = '-' ∨ c = '+' then t else s

/-- The hexadecimal number behind a prefix `0x` or `0X` at the head of `s`; `none` when `s`
has no such prefix, `some none` when no hexadecimal digit follows the prefix. -/
def hexPrefixed (s : List Char) : Option (Option (Nat × Nat)) :=
  match s with
  | c :: x :: t => if c = '0' ∧ (x = 'x' ∨ x = 'X') then some (hexAt t) else none
  | _ => none

/-- The subject sequence of `strtold` / `strtod` at the head of the C string of `text` (the
characters before the first NUL): white space is skipped, a sign is read, then comes a
hexadecimal number behind `0x`, a decimal number, or one of the words `inf`, `infinity`,
`nan`.  A `0x` with no hexadecimal digit behind it is the number `0`. -/
def subject (text : List Char) : Subject :=
  let s := skipSign ((text.takeWhile (fun c => c != Char.ofNat 0)).dropWhile Lexer.isspace)
  match hexPrefixed s with
  | some (some v) => Subject.number v.1 v.2
  | some none => Subject.number 0 1
  | none =>
    match decimalAt s with
    | some v => Subject.number v.1 v.2
    | none =>
      if startsWithWord ['i', 'n', 'f'] s || startsWithWord ['n', 'a', 'n'] s then
        Subject.special
      else Subject.noconv

/-- The exception thrown by a conversion to the format `F`, `none` when it returns. -/
def sto (F : FloatFormat) (text : List Char) : Option Exn :=
  match subject text with
  | Subject.noconv => some Exn.invalid_argument
  | Subject.special => none
  | Subject.number num den => if F.erange num den then some Exn.out_of_range else none

/-- The exception thrown by `std::stold(text)`, `none` when it returns. -/
def stold (text : List Char) : Option Exn := sto LDBL text

/-- The exception thrown by `std::stod(text)`, `none` when it returns. -/
def stod (text : List Char) : Option Exn := sto DBL text

end std

/-- The mutable members of `class Parser`. -/
structure Parser where
  m_Src : List TokenHandler
  m_Pos : Nat
  m_ParensCount : Nat
  is_in_func_args : Bool
  deriving DecidableEq, Repr

/-- The outcome of running a member function: a value and the parser state after it, a
thrown exception, or an exhausted budget. -/
inductive Res (α : Type) where
  | ok (a : α) (p : Parser)
  | raise (e : Exn)
  | timeout

/-- A member function of `Parser` returning an `α`. -/
def P (α : Type) : Type := Parser → Res α

instance : Monad P where
  pure a := fun p => Res.ok a p
  bind x f := fun p =>
    match x p with
    | Res.ok a p1 => f a p1
    | Res.raise e => Res.raise e
    | Res.timeout => Res.timeout

namespace Parser

/-- Checked read `m_Src.at(i)`. -/
def vec_at (i : Nat) : P TokenHandler := fun p =>
  match p.m_Src[i]? with
  | some t => Res.ok t p
  | none => Res.raise Exn.out_of_range

def m_Get : P TokenHandler := fun p =>
  vec_at (if p.m_Pos ≥ p.m_Src.length then size_sub p.m_Src.length 1 else p.m_Pos) p

def m_Prev (x : Nat) : P TokenHandler := fun p =>
  vec_at (if p.m_Pos = 0 then 0 else size_sub p.m_Pos x) p

def not_eof : P Bool := fun p => Res.ok (decide (p.m_Pos < p.m_Src.length)) p

def m_IsAnOp (tok : Tokens) : Bool :=
  tok == Tokens.Mod || tok == Tokens.Div || tok == Tokens.Mult || tok == Tokens.Plus ||
    tok == Tokens.Minus || tok == Tokens.Pow

def m_IsValidAfterNumber (tok : TokenHandler) : Bool :=
  m_IsAnOp tok.token || tok.token == Tokens.Lparen || tok.token == Tokens.Rparen ||
    tok.token == Tokens.Digit || tok.token == Tokens.Delim || tok.token == Tokens.Edelim ||
    tok.token == Tokens.KeywordElse

def m_IsValidPunc (tok : TokenHandler) : Bool :=
  tok.token == Tokens.Digit || tok.token == Tokens.Dot || tok.token == Tokens.Delim ||
    tok.token == Tokens.Edelim || tok.token == Tokens.Minus

def m_Peek (x : Nat) : P TokenHandler := fun p =>
  vec_at
    (if size_add p.m_Pos x ≥ p.m_Src.length then size_sub p.m_Src.length 1
     else size_add p.m_Pos x) p

def m_Advance (x : Nat) : P Unit := fun p =>
  if p.m_Pos < p.m_Src.length then Res.ok () { p with m_Pos := size_add p.m_Pos x }
  else Res.ok () p

def m_IsCompareToken (tok : Tokens) : Bool :=
  tok == Tokens.GreaterThan || tok == Tokens.Equals || tok == Tokens.GreaterThanOrEqual ||
    tok == Tokens.LessThan || tok == Tokens.LessThanOrEqual

def m_IsLogical (tok : Tokens) : Bool :=
  tok == Tokens.KeywordAnd || tok == Tokens.KeywordOr

/-- The function `m_ThrowErr`: reads `m_Get().pos`, then throws. -/
def m_ThrowErr {α : Type} (err : String) (msg : String) : P α := fun p =>
  match m_Get p with
  | Res.ok t _ => Res.raise (Exn.BaseException err msg t.pos)
  | Res.raise e => Res.raise e
  | Res.timeout => Res.timeout

/-- The overload `m_Err(msg)`. -/
def m_ErrMsg {α : Type} (msg : String) : P α := m_ThrowErr "SyntaxError" msg

/-- The overload `m_Err()`. -/
def m_Err {α : Type} : P α := m_ErrMsg "invalid syntax"

/-- Read access to the member `is_in_func_args`. -/
def get_in_func_args : P Bool := fun p => Res.ok p.is_in_func_args p

/-- Assignment to the member `is_in_func_args`. -/
def set_in_func_args (b : Bool) : P Unit := fun p => Res.ok () { p with is_in_func_args := b }

/-- The statement `m_ParensCount++`. -/
def incr_ParensCount : P Unit := fun p =>
  Res.ok () { p with m_ParensCount := size_add p.m_ParensCount 1 }

/-- Read access to the member `m_Pos`. -/
def get_Pos : P Nat := fun p => Res.ok p.m_Pos p

/-- The tokens from the cursor on: `std::vector<TokenHandler> src(m_Src.begin() + m_Pos,
m_Src.end())`. -/
def get_rest : P (List TokenHandler) := fun p => Res.ok (p.m_Src.drop p.m_Pos) p

/-- The budget is spent. -/
def out_of_budget {α : Type} : P α := fun _ => Res.timeout

/-- A call of a library function that either throws the exception `e` or returns. -/
def throwing (x : Option Exn) : P Unit := fun p =>
  match x with
  | some e => Res.raise e
  | none => Res.ok () p

/-- The `while` loop of `m_GetDigit`, with the locals `temp`, `is_decimal`, `contains_e`. -/
def m_GetDigitLoop : Nat → List Char → Bool → Bool → P (List Char)
  | 0, _, _, _ => out_of_budget
  | n + 1, temp, is_decimal, contains_e => do
    let ne ← not_eof
    if ne then
      let t ← m_Get
      if m_IsValidPunc t then
        if t.token = Tokens.Digit then do
          m_Advance 1
          m_GetDigitLoop n (temp ++ t.value) is_decimal contains_e
        else if t.token = Tokens.Dot then
          if is_decimal then m_Err
          else do
            m_Advance 1
            m_GetDigitLoop n (temp ++ t.value) true contains_e
        else if t.token = Tokens.Edelim then
          if contains_e then m_Err
          else do
            m_Advance 1
            m_GetDigitLoop n (temp ++ t.value) is_decimal true
        else if t.token = Tokens.Minus then
          if contains_e then do
            let pv ← m_Prev 1
            if pv.token = Tokens.Edelim then do
              m_Advance 1
              m_GetDigitLoop n (temp ++ t.value) is_decimal contains_e
            else pure temp
          else pure temp
        else do
          m_Advance 1
          m_GetDigitLoop n temp is_decimal contains_e
      else pure temp
    else pure temp

def m_GetDigit (n : Nat) : P (List Char) := m_GetDigitLoop n [] false false

mutual

/-- The body of the `do ... while` of `m_ParseFunctionArgs`, then its loop test. -/
def m_ParseFunctionArgsLoop : Nat → List Expr → P (List Expr)
  | 0, _ => out_of_budget
  | n + 1, args => do
    let t ← m_Get
    let args1 ←
      if t.token = Tokens.Comma then do
        if args.length > 0 then do
          let pk ← m_Peek 1
          if pk.token ≠ Tokens.Rparen then do
            let ne ← not_eof
            if ne then do
              m_Advance 1
              pure args
            else m_Err
          else m_Err
        else m_Err
      else do
        let ne ← not_eof
        if !ne then m_ThrowErr "ParseError" "EOF while parsing function arguments "
        else do
          let e ← m_ParseComp n
          pure (args ++ [e])
    let t2 ← m_Get
    if t2.token ≠ Tokens.Rparen then m_ParseFunctionArgsLoop n args1 else pure args1

def m_ParseFunctionArgs : Nat → P (List Expr)
  | 0 => out_of_budget
  | n + 1 => do
    set_in_func_args true
    let t ← m_Get
    let args ← if t.token ≠ Tokens.Rparen then m_ParseFunctionArgsLoop n [] else pure []
    let t2 ← m_Get
    if t2.token ≠ Tokens.Rparen then
      m_ThrowErr "SyntaxError" "expected \x27)\x27 after arguments list"
    else do
      set_in_func_args false
      m_Advance 1
      pure args

/-- The body of the `do ... while` of `m_ParseFunctionDefArgs`, then its loop test. -/
def m_ParseFunctionDefArgsLoop : Nat → List Expr → P (List Expr)
  | 0, _ => out_of_budget
  | n + 1, args => do
    let t ← m_Get
    let args1 ←
      if t.token = Tokens.Comma then do
        if args.length > 0 then do
          let pk ← m_Peek 1
          if pk.token ≠ Tokens.Rparen then do
            let ne ← not_eof
            if ne then do
              m_Advance 1
              pure args
            else m_Err
          else m_Err
        else m_Err
      else do
        let ne ← not_eof
        if !ne then m_ThrowErr "ParseError" "EOF while parsing function arguments "
        else do
          let temp ← m_ParseComp n
          if temp.isIdentifier then pure (args ++ [temp])
          else m_ThrowErr "TypeError" "expected identifier in function\x27s arguments"
    let t2 ← m_Get
    if t2.token ≠ Tokens.Rparen then m_ParseFunctionDefArgsLoop n args1 else pure args1

def m_ParseFunctionDefArgs : Nat → P (List Expr)
  | 0 => out_of_budget
  | n + 1 => do
    set_in_func_args true
    let t ← m_Get
    let args ← if t.token ≠ Tokens.Rparen then m_ParseFunctionDefArgsLoop n [] else pure []
    let t2 ← m_Get
    if t2.token ≠ Tokens.Rparen then
      m_ThrowErr "SyntaxError" "expected \x27)\x27 after arguments list"
    else do
      set_in_func_args false
      m_Advance 1
      pure args

def m_ParseFunctionDefOrCall : Nat → TokenHandler → P Expr
  | 0, _ => out_of_budget
  | n + 1, tok => do
    let name := tok.value
    let src ← get_rest
    let get_rparen := src.findIdx (fun t => t.token == Tokens.Rparen)
    let get_fdef := src.findIdx (fun t => t.token == Tokens.FunctionDef)
    let contains_fdef := decide (get_fdef ≠ src.length)
    let invalid_fdef := decide (get_fdef < get_rparen)
    let args ←
      if contains_fdef && !invalid_fdef then m_ParseFunctionDefArgs n
      else if !contains_fdef then m_ParseFunctionArgs n
      else pure []
    m_Advance 1
    if contains_fdef then do
      let body ← m_ParseComp n
      m_Advance NEG_ONE
      pure (Expr.Function name body args)
    else do
      m_Advance NEG_ONE
      pure (Expr.FunctionCall name args)

/-- The `while` loop of `m_ParseIdentAssign`. -/
def m_ParseIdentAssignLoop : Nat → Expr → P Expr
  | 0, _ => out_of_budget
  | n + 1, value => do
    let ne ← not_eof
    if ne then
      let t ← m_Get
      if t.token ≠ Tokens.Semicolon then do
        m_Advance 1
        let value1 ← m_ParseComp n
        m_ParseIdentAssignLoop n value1
      else pure value
    else pure value

def m_ParseIdentAssign : Nat → P Expr
  | 0 => out_of_budget
  | n + 1 => do
    let value ← m_ParseComp n
    m_ParseIdentAssignLoop n value

/-- The `while` loop of `m_ParseComp`. -/
def m_ParseCompLoop : Nat → Expr → P Expr
  | 0, _ => out_of_budget
  | n + 1, out => do
    let ne ← not_eof
    if ne then
      let t ← m_Get
      if m_IsCompareToken t.token then
        if t.token = Tokens.GreaterThan then do
          m_Advance 1
          let r ← m_ParseExpr n
          m_ParseCompLoop n (Expr.Comparaison Op.Greater out r)
        else if t.token = Tokens.GreaterThanOrEqual then do
          m_Advance 1
          let r ← m_ParseExpr n
          m_ParseCompLoop n (Expr.Comparaison Op.GreaterOrEqual out r)
        else if t.token = Tokens.LessThan then do
          m_Advance 1
          let r ← m_ParseExpr n
          m_ParseCompLoop n (Expr.Comparaison Op.Less out r)
        else if t.token = Tokens.LessThanOrEqual then do
          m_Advance 1
          let r ← m_ParseExpr n
          m_ParseCompLoop n (Expr.Comparaison Op.LessOrEqual out r)
        else if t.token = Tokens.Equals then do
          m_Advance 1
          let r ← m_ParseExpr n
          m_ParseCompLoop n (Expr.Comparaison Op.Equals out r)
        else m_ParseCompLoop n out
      else pure out
    else pure out

def m_ParseComp : Nat → P Expr
  | 0 => out_of_budget
  | n + 1 => do
    let out ← m_ParseExpr n
    m_ParseCompLoop n out

/-- The `while` loop of `m_ParseExpr`. -/
def m_ParseExprLoop : Nat → Expr → P Expr
  | 0, _ => out_of_budget
  | n + 1, out => do
    let ne ← not_eof
    if ne then
      let t ← m_Get
      if t.token = Tokens.Plus ∨ t.token = Tokens.Minus then
        if t.token = Tokens.Plus then do
          m_Advance 1
          let r ← m_ParseTerm n
          m_ParseExprLoop n (Expr.BinaryOpExpr Op.Plus out (some r))
        else if t.token = Tokens.Minus then do
          m_Advance 1
          let r ← m_ParseTerm n
          m_ParseExprLoop n (Expr.BinaryOpExpr Op.Minus out (some r))
        else m_ParseExprLoop n out
      else pure out
    else pure out

def m_ParseExpr : Nat → P Expr
  | 0 => out_of_budget
  | n + 1 => do
    let out ← m_ParseTerm n
    m_ParseExprLoop n out

/-- The `while` loop of `m_ParseTerm`. -/
def m_ParseTermLoop : Nat → Expr → P Expr
  | 0, _ => out_of_budget
  | n + 1, out => do
    let ne ← not_eof
    if ne then
      let t ← m_Get
      if t.token = Tokens.Mult ∨ t.token = Tokens.Div then
        if t.token = Tokens.Mult then do
          m_Advance 1
          let r ← m_ParseSu n
          m_ParseTermLoop n (Expr.BinaryOpExpr Op.Mult out (some r))
        else if t.token = Tokens.Div then do
          m_Advance 1
          let r ← m_ParseSu n
          m_ParseTermLoop n (Expr.BinaryOpExpr Op.Div out (some r))
        else m_ParseTermLoop n out
      else pure out
    else pure out

def m_ParseTerm : Nat → P Expr
  | 0 => out_of_budget
  | n + 1 => do
    let out ← m_ParseSu n
    m_ParseTermLoop n out

/-- The `while` loop of `m_ParseSu`. -/
def m_ParseSuLoop : Nat → Expr → P Expr
  | 0, _ => out_of_budget
  | n + 1, out => do
    let ne ← not_eof
    if ne then
      let t ← m_Get
      if t.token = Tokens.Pow ∨ t.token = Tokens.Mod then
        if t.token = Tokens.Pow then do
          m_Advance 1
          let r ← m_ParseLogical n
          m_ParseSuLoop n (Expr.BinaryOpExpr Op.Pow out (some r))
        else if t.token = Tokens.Mod then do
          m_Advance 1
          let r ← m_ParseLogical n
          m_ParseSuLoop n (Expr.BinaryOpExpr Op.Mod out (some r))
        else m_ParseSuLoop n out
      else pure out
    else pure out

def m_ParseSu : Nat → P Expr
  | 0 => out_of_budget
  | n + 1 => do
    let out ← m_ParseLogical n
    m_ParseSuLoop n out

/-- The `while` loop of `m_ParseLogical`. -/
def m_ParseLogicalLoop : Nat → Expr → P Expr
  | 0, _ => out_of_budget
  | n + 1, out => do
    let ne ← not_eof
    if ne then
      let t ← m_Get
      if m_IsLogical t.token then
        if t.token = Tokens.KeywordAnd then do
          m_Advance 1
          let r ← m_ParseFactor n
          m_ParseLogicalLoop n (Expr.LogicalExpr Op.LogicalAnd out r)
        else if t.token = Tokens.KeywordOr then do
          m_Advance 1
          let r ← m_ParseFactor n
          m_ParseLogicalLoop n (Expr.LogicalExpr Op.LogicalOr out r)
        else if t.token = Tokens.KeywordNot then
          m_ParseLogicalLoop n (Expr.NotExpr out)
        else m_ParseLogicalLoop n out
      else pure out
    else pure out

def m_ParseLogical : Nat → P Expr
  | 0 => out_of_budget
  | n + 1 => do
    let out ← m_ParseFactor n
    m_ParseLogicalLoop n out

def m_ParseFactor : Nat → P Expr
  | 0 => out_of_budget
  | n + 1 => do
    let tok ← m_Get
    if tok.token = Tokens.Lparen then do
      incr_ParensCount
      m_Advance 1
      let ne ← not_eof
      if ne then do
        let out ← m_ParseComp n
        let t ← m_Get
        if t.token ≠ Tokens.Rparen then m_Err
        else do
          m_Advance 1
          pure out
      else m_Err
    else if tok.token = Tokens.Digit then do
      let ne ← not_eof
      let in_args ← get_in_func_args
      if ne && !in_args then do
        let pk ← m_Peek 1
        if m_IsValidAfterNumber pk || m_IsCompareToken pk.token || m_IsLogical pk.token then do
          let text ← m_GetDigit n
          throwing (std.stold text)
          pure (Expr.Number text)
        else m_Err
      else do
        m_Advance 1
        throwing (std.stod tok.value)
        pure (Expr.Number tok.value)
    else if tok.token = Tokens.Plus then do
      let ne ← not_eof
      let pos ← get_Pos
      if ne && decide (pos > 0) then do
        m_Advance 1
        let e ← m_ParseComp n
        pure (Expr.BinaryOpExpr Op.Plus e none)
      else do
        m_Advance 1
        m_Err
    else if tok.token = Tokens.Minus then do
      let ne ← not_eof
      if ne then do
        m_Advance 1
        let t ← m_Get
        if t.token = Tokens.Lparen ∨ t.token = Tokens.Identifier ∨ t.token = Tokens.Digit ∨
            t.token = Tokens.Boolean then do
          let e ← m_ParseComp n
          pure (Expr.NegativeExpr e)
        else do
          let e ← m_ParseComp n
          pure (Expr.BinaryOpExpr Op.Minus e none)
      else m_Err
    else if tok.token = Tokens.Identifier then do
      let pk ← m_Peek 1
      if pk.token = Tokens.Assign then do
        m_Advance 2
        let name := tok.value
        let body ← m_ParseIdentAssign n
        pure (Expr.UserDefinedIdentifier name body)
      else if pk.token = Tokens.Lparen then do
        m_Advance 2
        m_ParseFunctionDefOrCall n tok
      else do
        m_Advance 1
        pure (Expr.Identifier tok.value)
    else if tok.token = Tokens.Boolean then do
      m_Advance 1
      pure (Expr.Boolean tok.value)
    else if tok.token = Tokens.Semicolon then do
      m_Advance 2
      m_ParseComp n
    else if tok.token = Tokens.KeywordIf then do
      m_Advance 1
      let t ← m_Get
      if t.token = Tokens.Lparen then do
        let cond ← m_ParseComp n
        m_Advance NEG_ONE
        let t2 ← m_Get
        if t2.token ≠ Tokens.Rparen then
          m_ErrMsg ("expected a closing \x27)\x27 for \x27if\x27 found \x27" ++
            String.mk t2.value ++ "\x27")
        else do
          m_Advance 1
          let ne ← not_eof
          if !ne then m_ErrMsg "expected an expression after \x27if\x27 statement"
          else do
            let stmt1 ← m_ParseComp n
            let t3 ← m_Get
            if t3.token = Tokens.KeywordElse then do
              let ne2 ← not_eof
              if !ne2 then m_ErrMsg "expected an expression after \x27else\x27 statement"
              else do
                m_Advance 1
                let stmt2 ← m_ParseComp n
                pure (Expr.IfExpr cond stmt1 (some stmt2))
            else pure (Expr.IfExpr cond stmt1 none)
      else
        m_ErrMsg ("expected a \x27(\x27 after keyword \x27if\x27 found \x27" ++
          String.mk t.value ++ "\x27")
    else if tok.token = Tokens.KeywordNull then do
      m_Advance 1
      pure Expr.NullExpr
    else if tok.token = Tokens.KeywordNot then do
      let ne ← not_eof
      if ne then do
        m_Advance 1
        let e ← m_ParseComp n
        pure (Expr.NotExpr e)
      else m_Err
    else m_Err

end

/-- The constructor `Parser(_tok, str, file)`, run on the freshly initialised members. -/
def ctor (_tok : List TokenHandler) : Res Unit :=
  if _tok.length > 0 then
    Res.ok () { m_Src := _tok, m_Pos := 0, m_ParensCount := 0, is_in_func_args := false }
  else
    m_ThrowErr "ParseError" "invalid input"
      { m_Src := [], m_Pos := 0, m_ParensCount := 0, is_in_func_args := false }

/-- The entry point `parse()`. -/
def parse (n : Nat) : P Expr := m_ParseComp n

/-- The `while (not_eof())` loop of `parsevec`. -/
def parsevecLoop : Nat → List Expr → P (List Expr)
  | 0, _ => out_of_budget
  | n + 1, exprs => do
    let ne ← not_eof
    if ne then do
      let e ← m_ParseComp n
      parsevecLoop n (exprs ++ [e])
    else pure exprs

/-- The entry point `parsevec()`. -/
def parsevec (n : Nat) : P (List Expr) := parsevecLoop n []

end Parser

/-- Construct a parser over `toks`, then call `parse()`. -/
def parseTokens (n : Nat) (toks : List TokenHandler) : Res Expr :=
  match Parser.ctor toks with
  | Res.ok _ p => Parser.parse n p
  | Res.raise e => Res.raise e
  | Res.timeout => Res.timeout

/-- Tokenize `text` with `Lexer(text).lex()`, construct a parser over the tokens, then call
`parse()`; `none` when the lexer model does not deliver a token vector. -/
def parseText (n : Nat) (text : List Char) : Option (Res Expr) :=
  match Lexer.lex n text with
  | .ok toks => some (parseTokens n toks)
  | .error _ => none

/-! ## Auxiliary definitions for the statements -/

namespace Lexer

/-- A non-digit, or nothing, comes next. -/
def NoDigitAhead (rest : List Char) : Prop :=
  ∀ c r, rest = c :: r → m_IsDigit c = false

/-- A digit run: one or more characters `0` to `9`. -/
def DigitRun (ds : List Char) : Prop := ds ≠ [] ∧ ∀ x ∈ ds, m_IsDigit x = true

instance (ds : List Char) : Decidable (DigitRun ds) := by
  unfold DigitRun
  infer_instance

/-- The tokens of `a o1 b o2 c` for digit runs `a`, `b`, `c` and two one-character
operators `o1`, `o2` of kinds `T1`, `T2`. -/
def binTokens (a b c : List Char) (o1 : Char) (T1 : Tokens) (o2 : Char) (T2 : Tokens) :
    List TokenHandler :=
  [⟨a, Tokens.Digit, a.length - 1⟩, ⟨[o1], T1, a.length⟩,
   ⟨b, Tokens.Digit, a.length + 1 + b.length - 1⟩, ⟨[o2], T2, a.length + 1 + b.length⟩,
   ⟨c, Tokens.Digit, a.length + 1 + b.length + 1 + c.length - 1⟩]

end Lexer

/-- The tokens of the text `1'000'000.5e-2`. -/
def literalTokens : List TokenHandler :=
  [⟨['1'], Tokens.Digit, 0⟩, ⟨[Char.ofNat 39], Tokens.Delim, 1⟩,
   ⟨['0', '0', '0'], Tokens.Digit, 4⟩, ⟨[Char.ofNat 39], Tokens.Delim, 5⟩,
   ⟨['0', '0', '0'], Tokens.Digit, 8⟩, ⟨['.'], Tokens.Dot, 9⟩, ⟨['5'], Tokens.Digit, 10⟩,
   ⟨['e'], Tokens.Edelim, 11⟩, ⟨['-'], Tokens.Minus, 12⟩, ⟨['2'], Tokens.Digit, 13⟩]

/-- The tokens of the text `f(x) = x + 1`. -/
def defTokens : List TokenHandler :=
  [⟨['f'], Tokens.Identifier, 0⟩, ⟨['('], Tokens.Lparen, 1⟩, ⟨['x'], Tokens.Identifier, 2⟩,
   ⟨[')'], Tokens.Rparen, 3⟩, ⟨['='], Tokens.Assign, 5⟩, ⟨['x'], Tokens.Identifier, 7⟩,
   ⟨['+'], Tokens.Plus, 9⟩, ⟨['1'], Tokens.Digit, 11⟩]

/-- The tokens of the text `if (a < b) a else b`. -/
def ifTokens : List TokenHandler :=
  [⟨['i', 'f'], Tokens.KeywordIf, 1⟩, ⟨['('], Tokens.Lparen, 3⟩, ⟨['a'], Tokens.Identifier, 4⟩,
   ⟨['<'], Tokens.LessThan, 6⟩, ⟨['b'], Tokens.Identifier, 8⟩, ⟨[')'], Tokens.Rparen, 9⟩,
   ⟨['a'], Tokens.Identifier, 11⟩, ⟨['e', 'l', 's', 'e'], Tokens.Identifier, 16⟩,
   ⟨['b'], Tokens.Identifier, 18⟩]

/-- The tokens of the text `f(a,,b)`. -/
def commaTokens : List TokenHandler :=
  [⟨['f'], Tokens.Identifier, 0⟩, ⟨['('], Tokens.Lparen, 1⟩, ⟨['a'], Tokens.Identifier, 2⟩,
   ⟨[','], Tokens.Comma, 3⟩, ⟨[','], Tokens.Comma, 4⟩, ⟨['b'], Tokens.Identifier, 5⟩,
   ⟨[')'], Tokens.Rparen, 6⟩]

/-! ### The number written by a literal text -/

/-- The decimal number written by a literal text of the form `digits[.digits][e[-]digits]`,
as a pair `(m, x)` that stands for `m * 10 ^ x`.  This is the exact number that the
conversion `std::stold` of the parser rounds to a `long double`; the rounding itself is not
modelled. -/
def decimalOf (text : List Char) : Option (Nat × Int) :=
  let ip := text.takeWhile Lexer.m_IsDigit
  let r1 := text.dropWhile Lexer.m_IsDigit
  let fr : List Char × List Char :=
    match r1 with
    | '.' :: t => (t.takeWhile Lexer.m_IsDigit, t.dropWhile Lexer.m_IsDigit)
    | _ => ([], r1)
  if ip ++ fr.1 = [] then none
  else
    match fr.2 with
    | [] => some (digitsValue (ip ++ fr.1), -(fr.1.length : Int))
    | 'e' :: '-' :: ex =>
      if ex ≠ [] ∧ ex.all Lexer.m_IsDigit = true then
        some (digitsValue (ip ++ fr.1), -(digitsValue ex : Int) - (fr.1.length : Int))
      else none
    | 'e' :: ex =>
      if ex ≠ [] ∧ ex.all Lexer.m_IsDigit = true then
        some (digitsValue (ip ++ fr.1), (digitsValue ex : Int) - (fr.1.length : Int))
      else none
    | _ => none

/-! ### Nested negation -/

/-- The text of `j` copies of `-(`. -/
def prefixText (j : Nat) : List Char := (List.replicate j ['-', '(']).flatten

/-- The text `-(-( ... -d ... ))`: `j` copies of `-(`, then `-d`, then `j` closing `)`. -/
def negText (j : Nat) (d : List Char) : List Char :=
  prefixText j ++ '-' :: (d ++ List.replicate j ')')

/-- The tokens of `j` copies of `-(` that start at offset `off` of the text. -/
def prefixTokens : Nat → Nat → List TokenHandler
  | _, 0 => []
  | off, j + 1 =>
    ⟨['-'], Tokens.Minus, off⟩ :: ⟨['('], Tokens.Lparen, off + 1⟩ :: prefixTokens (off + 2) j

/-- The tokens of `j` closing `)` that start at offset `off` of the text. -/
def suffixTokens : Nat → Nat → List TokenHandler
  | _, 0 => []
  | off, j + 1 => ⟨[')'], Tokens.Rparen, off⟩ :: suffixTokens (off + 1) j

/-- The tokens of `negText j d`. -/
def negTokens (j : Nat) (d : List Char) : List TokenHandler :=
  prefixTokens 0 j ++
    (⟨['-'], Tokens.Minus, 2 * j⟩ :: ⟨d, Tokens.Digit, 2 * j + 1 + d.length - 1⟩ ::
      suffixTokens (2 * j + 1 + d.length) j)

/-- The chain of `j + 1` nodes `NegativeExpr` around `Number d`. -/
def negTree : Nat → List Char → Expr
  | 0, d => Expr.NegativeExpr (Expr.Number d)
  | j + 1, d => Expr.NegativeExpr (negTree j d)

namespace Parser

/-- What may follow a parenthesised group or a number at the end of a nested negation:
nothing, or an Rparen token. -/
def PostOk (post : List TokenHandler) : Prop :=
  post = [] ∨ ∃ t l, post = t :: l ∧ t.token = Tokens.Rparen

end Parser

/-! ### Boolean comparison of results

`Expr` is a nested inductive type, for which equality is not decidable out of the box.  The
functions below compare two results structurally; `Expr.eq_of_beq` and its companions show
that a positive answer implies equality, which lets the kernel check a run by evaluation. -/

mutual

/-- Structural comparison of two trees. -/
def Expr.beq : Expr → Expr → Bool
  | Expr.Number a, x =>
    match x with
    | Expr.Number b => decide (a = b)
    | _ => false
  | Expr.BinaryOpExpr o l r, x =>
    match x with
    | Expr.BinaryOpExpr o2 l2 r2 => decide (o = o2) && Expr.beq l l2 && Expr.beqOpt r r2
    | _ => false
  | Expr.Comparaison o l r, x =>
    match x with
    | Expr.Comparaison o2 l2 r2 => decide (o = o2) && Expr.beq l l2 && Expr.beq r r2
    | _ => false
  | Expr.LogicalExpr o l r, x =>
    match x with
    | Expr.LogicalExpr o2 l2 r2 => decide (o = o2) && Expr.beq l l2 && Expr.beq r r2
    | _ => false
  | Expr.NotExpr a, x =>
    match x with
    | Expr.NotExpr b => Expr.beq a b
    | _ => false
  | Expr.NegativeExpr a, x =>
    match x with
    | Expr.NegativeExpr b => Expr.beq a b
    | _ => false
  | Expr.Identifier a, x =>
    match x with
    | Expr.Identifier b => decide (a = b)
    | _ => false
  | Expr.UserDefinedIdentifier n b, x =>
    match x with
    | Expr.UserDefinedIdentifier n2 b2 => decide (n = n2) && Expr.beq b b2
    | _ => false
  | Expr.Function n b as, x =>
    match x with
    | Expr.Function n2 b2 as2 => decide (n = n2) && Expr.beq b b2 && Expr.beqList as as2
    | _ => false
  | Expr.FunctionCall n as, x =>
    match x with
    | Expr.FunctionCall n2 as2 => decide (n = n2) && Expr.beqList as as2
    | _ => false
  | Expr.Boolean a, x =>
    match x with
    | Expr.Boolean b => decide (a = b)
    | _ => false
  | Expr.IfExpr c s t, x =>
    match x with
    | Expr.IfExpr c2 s2 t2 => Expr.beq c c2 && Expr.beq s s2 && Expr.beqOpt t t2
    | _ => false
  | Expr.NullExpr, x =>
    match x with
    | Expr.NullExpr => true
    | _ => false

/-- Structural comparison of two optional children. -/
def Expr.beqOpt : Option Expr → Option Expr → Bool
  | none, x =>
    match x with
    | none => true
    | _ => false
  | some a, x =>
    match x with
    | some b => Expr.beq a b
    | _ => false

/-- Structural comparison of two argument vectors. -/
def Expr.beqList : List Expr → List Expr → Bool
  | [], x =>
    match x with
    | [] => true
    | _ => false
  | a :: as, x =>
    match x with
    | b :: bs => Expr.beq a b && Expr.beqList as bs
    | _ => false

end

/-- Comparison of two results, given a comparison of their values. -/
def Res.beqWith {α : Type} (eq : α → α → Bool) : Res α → Res α → Bool
  | Res.ok a p, Res.ok b q => eq a b && decide (p = q)
  | Res.raise e, Res.raise f => decide (e = f)
  | Res.timeout, Res.timeout => true
  | _, _ => false

/-- Comparison of the outcomes of `parseText`. -/
def beqText : Option (Res Expr) → Option (Res Expr) → Bool
  | some r, some s => Res.beqWith Expr.beq r s
  | none, none => true
  | _, _ => false

namespace Parser

/-- The run `x` approximates the run `y`: wherever `x` ends within its budget, `y` ends with
the same result. -/
def Le {α : Type} (x y : P α) : Prop := ∀ p, x p = Res.timeout ∨ y p = x p

/-- Every parsing function with budget `n` approximates itself with budget `n + 1`. -/
structure MonoAt (n : Nat) : Prop where
  argsLoop : ∀ args, Le (m_ParseFunctionArgsLoop n args) (m_ParseFunctionArgsLoop (n + 1) args)
  args : Le (m_ParseFunctionArgs n) (m_ParseFunctionArgs (n + 1))
  defArgsLoop : ∀ args,
    Le (m_ParseFunctionDefArgsLoop n args) (m_ParseFunctionDefArgsLoop (n + 1) args)
  defArgs : Le (m_ParseFunctionDefArgs n) (m_ParseFunctionDefArgs (n + 1))
  defOrCall : ∀ tok, Le (m_ParseFunctionDefOrCall n tok) (m_ParseFunctionDefOrCall (n + 1) tok)
  assignLoop : ∀ value,
    Le (m_ParseIdentAssignLoop n value) (m_ParseIdentAssignLoop (n + 1) value)
  assign : Le (m_ParseIdentAssign n) (m_ParseIdentAssign (n + 1))
  compLoop : ∀ out, Le (m_ParseCompLoop n out) (m_ParseCompLoop (n + 1) out)
  comp : Le (m_ParseComp n) (m_ParseComp (n + 1))
  exprLoop : ∀ out, Le (m_ParseExprLoop n out) (m_ParseExprLoop (n + 1) out)
  expr : Le (m_ParseExpr n) (m_ParseExpr (n + 1))
  termLoop : ∀ out, Le (m_ParseTermLoop n out) (m_ParseTermLoop (n + 1) out)
  term : Le (m_ParseTerm n) (m_ParseTerm (n + 1))
  suLoop : ∀ out, Le (m_ParseSuLoop n out) (m_ParseSuLoop (n + 1) out)
  su : Le (m_ParseSu n) (m_ParseSu (n + 1))
  logicalLoop : ∀ out, Le (m_ParseLogicalLoop n out) (m_ParseLogicalLoop (n + 1) out)
  logical : Le (m_ParseLogical n) (m_ParseLogical (n + 1))
  factor : Le (m_ParseFactor n) (m_ParseFactor (n + 1))

end Parser

namespace Parser

/-- The binary operators that the loops of `m_ParseLogical`, `m_ParseSu`, `m_ParseTerm`,
`m_ParseExpr` and `m_ParseComp` look for. -/
def isInfix (k : Tokens) : Bool :=
  m_IsLogical k || k == Tokens.Pow || k == Tokens.Mod || k == Tokens.Mult || k == Tokens.Div ||
    k == Tokens.Plus || k == Tokens.Minus || m_IsCompareToken k

/-- No binary operator is under the cursor: the cursor is past the end, or on a token that
none of the five operator loops accepts. -/
def Quiet (p : Parser) : Prop :=
  p.m_Src.length ≤ p.m_Pos ∨ ∃ t, p.m_Src[p.m_Pos]? = some t ∧ isInfix t.token = false

end Parser

namespace Parser

/-- An argument that is a single token: an Identifier, or a Digit whose text `std::stod`
converts without throwing. -/
def IsArg (a : TokenHandler) : Prop :=
  (a.token = Tokens.Digit ∧ std.stod a.value = none) ∨ a.token = Tokens.Identifier

instance (a : TokenHandler) : Decidable (IsArg a) := by
  unfold IsArg
  infer_instance

/-- The tree of a one-token argument: `Number` for a Digit token, `Identifier` otherwise. -/
def leafOf (a : TokenHandler) : Expr :=
  if a.token = Tokens.Digit then Expr.Number a.value else Expr.Identifier a.value

/-- `ArgSeq body ts`: the tokens `body` are `a1, Comma, a2, ..., Comma, an` with `n ≥ 1`
one-token arguments, and `ts` are the trees of `a1, ..., an` in that order. -/
inductive ArgSeq : List TokenHandler → List Expr → Prop where
  | one (a : TokenHandler) : IsArg a → ArgSeq [a] [leafOf a]
  | cons (a c : TokenHandler) (rest : List TokenHandler) (ts : List Expr) :
      IsArg a → c.token = Tokens.Comma → ArgSeq rest ts →
      ArgSeq (a :: c :: rest) (leafOf a :: ts)

end Parser

/-! ### Literals beyond the range of the conversions -/

/-- Whether a run of the lexer delivered the token vector `toks`. -/
def lexIs (r : Except Fault (List TokenHandler)) (toks : List TokenHandler) : Bool :=
  match r with
  | .ok t => decide (t = toks)
  | .error _ => false

/-- The digit run `1` followed by 4933 zeros: the number `10 ^ 4933`, beyond the largest
`long double`. -/
def longRun : List Char := '1' :: List.replicate 4933 '0'

/-- The digit run `1` followed by 309 zeros: the number `10 ^ 309`, beyond the largest
`double`. -/
def longArg : List Char := '1' :: List.replicate 309 '0'

/-- The digit run `1` followed by 2499 zeros: the number `10 ^ 2499`. -/
def halfRun : List Char := '1' :: List.replicate 2499 '0'

/-- The digit run of 2500 nines: the number `10 ^ 2500 - 1`. -/
def ninesRun : List Char := List.replicate 2500 '9'

/-- The tokens of the text `a;x b+c`. -/
def semiSkipTokens : List TokenHandler :=
  [⟨['a'], Tokens.Identifier, 0⟩, ⟨[';'], Tokens.Semicolon, 1⟩, ⟨['x'], Tokens.Identifier, 2⟩,
   ⟨['b'], Tokens.Identifier, 4⟩, ⟨['+'], Tokens.Plus, 5⟩, ⟨['c'], Tokens.Identifier, 6⟩]

/-! ### Whole-input runs of `parsevec` and re-tokenizing -/

/-- Construct a parser over `toks`, then call `parsevec()`. -/
def parsevecTokens (n : Nat) (toks : List TokenHandler) : Res (List Expr) :=
  match Parser.ctor toks with
  | Res.ok _ p => Parser.parsevec n p
  | Res.raise e => Res.raise e
  | Res.timeout => Res.timeout

/-- Tokenize `text` with `Lexer(text).lex()`, construct a parser over the tokens, then call
`parsevec()`; `none` when the lexer model does not deliver a token vector. -/
def parsevecText (n : Nat) (text : List Char) : Option (Res (List Expr)) :=
  match Lexer.lex n text with
  | .ok toks => some (parsevecTokens n toks)
  | .error _ => none

/-- The texts of the tokens, joined with single spaces. -/
def joinTexts : List TokenHandler → List Char
  | [] => []
  | [t] => t.value
  | t :: u :: ts => t.value ++ ' ' :: joinTexts (u :: ts)

/-- The sequence of token kinds. -/
def kindsOf (toks : List TokenHandler) : List Tokens := toks.map (fun t => t.token)

namespace Parser

/-- The token kinds of a numeric literal: Digit, Dot, Delim and the exponent marker. -/
def IsLiteralKind (t : TokenHandler) : Prop :=
  t.token = Tokens.Digit ∨ t.token = Tokens.Dot ∨ t.token = Tokens.Delim ∨
    t.token = Tokens.Edelim

instance (t : TokenHandler) : Decidable (IsLiteralKind t) := by
  unfold IsLiteralKind
  infer_instance

/-- The number of Dot tokens. -/
def countDot (toks : List TokenHandler) : Nat :=
  toks.countP (fun t => decide (t.token = Tokens.Dot))

/-- The number of exponent-marker tokens. -/
def countEdelim (toks : List TokenHandler) : Nat :=
  toks.countP (fun t => decide (t.token = Tokens.Edelim))

end Parser

/-- The tokens of the text `1.2.3`. -/
def twoDotTokens : List TokenHandler :=
  [⟨['1'], Tokens.Digit, 0⟩, ⟨['.'], Tokens.Dot, 1⟩, ⟨['2'], Tokens.Digit, 2⟩,
   ⟨['.'], Tokens.Dot, 3⟩, ⟨['3'], Tokens.Digit, 4⟩]

namespace Lexer

/-- The characters with a `case` label of their own in the `switch` of `lex`, the letter `e`
apart. -/
def isPunct (c : Char) : Bool :=
  c == '*' || c == '+' || c == '-' || c == '/' || c == '(' || c == ')' || c == '^' ||
    c == '%' || c == ',' || c == '.' || c == Char.ofNat 39 || c == '=' || c == '<' ||
    c == '>' || c == ';'

/-- A character that is not white space, a digit, a letter, `_` or one of the operator and
punctuation characters. -/
def isOther (c : Char) : Bool :=
  !isPunct c && !m_IsDigit c && !m_IsAlpha c && !isspace c

/-- The texts of the Unkown tokens, in order. -/
def unknownTexts (toks : List TokenHandler) : List (List Char) :=
  (toks.filter (fun t => decide (t.token = Tokens.Unkown))).map (fun t => t.value)

/-- The characters of the source that satisfy `isOther`, in order, each as a text of one
character. -/
def otherChars (src : List Char) : List (List Char) :=
  (src.filter isOther).map (fun c => [c])

end Lexer

/-- The tokens of the text `a;b+c`. -/
def semiTokens : List TokenHandler :=
  [⟨['a'], Tokens.Identifier, 0⟩, ⟨[';'], Tokens.Semicolon, 1⟩, ⟨['b'], Tokens.Identifier, 2⟩,
   ⟨['+'], Tokens.Plus, 3⟩, ⟨['c'], Tokens.Identifier, 4⟩]

/-- The tokens of the text `f(g(1), 2, 3)`. -/
def nestedFirstTokens : List TokenHandler :=
  [⟨['f'], Tokens.Identifier, 0⟩, ⟨['('], Tokens.Lparen, 1⟩, ⟨['g'], Tokens.Identifier, 2⟩,
   ⟨['('], Tokens.Lparen, 3⟩, ⟨['1'], Tokens.Digit, 4⟩, ⟨[')'], Tokens.Rparen, 5⟩,
   ⟨[','], Tokens.Comma, 6⟩, ⟨['2'], Tokens.Digit, 8⟩, ⟨[','], Tokens.Comma, 9⟩,
   ⟨['3'], Tokens.Digit, 11⟩, ⟨[')'], Tokens.Rparen, 12⟩]

/-- The tokens of the text `f(2, g(1), 3)`. -/
def nestedSecondTokens : List TokenHandler :=
  [⟨['f'], Tokens.Identifier, 0⟩, ⟨['('], Tokens.Lparen, 1⟩, ⟨['2'], Tokens.Digit, 2⟩,
   ⟨[','], Tokens.Comma, 3⟩, ⟨['g'], Tokens.Identifier, 5⟩, ⟨['('], Tokens.Lparen, 6⟩,
   ⟨['1'], Tokens.Digit, 7⟩, ⟨[')'], Tokens.Rparen, 8⟩, ⟨[','], Tokens.Comma, 9⟩,
   ⟨['3'], Tokens.Digit, 11⟩, ⟨[')'], Tokens.Rparen, 12⟩]

/-- The tokens of the text `x==y`. -/
def eqTokens : List TokenHandler :=
  [⟨['x'], Tokens.Identifier, 0⟩, ⟨['=', '='], Tokens.Equals, 1⟩, ⟨['='], Tokens.Assign, 2⟩,
   ⟨['y'], Tokens.Identifier, 3⟩]

/-- The tokens of the text `x == = y`. -/
def eqAgainTokens : List TokenHandler :=
  [⟨['x'], Tokens.Identifier, 0⟩, ⟨['=', '='], Tokens.Equals, 2⟩, ⟨['='], Tokens.Assign, 3⟩,
   ⟨['='], Tokens.Assign, 5⟩, ⟨['y'], Tokens.Identifier, 7⟩]

/-- The tokens of the text `a;`. -/
def identSemiTokens : List TokenHandler :=
  [⟨['a'], Tokens.Identifier, 0⟩, ⟨[';'], Tokens.Semicolon, 1⟩]

/-- The tokens of the text `if (c) -x`. -/
def ifNegTokens : List TokenHandler :=
  [⟨['i', 'f'], Tokens.KeywordIf, 1⟩, ⟨['('], Tokens.Lparen, 3⟩, ⟨['c'], Tokens.Identifier, 4⟩,
   ⟨[')'], Tokens.Rparen, 5⟩, ⟨['-'], Tokens.Minus, 7⟩, ⟨['x'], Tokens.Identifier, 8⟩]

/-- The tokens of the text `if (c) x`. -/
def ifPlainTokens : List TokenHandler :=
  [⟨['i', 'f'], Tokens.KeywordIf, 1⟩, ⟨['('], Tokens.Lparen, 3⟩, ⟨['c'], Tokens.Identifier, 4⟩,
   ⟨[')'], Tokens.Rparen, 5⟩, ⟨['x'], Tokens.Identifier, 7⟩]

/-- The tokens of the text `((a)`. -/
def openParenTokens : List TokenHandler :=
  [⟨['('], Tokens.Lparen, 0⟩, ⟨['('], Tokens.Lparen, 1⟩, ⟨['a'], Tokens.Identifier, 2⟩,
   ⟨[')'], Tokens.Rparen, 3⟩]

/-- The number of tokens of the kind `k`. -/
def countKind (k : Tokens) (toks : List TokenHandler) : Nat :=
  toks.countP (fun t => decide (t.token = k))

/-- The tokens of the text `f(a) b`. -/
def callThenIdentTokens : List TokenHandler :=
  [⟨['f'], Tokens.Identifier, 0⟩, ⟨['('], Tokens.Lparen, 1⟩, ⟨['a'], Tokens.Identifier, 2⟩,
   ⟨[')'], Tokens.Rparen, 3⟩, ⟨['b'], Tokens.Identifier, 5⟩]

/-- The tokens of the text `f(a)+`. -/
def callThenPlusTokens : List TokenHandler :=
  [⟨['f'], Tokens.Identifier, 0⟩, ⟨['('], Tokens.Lparen, 1⟩, ⟨['a'], Tokens.Identifier, 2⟩,
   ⟨[')'], Tokens.Rparen, 3⟩, ⟨['+'], Tokens.Plus, 4⟩]

/-- The tokens of the text `f(a) b c`. -/
def callThenTwoTokens : List TokenHandler :=
  [⟨['f'], Tokens.Identifier, 0⟩, ⟨['('], Tokens.Lparen, 1⟩, ⟨['a'], Tokens.Identifier, 2⟩,
   ⟨[')'], Tokens.Rparen, 3⟩, ⟨['b'], Tokens.Identifier, 5⟩, ⟨['c'], Tokens.Identifier, 7⟩]

/-- The two Digit tokens of the text made of the digit run `d1`, the white space `ws` and the
digit run `d2`: the lexer records for each token the offset of its last character. -/
def twoDigitTokens (d1 ws d2 : List Char) : List TokenHandler :=
  [⟨d1, Tokens.Digit, d1.length - 1⟩,
   ⟨d2, Tokens.Digit, d1.length + ws.length + d2.length - 1⟩]

/-! # Theorems -/

/-! ## The conversions on digit runs -/

namespace Lexer

theorem m_IsDigit_of_isspace {c : Char} (hs : isspace c = true) : m_IsDigit c = false := by
  have hcases : ((((c = ' ' ∨ c = '\t') ∨ c = '\n') ∨ c = Char.ofNat 11) ∨
      c = Char.ofNat 12) ∨ c = '\r' := by
    simpa [isspace] using hs
  rcases hcases with ((((h | h) | h) | h) | h) | h <;> subst h <;> decide

theorem ne_of_m_IsDigit {d c : Char} (hd : m_IsDigit d = true) (hc : m_IsDigit c = false) :
    ¬ (d = c) := by
  intro h
  rw [h, hc] at hd
  cases hd

theorem digitRun_append {a b : List Char} (ha : DigitRun a) (hb : DigitRun b) :
    DigitRun (a ++ b) := by
  refine ⟨?_, ?_⟩
  · intro h
    exact ha.1 (List.append_eq_nil.mp h).1
  · intro x hx
    rcases List.mem_append.mp hx with h | h
    · exact ha.2 x h
    · exact hb.2 x h

end Lexer

namespace std

theorem takeWhile_all {α : Type} (p : α → Bool) (l : List α) (h : ∀ x ∈ l, p x = true) :
    l.takeWhile p = l := by
  induction l with
  | nil => rfl
  | cons a l ih =>
    rw [List.takeWhile_cons, h a (by simp), ih (fun x hx => h x (by simp [hx]))]
    rfl

theorem dropWhile_all {α : Type} (p : α → Bool) (l : List α) (h : ∀ x ∈ l, p x = true) :
    l.dropWhile p = [] := by
  induction l with
  | nil => rfl
  | cons a l ih =>
    rw [List.dropWhile_cons, h a (by simp), ih (fun x hx => h x (by simp [hx]))]
    rfl

/-- The subject sequence of a run of decimal digits is the whole run, read as a natural
number. -/
theorem subject_digitRun (d : List Char) (hd : Lexer.DigitRun d) :
    subject d = Subject.number (digitsValue d) 1 := by
  obtain ⟨hne, hall⟩ := hd
  have h1 : d.takeWhile (fun c => c != Char.ofNat 0) = d := by
    apply takeWhile_all
    intro x hx
    have := Lexer.ne_of_m_IsDigit (hall x hx) (c := Char.ofNat 0) (by decide)
    simpa using this
  have h2 : d.takeWhile isdigit = d := takeWhile_all _ _ hall
  have h3 : d.dropWhile isdigit = [] := dropWhile_all _ _ hall
  cases d with
  | nil => exact absurd rfl hne
  | cons c t =>
    have hc : Lexer.m_IsDigit c = true := hall c (by simp)
    have hs : Lexer.isspace c = false := by
      cases h : Lexer.isspace c with
      | false => rfl
      | true =>
        have := Lexer.m_IsDigit_of_isspace h
        rw [hc] at this
        cases this
    have hm : ¬ (c = '-' ∨ c = '+') := by
      intro h
      rcases h with h | h
      · exact Lexer.ne_of_m_IsDigit hc (by decide) h
      · exact Lexer.ne_of_m_IsDigit hc (by decide) h
    have hx : hexPrefixed (c :: t) = none := by
      cases t with
      | nil => rfl
      | cons x u =>
        have hxd : Lexer.m_IsDigit x = true := hall x (by simp)
        have hn : ¬ (c = '0' ∧ (x = 'x' ∨ x = 'X')) := by
          intro h
          rcases h.2 with h | h
          · exact Lexer.ne_of_m_IsDigit hxd (by decide) h
          · exact Lexer.ne_of_m_IsDigit hxd (by decide) h
        simp only [hexPrefixed, hn, if_false]
    have hdec : decimalAt (c :: t) = some (digitsValue (c :: t), 1) := by
      unfold decimalAt
      simp only [h2, h3, fractionOf, List.append_nil, List.length_nil, exponentOf, scaled]
      simp
    unfold subject
    rw [h1]
    simp only [List.dropWhile_cons, hs, skipSign, hm, if_false, hx, hdec, Bool.false_eq_true]

/-- A conversion returns on a run of decimal digits whose value is below the overflow bound
of the format. -/
theorem sto_digitRun (F : FloatFormat) (d : List Char) (hd : Lexer.DigitRun d)
    (h : digitsValue d < F.overflowBound) : sto F d = none := by
  have he : F.erange (digitsValue d) 1 = false := by
    unfold FloatFormat.erange
    simp [Nat.mod_one]
    intro _
    exact h
  unfold sto
  rw [subject_digitRun d hd]
  simp only [he, Bool.false_eq_true, if_false]

/-- A conversion throws `std::out_of_range` on a run of decimal digits whose value reaches
the overflow bound of the format. -/
theorem sto_digitRun_overflow (F : FloatFormat) (d : List Char) (hd : Lexer.DigitRun d)
    (h0 : 0 < F.overflowBound) (h : F.overflowBound ≤ digitsValue d) :
    sto F d = some Exn.out_of_range := by
  have he : F.erange (digitsValue d) 1 = true := by
    unfold FloatFormat.erange
    have h2 : digitsValue d ≠ 0 := by omega
    simp [h2]
    exact Or.inl h
  unfold sto
  rw [subject_digitRun d hd]
  simp only [he, if_true]

end std

/-! ## Soundness of the boolean comparison -/

theorem Expr.beq_sound (a : Expr) : ∀ b, Expr.beq a b = true → a = b := by
  refine Expr.rec (motive_1 := fun a => ∀ b, Expr.beq a b = true → a = b)
    (motive_2 := fun a => ∀ b, Expr.beqOpt a b = true → a = b)
    (motive_3 := fun a => ∀ b, Expr.beqList a b = true → a = b)
    ?_ ?_ ?_ ?_ ?_ ?_ ?_ ?_ ?_ ?_ ?_ ?_ ?_ ?_ ?_ ?_ ?_ a
  · intro t b h
    cases b <;> simp [Expr.beq] at h
    rw [h]
  · intro o l r ihl ihr b h
    cases b <;> simp [Expr.beq] at h
    rw [h.1.1, ihl _ h.1.2, ihr _ h.2]
  · intro o l r ihl ihr b h
    cases b <;> simp [Expr.beq] at h
    rw [h.1.1, ihl _ h.1.2, ihr _ h.2]
  · intro o l r ihl ihr b h
    cases b <;> simp [Expr.beq] at h
    rw [h.1.1, ihl _ h.1.2, ihr _ h.2]
  · intro x ih b h
    cases b <;> simp [Expr.beq] at h
    rw [ih _ h]
  · intro x ih b h
    cases b <;> simp [Expr.beq] at h
    rw [ih _ h]
  · intro t b h
    cases b <;> simp [Expr.beq] at h
    rw [h]
  · intro n x ih b h
    cases b <;> simp [Expr.beq] at h
    rw [h.1, ih _ h.2]
  · intro n x as ih ihas b h
    cases b <;> simp [Expr.beq] at h
    rw [h.1.1, ih _ h.1.2, ihas _ h.2]
  · intro n as ihas b h
    cases b <;> simp [Expr.beq] at h
    rw [h.1, ihas _ h.2]
  · intro t b h
    cases b <;> simp [Expr.beq] at h
    rw [h]
  · intro c s t ihc ihs iht b h
    cases b <;> simp [Expr.beq] at h
    rw [ihc _ h.1.1, ihs _ h.1.2, iht _ h.2]
  · intro b h
    cases b <;> simp [Expr.beq] at h
    rfl
  · intro b h
    cases b <;> simp [Expr.beqOpt] at h
    rfl
  · intro x ih b h
    cases b <;> simp [Expr.beqOpt] at h
    rw [ih _ h]
  · intro b h
    cases b <;> simp [Expr.beqList] at h
    rfl
  · intro x xs ih ihs b h
    cases b <;> simp [Expr.beqList] at h
    rw [ih _ h.1, ihs _ h.2]

theorem Res.beqWith_sound {α : Type} (eq : α → α → Bool)
    (heq : ∀ a b, eq a b = true → a = b) (r s : Res α) (h : Res.beqWith eq r s = true) :
    r = s := by
  cases r <;> cases s <;> simp [Res.beqWith] at h
  · rw [heq _ _ h.1, h.2]
  · rw [h]
  · rfl

theorem beqText_sound (r s : Option (Res Expr)) (h : beqText r s = true) : r = s := by
  cases r <;> cases s <;> simp [beqText] at h
  · rfl
  · rw [Res.beqWith_sound Expr.beq (fun a b => Expr.beq_sound a b) _ _ h]

/-! ## A larger budget does not change a finished run -/

namespace Parser

theorem Le.refl {α : Type} (x : P α) : Le x x := fun _ => Or.inr rfl

theorem Le.bot {α : Type} (y : P α) : Le out_of_budget y := fun _ => Or.inl rfl

theorem Le.trans {α : Type} {x y z : P α} (h1 : Le x y) (h2 : Le y z) : Le x z := by
  intro p
  rcases h1 p with h | h
  · exact Or.inl h
  · rcases h2 p with h3 | h3
    · left
      rw [← h, h3]
    · right
      rw [h3, h]

theorem Le.bind {α β : Type} {x y : P α} {f g : α → P β} (hx : Le x y)
    (hf : ∀ a, Le (f a) (g a)) : Le (x >>= f) (y >>= g) := by
  intro p
  show (match x p with
      | Res.ok a p1 => f a p1
      | Res.raise e => Res.raise e
      | Res.timeout => Res.timeout) = Res.timeout ∨
    (match y p with
      | Res.ok a p1 => g a p1
      | Res.raise e => Res.raise e
      | Res.timeout => Res.timeout) =
    (match x p with
      | Res.ok a p1 => f a p1
      | Res.raise e => Res.raise e
      | Res.timeout => Res.timeout)
  rcases hx p with h | h
  · left
    rw [h]
  · rw [h]
    cases hxp : x p with
    | ok a p1 => exact hf a p1
    | raise e => right; rfl
    | timeout => left; rfl

theorem Le.ite {α : Type} (c : Prop) [Decidable c] {x y x1 y1 : P α} (h : Le x y)
    (h1 : Le x1 y1) : Le (if c then x else x1) (if c then y else y1) := by
  by_cases hc : c
  · rw [if_pos hc, if_pos hc]; exact h
  · rw [if_neg hc, if_neg hc]; exact h1

theorem m_GetDigitLoop_le (n : Nat) : ∀ (temp : List Char) (d e : Bool),
    Le (m_GetDigitLoop n temp d e) (m_GetDigitLoop (n + 1) temp d e) := by
  induction n with
  | zero =>
    intro temp d e
    rw [m_GetDigitLoop]
    exact Le.bot _
  | succ n ih =>
    intro temp d e
    rw [m_GetDigitLoop, m_GetDigitLoop]
    repeat' first
      | with_reducible refine Le.bind ?_ (fun _ => ?_)
      | with_reducible refine Le.ite _ ?_ ?_
      | with_reducible exact ih _ _ _
      | with_reducible exact Le.refl _

theorem m_GetDigit_le (n : Nat) : Le (m_GetDigit n) (m_GetDigit (n + 1)) :=
  m_GetDigitLoop_le n [] false false

theorem mono_zero : MonoAt 0 := by
  constructor <;> intros <;>
    first
    | (rw [m_ParseFunctionArgsLoop]; exact Le.bot _)
    | (rw [m_ParseFunctionArgs]; exact Le.bot _)
    | (rw [m_ParseFunctionDefArgsLoop]; exact Le.bot _)
    | (rw [m_ParseFunctionDefArgs]; exact Le.bot _)
    | (rw [m_ParseFunctionDefOrCall]; exact Le.bot _)
    | (rw [m_ParseIdentAssignLoop]; exact Le.bot _)
    | (rw [m_ParseIdentAssign]; exact Le.bot _)
    | (rw [m_ParseCompLoop]; exact Le.bot _)
    | (rw [m_ParseComp]; exact Le.bot _)
    | (rw [m_ParseExprLoop]; exact Le.bot _)
    | (rw [m_ParseExpr]; exact Le.bot _)
    | (rw [m_ParseTermLoop]; exact Le.bot _)
    | (rw [m_ParseTerm]; exact Le.bot _)
    | (rw [m_ParseSuLoop]; exact Le.bot _)
    | (rw [m_ParseSu]; exact Le.bot _)
    | (rw [m_ParseLogicalLoop]; exact Le.bot _)
    | (rw [m_ParseLogical]; exact Le.bot _)
    | (rw [m_ParseFactor]; exact Le.bot _)

theorem mono_succ (n : Nat) (ih : MonoAt n) : MonoAt (n + 1) := by
  have hd := m_GetDigit_le n
  constructor
  · intro args
    rw [m_ParseFunctionArgsLoop, m_ParseFunctionArgsLoop]
    repeat' first
      | with_reducible refine Le.bind ?_ (fun _ => ?_)
      | with_reducible refine Le.ite _ ?_ ?_
      | with_reducible exact ih.argsLoop _
      | with_reducible exact ih.comp
      | with_reducible exact Le.refl _
  · rw [m_ParseFunctionArgs, m_ParseFunctionArgs]
    repeat' first
      | with_reducible refine Le.bind ?_ (fun _ => ?_)
      | with_reducible refine Le.ite _ ?_ ?_
      | with_reducible exact ih.argsLoop _
      | with_reducible exact Le.refl _
  · intro args
    rw [m_ParseFunctionDefArgsLoop, m_ParseFunctionDefArgsLoop]
    repeat' first
      | with_reducible refine Le.bind ?_ (fun _ => ?_)
      | with_reducible refine Le.ite _ ?_ ?_
      | with_reducible exact ih.defArgsLoop _
      | with_reducible exact ih.comp
      | with_reducible exact Le.refl _
  · rw [m_ParseFunctionDefArgs, m_ParseFunctionDefArgs]
    repeat' first
      | with_reducible refine Le.bind ?_ (fun _ => ?_)
      | with_reducible refine Le.ite _ ?_ ?_
      | with_reducible exact ih.defArgsLoop _
      | with_reducible exact Le.refl _
  · intro tok
    rw [m_ParseFunctionDefOrCall, m_ParseFunctionDefOrCall]
    repeat' first
      | with_reducible refine Le.bind ?_ (fun _ => ?_)
      | with_reducible refine Le.ite _ ?_ ?_
      | with_reducible exact ih.defArgs
      | with_reducible exact ih.args
      | with_reducible exact ih.comp
      | with_reducible exact Le.refl _
  · intro value
    rw [m_ParseIdentAssignLoop, m_ParseIdentAssignLoop]
    repeat' first
      | with_reducible refine Le.bind ?_ (fun _ => ?_)
      | with_reducible refine Le.ite _ ?_ ?_
      | with_reducible exact ih.assignLoop _
      | with_reducible exact ih.comp
      | with_reducible exact Le.refl _
  · rw [m_ParseIdentAssign, m_ParseIdentAssign]
    repeat' first
      | with_reducible refine Le.bind ?_ (fun _ => ?_)
      | with_reducible refine Le.ite _ ?_ ?_
      | with_reducible exact ih.assignLoop _
      | with_reducible exact ih.comp
  · intro out
    rw [m_ParseCompLoop, m_ParseCompLoop]
    repeat' first
      | with_reducible refine Le.bind ?_ (fun _ => ?_)
      | with_reducible refine Le.ite _ ?_ ?_
      | with_reducible exact ih.compLoop _
      | with_reducible exact ih.expr
      | with_reducible exact Le.refl _
  · rw [m_ParseComp, m_ParseComp]
    repeat' first
      | with_reducible refine Le.bind ?_ (fun _ => ?_)
      | with_reducible refine Le.ite _ ?_ ?_
      | with_reducible exact ih.compLoop _
      | with_reducible exact ih.expr
  · intro out
    rw [m_ParseExprLoop, m_ParseExprLoop]
    repeat' first
      | with_reducible refine Le.bind ?_ (fun _ => ?_)
      | with_reducible refine Le.ite _ ?_ ?_
      | with_reducible exact ih.exprLoop _
      | with_reducible exact ih.term
      | with_reducible exact Le.refl _
  · rw [m_ParseExpr, m_ParseExpr]
    repeat' first
      | with_reducible refine Le.bind ?_ (fun _ => ?_)
      | with_reducible refine Le.ite _ ?_ ?_
      | with_reducible exact ih.exprLoop _
      | with_reducible exact ih.term
  · intro out
    rw [m_ParseTermLoop, m_ParseTermLoop]
    repeat' first
      | with_reducible refine Le.bind ?_ (fun _ => ?_)
      | with_reducible refine Le.ite _ ?_ ?_
      | with_reducible exact ih.termLoop _
      | with_reducible exact ih.su
      | with_reducible exact Le.refl _
  · rw [m_ParseTerm, m_ParseTerm]
    repeat' first
      | with_reducible refine Le.bind ?_ (fun _ => ?_)
      | with_reducible refine Le.ite _ ?_ ?_
      | with_reducible exact ih.termLoop _
      | with_reducible exact ih.su
  · intro out
    rw [m_ParseSuLoop, m_ParseSuLoop]
    repeat' first
      | with_reducible refine Le.bind ?_ (fun _ => ?_)
      | with_reducible refine Le.ite _ ?_ ?_
      | with_reducible exact ih.suLoop _
      | with_reducible exact ih.logical
      | with_reducible exact Le.refl _
  · rw [m_ParseSu, m_ParseSu]
    repeat' first
      | with_reducible refine Le.bind ?_ (fun _ => ?_)
      | with_reducible refine Le.ite _ ?_ ?_
      | with_reducible exact ih.suLoop _
      | with_reducible exact ih.logical
  · intro out
    rw [m_ParseLogicalLoop, m_ParseLogicalLoop]
    repeat' first
      | with_reducible refine Le.bind ?_ (fun _ => ?_)
      | with_reducible refine Le.ite _ ?_ ?_
      | with_reducible exact ih.logicalLoop _
      | with_reducible exact ih.factor
      | with_reducible exact Le.refl _
  · rw [m_ParseLogical, m_ParseLogical]
    repeat' first
      | with_reducible refine Le.bind ?_ (fun _ => ?_)
      | with_reducible refine Le.ite _ ?_ ?_
      | with_reducible exact ih.logicalLoop _
      | with_reducible exact ih.factor
  · rw [m_ParseFactor, m_ParseFactor]
    repeat' first
      | with_reducible refine Le.bind ?_ (fun _ => ?_)
      | with_reducible refine Le.ite _ ?_ ?_
      | with_reducible exact ih.comp
      | with_reducible exact ih.assign
      | with_reducible exact ih.defOrCall _
      | with_reducible exact hd
      | with_reducible exact Le.refl _

theorem mono_all (n : Nat) : MonoAt n := by
  induction n with
  | zero => exact mono_zero
  | succ n ih => exact mono_succ n ih

theorem m_ParseComp_le_add (n k : Nat) : Le (m_ParseComp n) (m_ParseComp (n + k)) := by
  induction k with
  | zero => exact Le.refl _
  | succ k ih => exact Le.trans ih (mono_all (n + k)).comp

end Parser

/-- A run of `parseTokens` that ends within the budget `n` ends with the same result for
every larger budget. -/
theorem parseTokens_mono (n : Nat) (toks : List TokenHandler) (r : Res Expr)
    (h : parseTokens n toks = r) (hr : r ≠ Res.timeout) (k : Nat) :
    parseTokens (n + k) toks = r := by
  unfold parseTokens at h ⊢
  cases hc : Parser.ctor toks with
  | ok u p =>
    rw [hc] at h
    simp only [] at h ⊢
    rcases Parser.m_ParseComp_le_add n k p with h1 | h1
    · exfalso
      apply hr
      rw [← h]
      exact h1
    · unfold Parser.parse at h ⊢
      rw [h1, h]
  | raise e =>
    rw [hc] at h
    exact h
  | timeout =>
    rw [hc] at h
    exact h



/-! ## Arithmetic on `std::size_t` -/

theorem size_add_of_lt {a b : Nat} (h : a + b < SIZE_MOD) : size_add a b = a + b := by
  unfold size_add
  exact Nat.mod_eq_of_lt h

theorem size_add_neg_one {a : Nat} (h0 : 0 < a) (h : a < SIZE_MOD) :
    size_add a NEG_ONE = a - 1 := by
  unfold size_add NEG_ONE SIZE_MOD at *
  omega

theorem getElem?_mid {α : Type} (pre rest : List α) (c : α) :
    (pre ++ c :: rest)[pre.length]? = some c := by
  rw [List.getElem?_append_right (Nat.le_refl _)]
  simp

/-! ## The lexer on digit runs and one-character tokens -/

namespace Lexer

theorem src_at_mid (pre rest : List Char) (c : Char) :
    src_at (pre ++ c :: rest) pre.length = .ok c := by
  unfold src_at
  rw [getElem?_mid]

theorem m_Get_mid (toks : List TokenHandler) (pre rest : List Char) (c : Char) :
    m_Get ⟨toks, pre.length, pre ++ c :: rest⟩ = .ok c := by
  unfold m_Get
  have h : ¬ (pre.length ≥ (pre ++ c :: rest).length) := by simp
  simp only [h, if_false]
  exact src_at_mid pre rest c

theorem not_eof_mid (toks : List TokenHandler) (pre rest : List Char) (c : Char) :
    not_eof ⟨toks, pre.length, pre ++ c :: rest⟩ = true := by
  simp [not_eof]

theorem not_eof_end (toks : List TokenHandler) (pre : List Char) :
    not_eof ⟨toks, pre.length, pre ++ []⟩ = false := by
  simp [not_eof]

theorem m_GetDigitLoop_run (toks : List TokenHandler) (ds : List Char) :
    ∀ (pre rest temp : List Char) (m : Nat),
      (∀ x ∈ ds, m_IsDigit x = true) → NoDigitAhead rest →
      (pre ++ (ds ++ rest)).length < SIZE_MOD → ds.length + 1 ≤ m →
      m_GetDigitLoop m ⟨toks, pre.length, pre ++ (ds ++ rest)⟩ temp =
        .ok (temp ++ ds, ⟨toks, pre.length + ds.length, pre ++ (ds ++ rest)⟩) := by
  induction ds with
  | nil =>
    intro pre rest temp m _ hrest hlen hm
    obtain ⟨n, rfl⟩ : ∃ n, m = n + 1 := ⟨m - 1, by simp at hm; omega⟩
    cases rest with
    | nil =>
      rw [m_GetDigitLoop, List.nil_append, not_eof_end]
      simp
    | cons c r =>
      have hc := hrest c r rfl
      rw [m_GetDigitLoop, List.nil_append, not_eof_mid, m_Get_mid]
      simp [hc]
  | cons d ds ih =>
    intro pre rest temp m hds hrest hlen hm
    obtain ⟨n, rfl⟩ : ∃ n, m = n + 1 := ⟨m - 1, by simp at hm; omega⟩
    have hd : m_IsDigit d = true := hds d (by simp)
    have hpos : size_add pre.length 1 = (pre ++ [d]).length := by
      rw [size_add_of_lt]
      · simp
      · simp at hlen; omega
    have hsrc : pre ++ (d :: ds ++ rest) = (pre ++ [d]) ++ (ds ++ rest) := by simp
    have ih1 := ih (pre ++ [d]) rest (temp ++ [d]) n (fun x hx => hds x (by simp [hx])) hrest
      (by rw [← hsrc]; exact hlen) (by simp at hm ⊢; omega)
    rw [m_GetDigitLoop, List.cons_append, not_eof_mid, m_Get_mid]
    simp only [if_true, hd, m_Advance, hpos]
    rw [← List.cons_append, hsrc, ih1]
    simp
    omega

theorem m_GetDigit_run (toks : List TokenHandler) (d : Char) (ds pre rest : List Char) (m : Nat)
    (hds : ∀ x ∈ d :: ds, m_IsDigit x = true) (hrest : NoDigitAhead rest)
    (hlen : (pre ++ (d :: ds ++ rest)).length < SIZE_MOD) (hm : ds.length + 2 ≤ m) :
    m_GetDigit m ⟨toks, pre.length, pre ++ (d :: ds ++ rest)⟩ =
      .ok (d :: ds, ⟨toks, pre.length + ds.length, pre ++ (d :: ds ++ rest)⟩) := by
  unfold m_GetDigit
  rw [m_GetDigitLoop_run toks (d :: ds) pre rest [] m hds hrest hlen (by simp; omega)]
  simp only [m_Advance, List.nil_append]
  rw [size_add_neg_one (by simp) (by simp at hlen ⊢; omega)]
  simp

theorem lexSwitch_digit (m : Nat) (d : Char) (l : Lexer) (hd : m_IsDigit d = true) :
    lexSwitch m d l = lexDefault m l := by
  have key : ∀ c, m_IsDigit c = false → ¬ (d = c) := by
    intro c hc h
    rw [h, hc] at hd
    cases hd
  unfold lexSwitch
  rw [if_neg (key '*' (by decide)), if_neg (key '+' (by decide)), if_neg (key '-' (by decide)),
    if_neg (key '/' (by decide)), if_neg (key '(' (by decide)), if_neg (key ')' (by decide)),
    if_neg (key '^' (by decide)), if_neg (key '%' (by decide)), if_neg (key ',' (by decide)),
    if_neg (key '.' (by decide)), if_neg (key (Char.ofNat 39) (by decide)),
    if_neg (key 'e' (by decide)), if_neg (key '=' (by decide)), if_neg (key '<' (by decide)),
    if_neg (key '>' (by decide)), if_neg (key ';' (by decide))]

theorem lexLoop_end (m : Nat) (toks : List TokenHandler) (src : List Char) (pos : Nat)
    (hpos : pos = src.length) : lexLoop (m + 1) ⟨toks, pos, src⟩ = .ok toks := by
  subst hpos
  simp [lexLoop]

theorem lexLoop_single (m : Nat) (toks : List TokenHandler) (src : List Char) (pos : Nat)
    (pre rest : List Char) (c : Char) (T : Tokens)
    (hsrc : src = pre ++ c :: rest) (hpos : pos = pre.length) (hlen : src.length < SIZE_MOD)
    (hsw : ∀ l, lexSwitch m c l = .ok (l.m_AddTok T [c])) :
    lexLoop (m + 1) ⟨toks, pos, src⟩ = lexLoop m ⟨toks ++ [⟨[c], T, pos⟩], pos + 1, src⟩ := by
  subst hsrc hpos
  have h1 : pre.length < (pre ++ c :: rest).length := by simp
  have h2 : size_add pre.length 1 = pre.length + 1 := by
    apply size_add_of_lt
    simp at hlen
    omega
  rw [lexLoop]
  simp only [h1, if_true, src_at_mid, hsw, m_AddTok, m_Advance, h2]

theorem lexLoop_digits (m : Nat) (toks : List TokenHandler) (src : List Char) (pos : Nat)
    (pre ds rest : List Char)
    (hsrc : src = pre ++ (ds ++ rest)) (hpos : pos = pre.length) (hlen : src.length < SIZE_MOD)
    (hds : DigitRun ds) (hrest : NoDigitAhead rest) (hm : ds.length + 1 ≤ m) :
    lexLoop (m + 1) ⟨toks, pos, src⟩ =
      lexLoop m ⟨toks ++ [⟨ds, Tokens.Digit, pos + ds.length - 1⟩], pos + ds.length, src⟩ := by
  obtain ⟨hne, hall⟩ := hds
  cases ds with
  | nil => exact absurd rfl hne
  | cons d ds =>
    subst hsrc hpos
    have hd : m_IsDigit d = true := hall d (by simp)
    have h1 : pre.length < (pre ++ (d :: ds ++ rest)).length := by simp
    have h2 : size_add (pre.length + ds.length) 1 = pre.length + ds.length + 1 := by
      apply size_add_of_lt
      simp at hlen
      omega
    rw [lexLoop, if_pos h1]
    simp only [List.cons_append, src_at_mid]
    rw [lexSwitch_digit _ _ _ hd, lexDefault, m_Get_mid]
    simp only [hd, if_true]
    rw [← List.cons_append, m_GetDigit_run toks d ds pre rest m hall hrest hlen
      (by simp at hm; omega)]
    simp only [m_AddTok, m_Advance, h2, List.length_cons]
    have h3 : pre.length + (ds.length + 1) - 1 = pre.length + ds.length := by omega
    have h4 : pre.length + (ds.length + 1) = pre.length + ds.length + 1 := by omega
    rw [h3, h4]

theorem lexSwitch_plus (m : Nat) (l : Lexer) :
    lexSwitch m '+' l = .ok (l.m_AddTok Tokens.Plus ['+']) := by
  simp [lexSwitch]

theorem lexSwitch_mult (m : Nat) (l : Lexer) :
    lexSwitch m '*' l = .ok (l.m_AddTok Tokens.Mult ['*']) := by
  simp [lexSwitch]

theorem lexSwitch_pow (m : Nat) (l : Lexer) :
    lexSwitch m '^' l = .ok (l.m_AddTok Tokens.Pow ['^']) := by
  simp [lexSwitch]

theorem lexSwitch_mod (m : Nat) (l : Lexer) :
    lexSwitch m '%' l = .ok (l.m_AddTok Tokens.Mod ['%']) := by
  simp [lexSwitch]

theorem lexSwitch_minus (m : Nat) (l : Lexer) :
    lexSwitch m '-' l = .ok (l.m_AddTok Tokens.Minus ['-']) := by
  simp [lexSwitch]

theorem lexSwitch_lparen (m : Nat) (l : Lexer) :
    lexSwitch m '(' l = .ok (l.m_AddTok Tokens.Lparen ['(']) := by
  simp [lexSwitch]

theorem lexSwitch_rparen (m : Nat) (l : Lexer) :
    lexSwitch m ')' l = .ok (l.m_AddTok Tokens.Rparen [')']) := by
  simp [lexSwitch]

theorem noDigitAhead_nil : NoDigitAhead [] := by
  intro c r h
  cases h

theorem noDigitAhead_cons (c : Char) (r : List Char) (hc : m_IsDigit c = false) :
    NoDigitAhead (c :: r) := by
  intro c1 r1 h
  cases h
  exact hc

theorem lex_bin (a b c : List Char) (o1 : Char) (T1 : Tokens) (o2 : Char) (T2 : Tokens)
    (ha : DigitRun a) (hb : DigitRun b) (hc : DigitRun c)
    (h1 : m_IsDigit o1 = false) (h2 : m_IsDigit o2 = false)
    (hs1 : ∀ m l, lexSwitch m o1 l = .ok (l.m_AddTok T1 [o1]))
    (hs2 : ∀ m l, lexSwitch m o2 l = .ok (l.m_AddTok T2 [o2]))
    (hlen : (a ++ o1 :: (b ++ o2 :: c)).length < SIZE_MOD) (n : Nat)
    (hn : (a ++ o1 :: (b ++ o2 :: c)).length + 2 ≤ n) :
    lex n (a ++ o1 :: (b ++ o2 :: c)) = .ok (binTokens a b c o1 T1 o2 T2) := by
  obtain ⟨k, rfl⟩ : ∃ k, n = k + (a ++ o1 :: (b ++ o2 :: c)).length + 2 :=
    ⟨n - ((a ++ o1 :: (b ++ o2 :: c)).length + 2), by omega⟩
  unfold lex
  have e0 : k + (a ++ o1 :: (b ++ o2 :: c)).length + 2 =
      (k + a.length + b.length + c.length + 3) + 1 := by
    simp
    omega
  rw [e0]
  rw [lexLoop_digits _ [] _ 0 [] a (o1 :: (b ++ o2 :: c)) (by simp) rfl hlen ha
    (noDigitAhead_cons _ _ h1) (by omega)]
  have e1 : k + a.length + b.length + c.length + 3 = (k + a.length + b.length + c.length + 2) + 1 := by
    omega
  rw [e1, lexLoop_single _ _ _ _ a (b ++ o2 :: c) o1 T1 rfl (by simp) hlen (hs1 _)]
  have e2 : k + a.length + b.length + c.length + 2 = (k + a.length + b.length + c.length + 1) + 1 := by
    omega
  rw [e2, lexLoop_digits _ _ _ _ (a ++ [o1]) b (o2 :: c) (by simp) (by simp) hlen hb
    (noDigitAhead_cons _ _ h2) (by omega)]
  have e3 : k + a.length + b.length + c.length + 1 = (k + a.length + b.length + c.length) + 1 := by
    omega
  rw [e3, lexLoop_single _ _ _ _ (a ++ o1 :: b) c o2 T2 (by simp) (by simp ; omega) hlen (hs2 _)]
  obtain ⟨j, hj⟩ : ∃ j, k + a.length + b.length + c.length = (j + c.length + 1) + 1 := by
    have : 0 < b.length := List.length_pos.mpr hb.1
    have : 0 < a.length := List.length_pos.mpr ha.1
    exact ⟨k + a.length + b.length - 2, by omega⟩
  rw [hj, lexLoop_digits _ _ _ _ (a ++ o1 :: (b ++ [o2])) c [] (by simp) (by simp ; omega) hlen hc
    noDigitAhead_nil (by omega)]
  obtain ⟨i, hi⟩ : ∃ i, j + c.length + 1 = i + 1 := ⟨j + c.length, rfl⟩
  rw [hi, lexLoop_end _ _ _ _ (by simp ; omega)]
  simp [binTokens]

end Lexer


/-! ## Running the parser step by step -/

namespace Parser

theorem bind_apply {α β : Type} (x : P α) (f : α → P β) (p : Parser) :
    (x >>= f) p =
      match x p with
      | Res.ok a p1 => f a p1
      | Res.raise e => Res.raise e
      | Res.timeout => Res.timeout := rfl

theorem bind_ok {α β : Type} (x : P α) (f : α → P β) (p p1 : Parser) (a : α)
    (h : x p = Res.ok a p1) : (x >>= f) p = f a p1 := by
  rw [bind_apply, h]

theorem bind_raise {α β : Type} (x : P α) (f : α → P β) (p : Parser) (e : Exn)
    (h : x p = Res.raise e) : (x >>= f) p = Res.raise e := by
  rw [bind_apply, h]

theorem pure_apply {α : Type} (a : α) (p : Parser) : (pure a : P α) p = Res.ok a p := rfl

theorem not_eof_apply (p : Parser) :
    not_eof p = Res.ok (decide (p.m_Pos < p.m_Src.length)) p := rfl

theorem lt_of_getElem? {α : Type} {l : List α} {i : Nat} {t : α} (h : l[i]? = some t) :
    i < l.length := by
  by_contra hc
  rw [List.getElem?_eq_none (by omega)] at h
  cases h

theorem m_Get_eq (p : Parser) (t : TokenHandler) (h : p.m_Src[p.m_Pos]? = some t) :
    m_Get p = Res.ok t p := by
  have hlt := lt_of_getElem? h
  unfold m_Get vec_at
  rw [if_neg (by omega), h]

theorem m_Peek_eq (p : Parser) (t : TokenHandler) (h : p.m_Src[p.m_Pos + 1]? = some t)
    (hlen : p.m_Src.length < SIZE_MOD) : m_Peek 1 p = Res.ok t p := by
  have hlt := lt_of_getElem? h
  unfold m_Peek vec_at
  rw [size_add_of_lt (by omega), if_neg (by omega), h]

theorem size_sub_one {a : Nat} (h : 0 < a) : size_sub a 1 = a - 1 := by
  unfold size_sub
  rw [if_pos (show 1 ≤ a from h)]

theorem m_Peek_clamp (p : Parser) (t : TokenHandler) (hlast : p.m_Pos + 1 = p.m_Src.length)
    (h : p.m_Src[p.m_Pos]? = some t) (hlen : p.m_Src.length < SIZE_MOD) :
    m_Peek 1 p = Res.ok t p := by
  unfold m_Peek vec_at
  rw [size_add_of_lt (by omega), if_pos (by omega), size_sub_one (by omega)]
  have e : p.m_Src.length - 1 = p.m_Pos := by omega
  rw [e, h]

theorem m_Advance_eq (src : List TokenHandler) (pos c : Nat) (f : Bool) (x : Nat)
    (h : pos < src.length) (hx : pos + x < SIZE_MOD) :
    m_Advance x ⟨src, pos, c, f⟩ = Res.ok () ⟨src, pos + x, c, f⟩ := by
  unfold m_Advance
  simp only [h, if_true]
  rw [size_add_of_lt hx]

theorem m_Advance_eof (p : Parser) (x : Nat) (h : p.m_Src.length ≤ p.m_Pos) :
    m_Advance x p = Res.ok () p := by
  unfold m_Advance
  rw [if_neg (by omega)]

theorem isInfix_false {k : Tokens} (h : isInfix k = false) :
    m_IsLogical k = false ∧ ¬ (k = Tokens.Pow ∨ k = Tokens.Mod) ∧
      ¬ (k = Tokens.Mult ∨ k = Tokens.Div) ∧ ¬ (k = Tokens.Plus ∨ k = Tokens.Minus) ∧
      m_IsCompareToken k = false := by
  cases k <;> simp [isInfix, m_IsLogical, m_IsCompareToken] at h ⊢

theorem m_ParseLogicalLoop_quiet (n : Nat) (out : Expr) (p : Parser) (h : Quiet p) :
    m_ParseLogicalLoop (n + 1) out p = Res.ok out p := by
  rw [m_ParseLogicalLoop, bind_apply, not_eof_apply]
  rcases h with h | ⟨t, ht, hk⟩
  · have e : decide (p.m_Pos < p.m_Src.length) = false := by simp; omega
    simp only [e]
    rfl
  · have e : decide (p.m_Pos < p.m_Src.length) = true := by simp; exact lt_of_getElem? ht
    simp only [e, if_true]
    rw [bind_apply, m_Get_eq p t ht]
    simp only [(isInfix_false hk).1]
    rfl

theorem m_ParseSuLoop_quiet (n : Nat) (out : Expr) (p : Parser) (h : Quiet p) :
    m_ParseSuLoop (n + 1) out p = Res.ok out p := by
  rw [m_ParseSuLoop, bind_apply, not_eof_apply]
  rcases h with h | ⟨t, ht, hk⟩
  · have e : decide (p.m_Pos < p.m_Src.length) = false := by simp; omega
    simp only [e]
    rfl
  · have e : decide (p.m_Pos < p.m_Src.length) = true := by simp; exact lt_of_getElem? ht
    simp only [e, if_true]
    rw [bind_apply, m_Get_eq p t ht]
    simp only [if_neg (isInfix_false hk).2.1]
    rfl

theorem m_ParseTermLoop_quiet (n : Nat) (out : Expr) (p : Parser) (h : Quiet p) :
    m_ParseTermLoop (n + 1) out p = Res.ok out p := by
  rw [m_ParseTermLoop, bind_apply, not_eof_apply]
  rcases h with h | ⟨t, ht, hk⟩
  · have e : decide (p.m_Pos < p.m_Src.length) = false := by simp; omega
    simp only [e]
    rfl
  · have e : decide (p.m_Pos < p.m_Src.length) = true := by simp; exact lt_of_getElem? ht
    simp only [e, if_true]
    rw [bind_apply, m_Get_eq p t ht]
    simp only [if_neg (isInfix_false hk).2.2.1]
    rfl

theorem m_ParseExprLoop_quiet (n : Nat) (out : Expr) (p : Parser) (h : Quiet p) :
    m_ParseExprLoop (n + 1) out p = Res.ok out p := by
  rw [m_ParseExprLoop, bind_apply, not_eof_apply]
  rcases h with h | ⟨t, ht, hk⟩
  · have e : decide (p.m_Pos < p.m_Src.length) = false := by simp; omega
    simp only [e]
    rfl
  · have e : decide (p.m_Pos < p.m_Src.length) = true := by simp; exact lt_of_getElem? ht
    simp only [e, if_true]
    rw [bind_apply, m_Get_eq p t ht]
    simp only [if_neg (isInfix_false hk).2.2.2.1]
    rfl

theorem m_ParseCompLoop_quiet (n : Nat) (out : Expr) (p : Parser) (h : Quiet p) :
    m_ParseCompLoop (n + 1) out p = Res.ok out p := by
  rw [m_ParseCompLoop, bind_apply, not_eof_apply]
  rcases h with h | ⟨t, ht, hk⟩
  · have e : decide (p.m_Pos < p.m_Src.length) = false := by simp; omega
    simp only [e]
    rfl
  · have e : decide (p.m_Pos < p.m_Src.length) = true := by simp; exact lt_of_getElem? ht
    simp only [e, if_true]
    rw [bind_apply, m_Get_eq p t ht]
    simp only [(isInfix_false hk).2.2.2.2]
    rfl

/-- A factor after which no binary operator follows is the whole comparison-level
expression. -/
theorem m_ParseComp_of_factor (n : Nat) (p p1 : Parser) (e : Expr)
    (hf : m_ParseFactor (n + 1) p = Res.ok e p1) (hq : Quiet p1) :
    m_ParseComp (n + 6) p = Res.ok e p1 := by
  have h1 : m_ParseLogical (n + 2) p = Res.ok e p1 := by
    rw [m_ParseLogical, bind_ok _ _ _ _ _ hf, m_ParseLogicalLoop_quiet n e p1 hq]
  have h2 : m_ParseSu (n + 3) p = Res.ok e p1 := by
    rw [m_ParseSu, bind_ok _ _ _ _ _ h1, m_ParseSuLoop_quiet (n + 1) e p1 hq]
  have h3 : m_ParseTerm (n + 4) p = Res.ok e p1 := by
    rw [m_ParseTerm, bind_ok _ _ _ _ _ h2, m_ParseTermLoop_quiet (n + 2) e p1 hq]
  have h4 : m_ParseExpr (n + 5) p = Res.ok e p1 := by
    rw [m_ParseExpr, bind_ok _ _ _ _ _ h3, m_ParseExprLoop_quiet (n + 3) e p1 hq]
  rw [m_ParseComp, bind_ok _ _ _ _ _ h4, m_ParseCompLoop_quiet (n + 4) e p1 hq]

theorem m_Err_any (α : Type) (p : Parser) (t : TokenHandler)
    (h : p.m_Src[p.m_Pos]? = some t) :
    (m_Err : P α) p = Res.raise (Exn.BaseException "SyntaxError" "invalid syntax" t.pos) := by
  unfold m_Err m_ErrMsg m_ThrowErr
  rw [m_Get_eq p t h]

theorem m_Err_eq (p : Parser) (t : TokenHandler) (h : p.m_Src[p.m_Pos]? = some t) :
    (m_Err : P Expr) p = Res.raise (Exn.BaseException "SyntaxError" "invalid syntax" t.pos) :=
  m_Err_any Expr p t h

theorem m_Err_text_eq (p : Parser) (t : TokenHandler) (h : p.m_Src[p.m_Pos]? = some t) :
    (m_Err : P (List Char)) p =
      Res.raise (Exn.BaseException "SyntaxError" "invalid syntax" t.pos) :=
  m_Err_any (List Char) p t h

/-- An exception thrown by the factor passes through the whole expression chain. -/
theorem m_ParseComp_raise_of_factor (n : Nat) (p : Parser) (e : Exn)
    (hf : m_ParseFactor (n + 1) p = Res.raise e) : m_ParseComp (n + 6) p = Res.raise e := by
  have h1 : m_ParseLogical (n + 2) p = Res.raise e := by
    rw [m_ParseLogical]; exact bind_raise _ _ _ _ hf
  have h2 : m_ParseSu (n + 3) p = Res.raise e := by
    rw [m_ParseSu]; exact bind_raise _ _ _ _ h1
  have h3 : m_ParseTerm (n + 4) p = Res.raise e := by
    rw [m_ParseTerm]; exact bind_raise _ _ _ _ h2
  have h4 : m_ParseExpr (n + 5) p = Res.raise e := by
    rw [m_ParseExpr]; exact bind_raise _ _ _ _ h3
  rw [m_ParseComp]; exact bind_raise _ _ _ _ h4

end Parser

/-! ## Calls with one-token arguments -/

namespace Parser

theorem getElem?_mid_add {α : Type} (pre rest : List α) (c d : α) :
    (pre ++ c :: d :: rest)[pre.length + 1]? = some d := by
  have e : pre ++ c :: d :: rest = (pre ++ [c]) ++ d :: rest := by simp
  rw [e]
  have l : pre.length + 1 = (pre ++ [c]).length := by simp
  rw [l]
  exact getElem?_mid _ _ _

theorem ArgSeq.head {body : List TokenHandler} {ts : List Expr} (h : ArgSeq body ts) :
    ∃ a l, body = a :: l ∧ IsArg a := by
  cases h with
  | one a ha => exact ⟨a, [], rfl, ha⟩
  | cons a c rest ts ha hc hr => exact ⟨a, c :: rest, rfl, ha⟩

theorem ArgSeq.no_fdef {body : List TokenHandler} {ts : List Expr} (h : ArgSeq body ts) :
    ∀ t ∈ body, t.token ≠ Tokens.FunctionDef := by
  induction h with
  | one a ha =>
    intro t ht
    simp at ht
    subst ht
    rcases ha with ⟨h, _⟩ | h <;> rw [h] <;> decide
  | cons a c rest ts ha hc _ ih =>
    intro t ht
    simp at ht
    rcases ht with rfl | rfl | ht
    · rcases ha with ⟨h, _⟩ | h <;> rw [h] <;> decide
    · rw [hc]; decide
    · exact ih t ht

/-- Parsing a one-token argument that is followed by a Comma or an Rparen token, inside an
argument list. -/
theorem m_ParseFactor_arg (n : Nat) (src : List TokenHandler) (pos c : Nat) (a nx : TokenHandler)
    (ha : src[pos]? = some a) (harg : IsArg a) (hnx : src[pos + 1]? = some nx)
    (hk : nx.token = Tokens.Comma ∨ nx.token = Tokens.Rparen) (hlen : src.length < SIZE_MOD) :
    m_ParseFactor (n + 1) ⟨src, pos, c, true⟩ = Res.ok (leafOf a) ⟨src, pos + 1, c, true⟩ := by
  have hlt : pos < src.length := lt_of_getElem? ha
  have hadv : m_Advance 1 ⟨src, pos, c, true⟩ = Res.ok () ⟨src, pos + 1, c, true⟩ :=
    m_Advance_eq src pos c true 1 hlt (by omega)
  rw [m_ParseFactor, bind_apply, m_Get_eq _ a ha]
  rcases harg with ⟨hd, hcv⟩ | hi
  · simp only [hd]
    simp only [reduceCtorEq, if_false, if_true]
    rw [bind_apply, not_eof_apply]
    simp only [bind_apply, get_in_func_args, Bool.not_true, Bool.and_false, Bool.false_eq_true,
      if_false, hadv, throwing, hcv, pure_apply, leafOf, hd, if_true]
  · simp only [hi]
    simp only [reduceCtorEq, if_false, if_true]
    rw [bind_apply, m_Peek_eq _ nx hnx hlen]
    have h1 : ¬ (nx.token = Tokens.Assign) := by rcases hk with h | h <;> rw [h] <;> decide
    have h2 : ¬ (nx.token = Tokens.Lparen) := by rcases hk with h | h <;> rw [h] <;> decide
    simp only [h1, h2, if_false, bind_apply, hadv, pure_apply, leafOf, hi, reduceCtorEq]

end Parser

namespace Parser

theorem IsArg.ne_comma {a : TokenHandler} (h : IsArg a) : ¬ (a.token = Tokens.Comma) := by
  rcases h with ⟨h, _⟩ | h <;> rw [h] <;> decide

theorem IsArg.ne_rparen {a : TokenHandler} (h : IsArg a) : ¬ (a.token = Tokens.Rparen) := by
  rcases h with ⟨h, _⟩ | h <;> rw [h] <;> decide

theorem quiet_of_kind (src : List TokenHandler) (pos c : Nat) (f : Bool) (t : TokenHandler)
    (h : src[pos]? = some t) (hk : isInfix t.token = false) : Quiet ⟨src, pos, c, f⟩ :=
  Or.inr ⟨t, h, hk⟩

/-- The loop of `m_ParseFunctionArgs` over `a1, Comma, ..., an` followed by an Rparen token:
it pushes the trees of the arguments in order and stops on the Rparen token. -/
theorem m_ParseFunctionArgsLoop_run {body : List TokenHandler} {ts : List Expr}
    (h : ArgSeq body ts) :
    ∀ (pre post : List TokenHandler) (rp : TokenHandler) (acc : List Expr) (c k : Nat),
      rp.token = Tokens.Rparen → (pre ++ (body ++ rp :: post)).length < SIZE_MOD →
      m_ParseFunctionArgsLoop (body.length + 7 + k) acc
          ⟨pre ++ (body ++ rp :: post), pre.length, c, true⟩ =
        Res.ok (acc ++ ts) ⟨pre ++ (body ++ rp :: post), pre.length + body.length, c, true⟩ := by
  induction h with
  | one a ha =>
    intro pre post rp acc c k hrp hlen
    have e : [a].length + 7 + k = (k + 7) + 1 := by simp; omega
    have hsrc : pre ++ ([a] ++ rp :: post) = pre ++ a :: rp :: post := by simp
    rw [e, hsrc] at *
    have hlen1 : pre.length + 1 < (pre ++ a :: rp :: post).length := by simp
    have g0 : (pre ++ a :: rp :: post)[pre.length]? = some a := getElem?_mid _ _ _
    have g1 : (pre ++ a :: rp :: post)[pre.length + 1]? = some rp := getElem?_mid_add _ _ _ _
    have hcomp : m_ParseComp (k + 7) ⟨pre ++ a :: rp :: post, pre.length, c, true⟩ =
        Res.ok (leafOf a) ⟨pre ++ a :: rp :: post, pre.length + 1, c, true⟩ := by
      apply m_ParseComp_of_factor (k + 1)
      · exact m_ParseFactor_arg (k + 1) _ _ _ a rp g0 ha g1 (Or.inr hrp) hlen
      · exact quiet_of_kind _ _ _ _ rp g1 (by rw [hrp]; decide)
    have hget0 := m_Get_eq ⟨pre ++ a :: rp :: post, pre.length, c, true⟩ a g0
    have hget1 := m_Get_eq ⟨pre ++ a :: rp :: post, pre.length + 1, c, true⟩ rp g1
    have hne : decide (pre.length < (pre ++ a :: rp :: post).length) = true := by simp
    rw [m_ParseFunctionArgsLoop]
    simp only [bind_apply, hget0, ha.ne_comma, if_false, not_eof_apply, hne, Bool.not_true,
      Bool.false_eq_true, hcomp, pure_apply, hget1, hrp, ne_eq, not_true_eq_false]
    simp
  | cons a cm rest ts ha hcm hr ih =>
    intro pre post rp acc c k hrp hlen
    obtain ⟨a2, l2, rfl, ha2⟩ := hr.head
    have e : (a :: cm :: a2 :: l2).length + 7 + k = (((a2 :: l2).length + 7 + k) + 1) + 1 := by
      simp; omega
    have hsrc : pre ++ (a :: cm :: a2 :: l2 ++ rp :: post) =
        pre ++ a :: cm :: a2 :: (l2 ++ rp :: post) := by simp
    have hsrc2 : pre ++ a :: cm :: a2 :: (l2 ++ rp :: post) =
        (pre ++ [a, cm]) ++ ((a2 :: l2) ++ rp :: post) := by simp
    have ih1 := ih (pre ++ [a, cm]) post rp (acc ++ [leafOf a]) c k hrp
      (by rw [← hsrc2, ← hsrc]; exact hlen)
    rw [← hsrc2] at ih1
    rw [e, hsrc] at *
    have g0 : (pre ++ a :: cm :: a2 :: (l2 ++ rp :: post))[pre.length]? = some a :=
      getElem?_mid _ _ _
    have g1 : (pre ++ a :: cm :: a2 :: (l2 ++ rp :: post))[pre.length + 1]? = some cm :=
      getElem?_mid_add _ _ _ _
    have g2 : (pre ++ a :: cm :: a2 :: (l2 ++ rp :: post))[pre.length + 1 + 1]? = some a2 := by
      have e2 : pre ++ a :: cm :: a2 :: (l2 ++ rp :: post) =
          (pre ++ [a]) ++ cm :: a2 :: (l2 ++ rp :: post) := by simp
      have l : pre.length + 1 = (pre ++ [a]).length := by simp
      rw [e2, l]
      exact getElem?_mid_add _ _ _ _
    have hcomp : m_ParseComp ((a2 :: l2).length + 7 + k + 1)
          ⟨pre ++ a :: cm :: a2 :: (l2 ++ rp :: post), pre.length, c, true⟩ =
        Res.ok (leafOf a) ⟨pre ++ a :: cm :: a2 :: (l2 ++ rp :: post), pre.length + 1, c, true⟩ := by
      have e3 : (a2 :: l2).length + 7 + k + 1 = ((a2 :: l2).length + k + 2) + 6 := by omega
      rw [e3]
      apply m_ParseComp_of_factor
      · exact m_ParseFactor_arg _ _ _ _ a cm g0 ha g1 (Or.inl hcm) hlen
      · exact quiet_of_kind _ _ _ _ cm g1 (by rw [hcm]; decide)
    have hget0 := m_Get_eq ⟨pre ++ a :: cm :: a2 :: (l2 ++ rp :: post), pre.length, c, true⟩ a g0
    have hget1 :=
      m_Get_eq ⟨pre ++ a :: cm :: a2 :: (l2 ++ rp :: post), pre.length + 1, c, true⟩ cm g1
    have hget2 :=
      m_Get_eq ⟨pre ++ a :: cm :: a2 :: (l2 ++ rp :: post), pre.length + 1 + 1, c, true⟩ a2 g2
    have hpeek :=
      m_Peek_eq ⟨pre ++ a :: cm :: a2 :: (l2 ++ rp :: post), pre.length + 1, c, true⟩ a2 g2 hlen
    have hne : decide (pre.length < (pre ++ a :: cm :: a2 :: (l2 ++ rp :: post)).length) = true := by
      simp
    have hne1 :
        decide (pre.length + 1 < (pre ++ a :: cm :: a2 :: (l2 ++ rp :: post)).length) = true := by
      simp
    have hadv := m_Advance_eq (pre ++ a :: cm :: a2 :: (l2 ++ rp :: post)) (pre.length + 1) c true 1
      (by simp) (by simp at hlen; omega)
    have hcmr : ¬ (cm.token = Tokens.Rparen) := by rw [hcm]; decide
    have hpos : 0 < (acc ++ [leafOf a]).length := by simp
    rw [m_ParseFunctionArgsLoop]
    simp only [bind_apply, hget0, ha.ne_comma, if_false, not_eof_apply, hne, Bool.not_true,
      Bool.false_eq_true, hcomp, pure_apply, hget1, ne_eq, hcmr, not_false_eq_true, if_true]
    rw [m_ParseFunctionArgsLoop]
    simp only [bind_apply, hget1, hcm, if_true, gt_iff_lt, hpos, hpeek, ne_eq, ha2.ne_rparen,
      not_false_eq_true, not_eof_apply, hne1, hadv, pure_apply, hget2]
    have hp2 : pre.length + 1 + 1 = (pre ++ [a, cm]).length := by simp
    rw [hp2, ih1]
    simp
    omega

end Parser

namespace Parser

theorem findIdx_eq_length_of_false {α : Type} (q : α → Bool) (l : List α)
    (h : ∀ t ∈ l, q t = false) : l.findIdx q = l.length := by
  induction l with
  | nil => rfl
  | cons a l ih =>
    rw [List.findIdx_cons, h a (by simp)]
    simp only [cond_false, List.length_cons]
    rw [ih (fun t ht => h t (by simp [ht]))]

/-- The function `m_ParseFunctionArgs` on `a1, Comma, ..., an, Rparen` (or on a lone Rparen),
entered with the cursor behind the Lparen token. -/
theorem m_ParseFunctionArgs_run (f lp rp : TokenHandler) (body : List TokenHandler)
    (ts : List Expr) (hrp : rp.token = Tokens.Rparen)
    (hbody : (body = [] ∧ ts = []) ∨ ArgSeq body ts)
    (hlen : body.length + 3 < SIZE_MOD) (c k : Nat) (fl : Bool) :
    m_ParseFunctionArgs (body.length + 8 + k) ⟨f :: lp :: (body ++ [rp]), 2, c, fl⟩ =
      Res.ok ts ⟨f :: lp :: (body ++ [rp]), body.length + 3, c, false⟩ := by
  have e : body.length + 8 + k = (body.length + 7 + k) + 1 := by omega
  rw [e, m_ParseFunctionArgs]
  rcases hbody with ⟨rfl, rfl⟩ | hseq
  · have g : [f, lp, rp][2]? = some rp := rfl
    have hget := m_Get_eq ⟨[f, lp, rp], 2, c, true⟩ rp g
    have hadv := m_Advance_eq [f, lp, rp] 2 c false 1 (by simp) (by unfold SIZE_MOD; omega)
    simp only [List.nil_append, bind_apply, set_in_func_args, hget, hrp, ne_eq,
      not_true_eq_false, if_false, pure_apply, hadv, List.length_nil]
  · obtain ⟨a, l, rfl, ha⟩ := hseq.head
    have hsrc : f :: lp :: (a :: l ++ [rp]) = [f, lp] ++ (a :: l ++ rp :: []) := by simp
    have hloop := m_ParseFunctionArgsLoop_run hseq [f, lp] [] rp [] c k hrp
      (by simp at hlen ⊢; omega)
    rw [← hsrc] at hloop
    have g0 : (f :: lp :: (a :: l ++ [rp]))[2]? = some a := by simp
    have hget0 := m_Get_eq ⟨f :: lp :: (a :: l ++ [rp]), 2, c, true⟩ a g0
    have g1 : (f :: lp :: (a :: l ++ [rp]))[2 + (a :: l).length]? = some rp := by
      have e1 : f :: lp :: (a :: l ++ [rp]) = ([f, lp] ++ (a :: l)) ++ rp :: [] := by simp
      have e2 : 2 + (a :: l).length = ([f, lp] ++ (a :: l)).length := by simp; omega
      rw [e1, e2]
      exact getElem?_mid _ _ _
    have hget1 := m_Get_eq ⟨f :: lp :: (a :: l ++ [rp]), 2 + (a :: l).length, c, true⟩ rp g1
    have hadv := m_Advance_eq (f :: lp :: (a :: l ++ [rp])) (2 + (a :: l).length) c false 1
      (by simp; omega) (by simp at hlen ⊢; omega)
    have hl2 : [f, lp].length = 2 := rfl
    rw [hl2] at hloop
    simp only [bind_apply, set_in_func_args, hget0, ne_eq, ha.ne_rparen, not_false_eq_true,
      if_true, hloop, List.nil_append, hget1, hrp, not_true_eq_false, if_false, hadv, pure_apply]
    have e3 : 2 + (a :: l).length + 1 = (a :: l).length + 3 := by omega
    rw [e3]

/-- The function `m_ParseFunctionDefOrCall` on the same tokens: no token of kind
`FunctionDef` follows, so the arguments are parsed by `m_ParseFunctionArgs` and the result
is a `FunctionCall`; the two calls `m_Advance()`, `m_Advance(-1)` find the cursor at the end
and leave it there. -/
theorem m_ParseFunctionDefOrCall_run (f lp rp : TokenHandler) (body : List TokenHandler)
    (ts : List Expr) (hrp : rp.token = Tokens.Rparen)
    (hbody : (body = [] ∧ ts = []) ∨ ArgSeq body ts)
    (hlen : body.length + 3 < SIZE_MOD) (c k : Nat) (fl : Bool) :
    m_ParseFunctionDefOrCall (body.length + 9 + k) f ⟨f :: lp :: (body ++ [rp]), 2, c, fl⟩ =
      Res.ok (Expr.FunctionCall f.value ts) ⟨f :: lp :: (body ++ [rp]), body.length + 3, c, false⟩ := by
  have e : body.length + 9 + k = (body.length + 8 + k) + 1 := by omega
  have hnone : ∀ t ∈ body ++ [rp], (t.token == Tokens.FunctionDef) = false := by
    intro t ht
    have : t.token ≠ Tokens.FunctionDef := by
      rw [List.mem_append] at ht
      rcases ht with ht | ht
      · rcases hbody with ⟨rfl, _⟩ | hseq
        · cases ht
        · exact hseq.no_fdef t ht
      · simp at ht
        rw [ht, hrp]
        decide
    simpa using this
  have hidx := findIdx_eq_length_of_false (fun t : TokenHandler => t.token == Tokens.FunctionDef)
    _ hnone
  have hargs := m_ParseFunctionArgs_run f lp rp body ts hrp hbody hlen c k fl
  have hadv1 := m_Advance_eof ⟨f :: lp :: (body ++ [rp]), body.length + 3, c, false⟩ 1
    (by simp)
  have hadv2 := m_Advance_eof ⟨f :: lp :: (body ++ [rp]), body.length + 3, c, false⟩ NEG_ONE
    (by simp)
  rw [e, m_ParseFunctionDefOrCall]
  simp only [bind_apply, get_rest, List.drop_succ_cons, List.drop_zero, hidx, ne_eq,
    not_true_eq_false, decide_False, Bool.false_and, Bool.false_eq_true, if_false, Bool.not_false,
    if_true, hargs, hadv1, hadv2, pure_apply]

/-- The function `m_ParseFactor` on the tokens of a call with one-token arguments. -/
theorem m_ParseFactor_call (f lp rp : TokenHandler) (body : List TokenHandler)
    (ts : List Expr) (hf : f.token = Tokens.Identifier) (hlp : lp.token = Tokens.Lparen)
    (hrp : rp.token = Tokens.Rparen) (hbody : (body = [] ∧ ts = []) ∨ ArgSeq body ts)
    (hlen : body.length + 3 < SIZE_MOD) (k : Nat) :
    m_ParseFactor (body.length + 10 + k) ⟨f :: lp :: (body ++ [rp]), 0, 0, false⟩ =
      Res.ok (Expr.FunctionCall f.value ts) ⟨f :: lp :: (body ++ [rp]), body.length + 3, 0, false⟩ := by
  have e : body.length + 10 + k = (body.length + 9 + k) + 1 := by omega
  have g0 : (f :: lp :: (body ++ [rp]))[0]? = some f := rfl
  have g1 : (f :: lp :: (body ++ [rp]))[0 + 1]? = some lp := by simp
  have hget := m_Get_eq ⟨f :: lp :: (body ++ [rp]), 0, 0, false⟩ f g0
  have hpeek := m_Peek_eq ⟨f :: lp :: (body ++ [rp]), 0, 0, false⟩ lp g1 (by simp; omega)
  have hadv := m_Advance_eq (f :: lp :: (body ++ [rp])) 0 0 false 2 (by simp)
    (by unfold SIZE_MOD; omega)
  have hrun := m_ParseFunctionDefOrCall_run f lp rp body ts hrp hbody hlen 0 k false
  rw [e, m_ParseFactor]
  simp only [bind_apply, hget, hf, reduceCtorEq, if_false, if_true, hpeek, hlp, hadv,
    Nat.zero_add, hrun]

end Parser

/-- C5 (amended): for every token sequence `f ( a1 , ... , an )` with `n ≥ 0` arguments that
are each one Identifier token, or one Digit token whose text `std::stod` converts without
throwing (for a digit run: a value below `2 ^ 1024 - 2 ^ 970`), `parse` returns
`FunctionCall(f, [t1, ..., tn])` with the argument trees in source order, and leaves the
cursor at the end of the sequence. -/
theorem C5_function_call (f lp rp : TokenHandler) (body : List TokenHandler) (ts : List Expr)
    (hf : f.token = Tokens.Identifier) (hlp : lp.token = Tokens.Lparen)
    (hrp : rp.token = Tokens.Rparen)
    (hbody : (body = [] ∧ ts = []) ∨ Parser.ArgSeq body ts)
    (hlen : body.length + 3 < SIZE_MOD) (n : Nat) (hn : body.length + 15 ≤ n) :
    parseTokens n (f :: lp :: (body ++ [rp])) =
        Res.ok (Expr.FunctionCall f.value ts)
          ⟨f :: lp :: (body ++ [rp]), body.length + 3, 0, false⟩ ∧
      (f :: lp :: (body ++ [rp])).length = body.length + 3 := by
  obtain ⟨k, rfl⟩ : ∃ k, n = (body.length + 9 + k) + 6 := ⟨n - (body.length + 15), by omega⟩
  refine ⟨?_, by simp⟩
  unfold parseTokens Parser.ctor
  simp only [List.length_cons, gt_iff_lt, Nat.zero_lt_succ, if_true]
  unfold Parser.parse
  apply Parser.m_ParseComp_of_factor
  · have h := Parser.m_ParseFactor_call f lp rp body ts hf hlp hrp hbody hlen k
    have e : body.length + 10 + k = body.length + 9 + k + 1 := by omega
    rw [e] at h
    exact h
  · left
    simp

/-- Witness of C5 at the tokens of `f(5)`. -/
theorem C5_function_call_witness :
    ((⟨['f'], Tokens.Identifier, 0⟩ : TokenHandler).token = Tokens.Identifier ∧
      (⟨['('], Tokens.Lparen, 1⟩ : TokenHandler).token = Tokens.Lparen ∧
      (⟨[')'], Tokens.Rparen, 3⟩ : TokenHandler).token = Tokens.Rparen ∧
      Parser.ArgSeq [⟨['5'], Tokens.Digit, 2⟩] [Expr.Number ['5']] ∧
      1 + 3 < SIZE_MOD ∧ 1 + 15 ≤ 16) ∧
    parseTokens 16 [⟨['f'], Tokens.Identifier, 0⟩, ⟨['('], Tokens.Lparen, 1⟩,
        ⟨['5'], Tokens.Digit, 2⟩, ⟨[')'], Tokens.Rparen, 3⟩] =
      Res.ok (Expr.FunctionCall ['f'] [Expr.Number ['5']])
        ⟨[⟨['f'], Tokens.Identifier, 0⟩, ⟨['('], Tokens.Lparen, 1⟩,
          ⟨['5'], Tokens.Digit, 2⟩, ⟨[')'], Tokens.Rparen, 3⟩], 4, 0, false⟩ :=
  ⟨⟨rfl, rfl, rfl, Parser.ArgSeq.one ⟨['5'], Tokens.Digit, 2⟩ (Or.inl ⟨rfl, by decide!⟩), by decide,
      by decide⟩,
    (C5_function_call ⟨['f'], Tokens.Identifier, 0⟩ ⟨['('], Tokens.Lparen, 1⟩
      ⟨[')'], Tokens.Rparen, 3⟩ [⟨['5'], Tokens.Digit, 2⟩] [Expr.Number ['5']] rfl rfl rfl
      (Or.inr (Parser.ArgSeq.one ⟨['5'], Tokens.Digit, 2⟩ (Or.inl ⟨rfl, by decide!⟩)))
      (by decide) 16
      (by decide)).1⟩


/-! ## Numbers and binary operators, step by step -/

namespace Parser

/-- The Digit branch of `m_ParseFactor` outside an argument list, on one Digit token that is
the last token or is followed by a token that is accepted after a number and ends the
literal: the text of that token is converted by `std::stold` and becomes the `Number`. -/
theorem m_ParseFactor_number (n : Nat) (src : List TokenHandler) (pos c : Nat)
    (dg : TokenHandler) (hd : src[pos]? = some dg) (hdk : dg.token = Tokens.Digit)
    (hnext : pos + 1 = src.length ∨ ∃ t, src[pos + 1]? = some t ∧
      (m_IsValidAfterNumber t || m_IsCompareToken t.token || m_IsLogical t.token) = true ∧
      m_IsValidPunc t = false)
    (hlen : src.length < SIZE_MOD) (hcv : std.stold dg.value = none) :
    m_ParseFactor (n + 3) ⟨src, pos, c, false⟩ =
      Res.ok (Expr.Number dg.value) ⟨src, pos + 1, c, false⟩ := by
  have hlt : pos < src.length := lt_of_getElem? hd
  have hget := m_Get_eq ⟨src, pos, c, false⟩ dg hd
  have hadv := m_Advance_eq src pos c false 1 hlt (by omega)
  have hne : decide (pos < src.length) = true := by simp [hlt]
  have hvp : m_IsValidPunc dg = true := by simp [m_IsValidPunc, hdk]
  have hva : m_IsValidAfterNumber dg = true := by simp [m_IsValidAfterNumber, hdk]
  rcases hnext with hlast | ⟨t, ht, hvt, hvpt⟩
  · have hpeek := m_Peek_clamp ⟨src, pos, c, false⟩ dg hlast hd hlen
    have hne1 : decide (pos + 1 < src.length) = false := by simp; omega
    rw [m_ParseFactor]
    simp only [bind_apply, hget, hdk, reduceCtorEq, if_false, if_true, not_eof_apply, hne,
      get_in_func_args, Bool.not_false, Bool.and_self, hpeek, hva, Bool.true_or, m_GetDigit]
    rw [m_GetDigitLoop]
    simp only [bind_apply, not_eof_apply, hne, if_true, hget, hvp, hdk, hadv]
    rw [m_GetDigitLoop]
    simp only [bind_apply, not_eof_apply, hne1, Bool.false_eq_true, if_false, pure_apply,
      List.nil_append, throwing, hcv]
  · have hpeek := m_Peek_eq ⟨src, pos, c, false⟩ t ht hlen
    have hget1 := m_Get_eq ⟨src, pos + 1, c, false⟩ t ht
    have hne1 : decide (pos + 1 < src.length) = true := by
      simp
      exact lt_of_getElem? ht
    rw [m_ParseFactor]
    simp only [bind_apply, hget, hdk, reduceCtorEq, if_false, if_true, not_eof_apply, hne,
      get_in_func_args, Bool.not_false, Bool.and_self, hpeek, hvt, m_GetDigit]
    rw [m_GetDigitLoop]
    simp only [bind_apply, not_eof_apply, hne, if_true, hget, hvp, hdk, hadv]
    rw [m_GetDigitLoop]
    simp only [bind_apply, not_eof_apply, hne1, if_true, hget1, hvpt, Bool.false_eq_true,
      if_false, pure_apply, List.nil_append, throwing, hcv]

theorem m_ParseLogicalLoop_pass (n : Nat) (out : Expr) (p : Parser)
    (h : p.m_Src.length ≤ p.m_Pos ∨
      ∃ t, p.m_Src[p.m_Pos]? = some t ∧ m_IsLogical t.token = false) :
    m_ParseLogicalLoop (n + 1) out p = Res.ok out p := by
  rw [m_ParseLogicalLoop, bind_apply, not_eof_apply]
  rcases h with h | ⟨t, ht, hk⟩
  · have e : decide (p.m_Pos < p.m_Src.length) = false := by simp; omega
    simp only [e]
    rfl
  · have e : decide (p.m_Pos < p.m_Src.length) = true := by simp; exact lt_of_getElem? ht
    simp only [e, if_true]
    rw [bind_apply, m_Get_eq p t ht]
    simp only [hk]
    rfl

theorem m_ParseSuLoop_pass (n : Nat) (out : Expr) (p : Parser)
    (h : p.m_Src.length ≤ p.m_Pos ∨
      ∃ t, p.m_Src[p.m_Pos]? = some t ∧ ¬ (t.token = Tokens.Pow ∨ t.token = Tokens.Mod)) :
    m_ParseSuLoop (n + 1) out p = Res.ok out p := by
  rw [m_ParseSuLoop, bind_apply, not_eof_apply]
  rcases h with h | ⟨t, ht, hk⟩
  · have e : decide (p.m_Pos < p.m_Src.length) = false := by simp; omega
    simp only [e]
    rfl
  · have e : decide (p.m_Pos < p.m_Src.length) = true := by simp; exact lt_of_getElem? ht
    simp only [e, if_true]
    rw [bind_apply, m_Get_eq p t ht]
    simp only [if_neg hk]
    rfl

theorem m_ParseTermLoop_pass (n : Nat) (out : Expr) (p : Parser)
    (h : p.m_Src.length ≤ p.m_Pos ∨
      ∃ t, p.m_Src[p.m_Pos]? = some t ∧ ¬ (t.token = Tokens.Mult ∨ t.token = Tokens.Div)) :
    m_ParseTermLoop (n + 1) out p = Res.ok out p := by
  rw [m_ParseTermLoop, bind_apply, not_eof_apply]
  rcases h with h | ⟨t, ht, hk⟩
  · have e : decide (p.m_Pos < p.m_Src.length) = false := by simp; omega
    simp only [e]
    rfl
  · have e : decide (p.m_Pos < p.m_Src.length) = true := by simp; exact lt_of_getElem? ht
    simp only [e, if_true]
    rw [bind_apply, m_Get_eq p t ht]
    simp only [if_neg hk]
    rfl

theorem m_ParseExprLoop_pass (n : Nat) (out : Expr) (p : Parser)
    (h : p.m_Src.length ≤ p.m_Pos ∨
      ∃ t, p.m_Src[p.m_Pos]? = some t ∧ ¬ (t.token = Tokens.Plus ∨ t.token = Tokens.Minus)) :
    m_ParseExprLoop (n + 1) out p = Res.ok out p := by
  rw [m_ParseExprLoop, bind_apply, not_eof_apply]
  rcases h with h | ⟨t, ht, hk⟩
  · have e : decide (p.m_Pos < p.m_Src.length) = false := by simp; omega
    simp only [e]
    rfl
  · have e : decide (p.m_Pos < p.m_Src.length) = true := by simp; exact lt_of_getElem? ht
    simp only [e, if_true]
    rw [bind_apply, m_Get_eq p t ht]
    simp only [if_neg hk]
    rfl

theorem m_ParseCompLoop_pass (n : Nat) (out : Expr) (p : Parser)
    (h : p.m_Src.length ≤ p.m_Pos ∨
      ∃ t, p.m_Src[p.m_Pos]? = some t ∧ m_IsCompareToken t.token = false) :
    m_ParseCompLoop (n + 1) out p = Res.ok out p := by
  rw [m_ParseCompLoop, bind_apply, not_eof_apply]
  rcases h with h | ⟨t, ht, hk⟩
  · have e : decide (p.m_Pos < p.m_Src.length) = false := by simp; omega
    simp only [e]
    rfl
  · have e : decide (p.m_Pos < p.m_Src.length) = true := by simp; exact lt_of_getElem? ht
    simp only [e, if_true]
    rw [bind_apply, m_Get_eq p t ht]
    simp only [hk]
    rfl

/-- The loop of `m_ParseExpr` on a Plus token: the right operand is a term. -/
theorem m_ParseExprLoop_plus (n : Nat) (src : List TokenHandler) (pos c : Nat) (f : Bool)
    (out r : Expr) (p1 : Parser) (t : TokenHandler) (ht : src[pos]? = some t)
    (hk : t.token = Tokens.Plus) (hlen : src.length < SIZE_MOD)
    (hr : m_ParseTerm n ⟨src, pos + 1, c, f⟩ = Res.ok r p1) :
    m_ParseExprLoop (n + 1) out ⟨src, pos, c, f⟩ =
      m_ParseExprLoop n (Expr.BinaryOpExpr Op.Plus out (some r)) p1 := by
  have hlt : pos < src.length := lt_of_getElem? ht
  have hget := m_Get_eq ⟨src, pos, c, f⟩ t ht
  have hadv := m_Advance_eq src pos c f 1 hlt (by omega)
  have hne : decide (pos < src.length) = true := by simp [hlt]
  rw [m_ParseExprLoop]
  simp only [bind_apply, not_eof_apply, hne, if_true, hget, hk, true_or, hadv, hr]

/-- The loop of `m_ParseTerm` on a Mult token: the right operand is parsed by `m_ParseSu`. -/
theorem m_ParseTermLoop_mult (n : Nat) (src : List TokenHandler) (pos c : Nat) (f : Bool)
    (out r : Expr) (p1 : Parser) (t : TokenHandler) (ht : src[pos]? = some t)
    (hk : t.token = Tokens.Mult) (hlen : src.length < SIZE_MOD)
    (hr : m_ParseSu n ⟨src, pos + 1, c, f⟩ = Res.ok r p1) :
    m_ParseTermLoop (n + 1) out ⟨src, pos, c, f⟩ =
      m_ParseTermLoop n (Expr.BinaryOpExpr Op.Mult out (some r)) p1 := by
  have hlt : pos < src.length := lt_of_getElem? ht
  have hget := m_Get_eq ⟨src, pos, c, f⟩ t ht
  have hadv := m_Advance_eq src pos c f 1 hlt (by omega)
  have hne : decide (pos < src.length) = true := by simp [hlt]
  rw [m_ParseTermLoop]
  simp only [bind_apply, not_eof_apply, hne, if_true, hget, hk, true_or, hadv, hr]

/-- The loop of `m_ParseSu` on a Pow token: the right operand is parsed by
`m_ParseLogical`. -/
theorem m_ParseSuLoop_pow (n : Nat) (src : List TokenHandler) (pos c : Nat) (f : Bool)
    (out r : Expr) (p1 : Parser) (t : TokenHandler) (ht : src[pos]? = some t)
    (hk : t.token = Tokens.Pow) (hlen : src.length < SIZE_MOD)
    (hr : m_ParseLogical n ⟨src, pos + 1, c, f⟩ = Res.ok r p1) :
    m_ParseSuLoop (n + 1) out ⟨src, pos, c, f⟩ =
      m_ParseSuLoop n (Expr.BinaryOpExpr Op.Pow out (some r)) p1 := by
  have hlt : pos < src.length := lt_of_getElem? ht
  have hget := m_Get_eq ⟨src, pos, c, f⟩ t ht
  have hadv := m_Advance_eq src pos c f 1 hlt (by omega)
  have hne : decide (pos < src.length) = true := by simp [hlt]
  rw [m_ParseSuLoop]
  simp only [bind_apply, not_eof_apply, hne, if_true, hget, hk, true_or, hadv, hr]

/-- The loop of `m_ParseSu` on a Mod token: the right operand is parsed by
`m_ParseLogical`. -/
theorem m_ParseSuLoop_mod (n : Nat) (src : List TokenHandler) (pos c : Nat) (f : Bool)
    (out r : Expr) (p1 : Parser) (t : TokenHandler) (ht : src[pos]? = some t)
    (hk : t.token = Tokens.Mod) (hlen : src.length < SIZE_MOD)
    (hr : m_ParseLogical n ⟨src, pos + 1, c, f⟩ = Res.ok r p1) :
    m_ParseSuLoop (n + 1) out ⟨src, pos, c, f⟩ =
      m_ParseSuLoop n (Expr.BinaryOpExpr Op.Mod out (some r)) p1 := by
  have hlt : pos < src.length := lt_of_getElem? ht
  have hget := m_Get_eq ⟨src, pos, c, f⟩ t ht
  have hadv := m_Advance_eq src pos c f 1 hlt (by omega)
  have hne : decide (pos < src.length) = true := by simp [hlt]
  rw [m_ParseSuLoop]
  simp only [bind_apply, not_eof_apply, hne, if_true, hget, hk, reduceCtorEq, false_or,
    or_true, if_false, hadv, hr]

end Parser

/-! ## Operator precedence -/

theorem parse_plus_mult (a b c : List Char) (k : Nat) (ha : std.stold a = none)
    (hb : std.stold b = none) (hc : std.stold c = none) :
    parseTokens (k + 10) (Lexer.binTokens a b c '+' Tokens.Plus '*' Tokens.Mult) =
      Res.ok (Expr.BinaryOpExpr Op.Plus (Expr.Number a)
          (some (Expr.BinaryOpExpr Op.Mult (Expr.Number b) (some (Expr.Number c)))))
        ⟨Lexer.binTokens a b c '+' Tokens.Plus '*' Tokens.Mult, 5, 0, false⟩ := by
  obtain ⟨src, hsrc⟩ : ∃ src : List TokenHandler,
      src = Lexer.binTokens a b c '+' Tokens.Plus '*' Tokens.Mult := ⟨_, rfl⟩
  have hl : src.length = 5 := by rw [hsrc]; rfl
  have hlen : src.length < SIZE_MOD := by rw [hl]; decide
  have g0 : src[0]? = some ⟨a, Tokens.Digit, a.length - 1⟩ := by rw [hsrc]; rfl
  have g1 : src[0 + 1]? = some ⟨['+'], Tokens.Plus, a.length⟩ := by rw [hsrc]; rfl
  have g2 : src[1 + 1]? = some ⟨b, Tokens.Digit, a.length + 1 + b.length - 1⟩ := by
    rw [hsrc]; rfl
  have g3 : src[2 + 1]? = some ⟨['*'], Tokens.Mult, a.length + 1 + b.length⟩ := by
    rw [hsrc]; rfl
  have g4 : src[3 + 1]? = some ⟨c, Tokens.Digit, a.length + 1 + b.length + 1 + c.length - 1⟩ := by
    rw [hsrc]; rfl
  have hend : ∀ cc ff, (⟨src, 4 + 1, cc, ff⟩ : Parser).m_Src.length ≤
      (⟨src, 4 + 1, cc, ff⟩ : Parser).m_Pos := by
    intro cc ff
    simp [hl]
  -- the factor `c`, the last token
  have fc := Parser.m_ParseFactor_number k src 4 0 _ g4 rfl (Or.inl (by rw [hl])) hlen hc
  have lc : Parser.m_ParseLogical (k + 4) ⟨src, 4, 0, false⟩ =
      Res.ok (Expr.Number c) ⟨src, 4 + 1, 0, false⟩ := by
    rw [Parser.m_ParseLogical, Parser.bind_ok _ _ _ _ _ fc,
      Parser.m_ParseLogicalLoop_pass _ _ _ (Or.inl (hend _ _))]
  have sc : Parser.m_ParseSu (k + 5) ⟨src, 4, 0, false⟩ =
      Res.ok (Expr.Number c) ⟨src, 4 + 1, 0, false⟩ := by
    rw [Parser.m_ParseSu, Parser.bind_ok _ _ _ _ _ lc,
      Parser.m_ParseSuLoop_pass _ _ _ (Or.inl (hend _ _))]
  -- the factor `b`, followed by `*`
  have fb := Parser.m_ParseFactor_number (k + 1) src 2 0 _ g2 rfl
    (Or.inr ⟨_, g3, by simp [Parser.m_IsValidAfterNumber, Parser.m_IsAnOp],
      by simp [Parser.m_IsValidPunc]⟩) hlen hb
  have lb : Parser.m_ParseLogical (k + 5) ⟨src, 2, 0, false⟩ =
      Res.ok (Expr.Number b) ⟨src, 2 + 1, 0, false⟩ := by
    rw [Parser.m_ParseLogical, Parser.bind_ok _ _ _ _ _ fb,
      Parser.m_ParseLogicalLoop_pass _ _ _ (Or.inr ⟨_, g3, by simp [Parser.m_IsLogical]⟩)]
  have sb : Parser.m_ParseSu (k + 6) ⟨src, 2, 0, false⟩ =
      Res.ok (Expr.Number b) ⟨src, 2 + 1, 0, false⟩ := by
    rw [Parser.m_ParseSu, Parser.bind_ok _ _ _ _ _ lb,
      Parser.m_ParseSuLoop_pass _ _ _ (Or.inr ⟨_, g3, by simp⟩)]
  have tb : Parser.m_ParseTerm (k + 7) ⟨src, 2, 0, false⟩ =
      Res.ok (Expr.BinaryOpExpr Op.Mult (Expr.Number b) (some (Expr.Number c)))
        ⟨src, 4 + 1, 0, false⟩ := by
    rw [Parser.m_ParseTerm, Parser.bind_ok _ _ _ _ _ sb,
      Parser.m_ParseTermLoop_mult (k + 5) src 3 0 false _ _ _ _ g3 rfl hlen sc,
      Parser.m_ParseTermLoop_pass _ _ _ (Or.inl (hend _ _))]
  -- the factor `a`, followed by `+`
  have fa := Parser.m_ParseFactor_number (k + 2) src 0 0 _ g0 rfl
    (Or.inr ⟨_, g1, by simp [Parser.m_IsValidAfterNumber, Parser.m_IsAnOp],
      by simp [Parser.m_IsValidPunc]⟩) hlen ha
  have la : Parser.m_ParseLogical (k + 6) ⟨src, 0, 0, false⟩ =
      Res.ok (Expr.Number a) ⟨src, 0 + 1, 0, false⟩ := by
    rw [Parser.m_ParseLogical, Parser.bind_ok _ _ _ _ _ fa,
      Parser.m_ParseLogicalLoop_pass _ _ _ (Or.inr ⟨_, g1, by simp [Parser.m_IsLogical]⟩)]
  have sa : Parser.m_ParseSu (k + 7) ⟨src, 0, 0, false⟩ =
      Res.ok (Expr.Number a) ⟨src, 0 + 1, 0, false⟩ := by
    rw [Parser.m_ParseSu, Parser.bind_ok _ _ _ _ _ la,
      Parser.m_ParseSuLoop_pass _ _ _ (Or.inr ⟨_, g1, by simp⟩)]
  have ta : Parser.m_ParseTerm (k + 8) ⟨src, 0, 0, false⟩ =
      Res.ok (Expr.Number a) ⟨src, 0 + 1, 0, false⟩ := by
    rw [Parser.m_ParseTerm, Parser.bind_ok _ _ _ _ _ sa,
      Parser.m_ParseTermLoop_pass _ _ _ (Or.inr ⟨_, g1, by simp⟩)]
  have ea : Parser.m_ParseExpr (k + 9) ⟨src, 0, 0, false⟩ =
      Res.ok (Expr.BinaryOpExpr Op.Plus (Expr.Number a)
          (some (Expr.BinaryOpExpr Op.Mult (Expr.Number b) (some (Expr.Number c)))))
        ⟨src, 4 + 1, 0, false⟩ := by
    rw [Parser.m_ParseExpr, Parser.bind_ok _ _ _ _ _ ta,
      Parser.m_ParseExprLoop_plus (k + 7) src 1 0 false _ _ _ _ g1 rfl hlen tb,
      Parser.m_ParseExprLoop_pass _ _ _ (Or.inl (hend _ _))]
  have e0 : parseTokens (k + 10) src = Parser.m_ParseComp (k + 10) ⟨src, 0, 0, false⟩ := by
    rw [hsrc]
    rfl
  rw [← hsrc, e0, Parser.m_ParseComp, Parser.bind_ok _ _ _ _ _ ea,
    Parser.m_ParseCompLoop_pass _ _ _ (Or.inl (hend _ _))]

theorem parse_pow_mod (a b c : List Char) (k : Nat) (ha : std.stold a = none)
    (hb : std.stold b = none) (hc : std.stold c = none) :
    parseTokens (k + 10) (Lexer.binTokens a b c '^' Tokens.Pow '%' Tokens.Mod) =
      Res.ok (Expr.BinaryOpExpr Op.Mod (Expr.BinaryOpExpr Op.Pow (Expr.Number a)
          (some (Expr.Number b))) (some (Expr.Number c)))
        ⟨Lexer.binTokens a b c '^' Tokens.Pow '%' Tokens.Mod, 5, 0, false⟩ := by
  obtain ⟨src, hsrc⟩ : ∃ src : List TokenHandler,
      src = Lexer.binTokens a b c '^' Tokens.Pow '%' Tokens.Mod := ⟨_, rfl⟩
  have hl : src.length = 5 := by rw [hsrc]; rfl
  have hlen : src.length < SIZE_MOD := by rw [hl]; decide
  have g0 : src[0]? = some ⟨a, Tokens.Digit, a.length - 1⟩ := by rw [hsrc]; rfl
  have g1 : src[0 + 1]? = some ⟨['^'], Tokens.Pow, a.length⟩ := by rw [hsrc]; rfl
  have g2 : src[1 + 1]? = some ⟨b, Tokens.Digit, a.length + 1 + b.length - 1⟩ := by
    rw [hsrc]; rfl
  have g3 : src[2 + 1]? = some ⟨['%'], Tokens.Mod, a.length + 1 + b.length⟩ := by
    rw [hsrc]; rfl
  have g4 : src[3 + 1]? = some ⟨c, Tokens.Digit, a.length + 1 + b.length + 1 + c.length - 1⟩ := by
    rw [hsrc]; rfl
  have hend : ∀ cc ff, (⟨src, 4 + 1, cc, ff⟩ : Parser).m_Src.length ≤
      (⟨src, 4 + 1, cc, ff⟩ : Parser).m_Pos := by
    intro cc ff
    simp [hl]
  have fc := Parser.m_ParseFactor_number k src 4 0 _ g4 rfl (Or.inl (by rw [hl])) hlen hc
  have lc : Parser.m_ParseLogical (k + 4) ⟨src, 4, 0, false⟩ =
      Res.ok (Expr.Number c) ⟨src, 4 + 1, 0, false⟩ := by
    rw [Parser.m_ParseLogical, Parser.bind_ok _ _ _ _ _ fc,
      Parser.m_ParseLogicalLoop_pass _ _ _ (Or.inl (hend _ _))]
  have fb := Parser.m_ParseFactor_number (k + 1) src 2 0 _ g2 rfl
    (Or.inr ⟨_, g3, by simp [Parser.m_IsValidAfterNumber, Parser.m_IsAnOp],
      by simp [Parser.m_IsValidPunc]⟩) hlen hb
  have lb : Parser.m_ParseLogical (k + 5) ⟨src, 2, 0, false⟩ =
      Res.ok (Expr.Number b) ⟨src, 2 + 1, 0, false⟩ := by
    rw [Parser.m_ParseLogical, Parser.bind_ok _ _ _ _ _ fb,
      Parser.m_ParseLogicalLoop_pass _ _ _ (Or.inr ⟨_, g3, by simp [Parser.m_IsLogical]⟩)]
  have fa := Parser.m_ParseFactor_number (k + 2) src 0 0 _ g0 rfl
    (Or.inr ⟨_, g1, by simp [Parser.m_IsValidAfterNumber, Parser.m_IsAnOp],
      by simp [Parser.m_IsValidPunc]⟩) hlen ha
  have la : Parser.m_ParseLogical (k + 6) ⟨src, 0, 0, false⟩ =
      Res.ok (Expr.Number a) ⟨src, 0 + 1, 0, false⟩ := by
    rw [Parser.m_ParseLogical, Parser.bind_ok _ _ _ _ _ fa,
      Parser.m_ParseLogicalLoop_pass _ _ _ (Or.inr ⟨_, g1, by simp [Parser.m_IsLogical]⟩)]
  have sa : Parser.m_ParseSu (k + 7) ⟨src, 0, 0, false⟩ =
      Res.ok (Expr.BinaryOpExpr Op.Mod (Expr.BinaryOpExpr Op.Pow (Expr.Number a)
          (some (Expr.Number b))) (some (Expr.Number c)))
        ⟨src, 4 + 1, 0, false⟩ := by
    rw [Parser.m_ParseSu, Parser.bind_ok _ _ _ _ _ la,
      Parser.m_ParseSuLoop_pow (k + 5) src 1 0 false _ _ _ _ g1 rfl hlen lb,
      Parser.m_ParseSuLoop_mod (k + 4) src 3 0 false _ _ _ _ g3 rfl hlen lc,
      Parser.m_ParseSuLoop_pass _ _ _ (Or.inl (hend _ _))]
  have ta : Parser.m_ParseTerm (k + 8) ⟨src, 0, 0, false⟩ =
      Res.ok (Expr.BinaryOpExpr Op.Mod (Expr.BinaryOpExpr Op.Pow (Expr.Number a)
          (some (Expr.Number b))) (some (Expr.Number c)))
        ⟨src, 4 + 1, 0, false⟩ := by
    rw [Parser.m_ParseTerm, Parser.bind_ok _ _ _ _ _ sa,
      Parser.m_ParseTermLoop_pass _ _ _ (Or.inl (hend _ _))]
  have ea : Parser.m_ParseExpr (k + 9) ⟨src, 0, 0, false⟩ =
      Res.ok (Expr.BinaryOpExpr Op.Mod (Expr.BinaryOpExpr Op.Pow (Expr.Number a)
          (some (Expr.Number b))) (some (Expr.Number c)))
        ⟨src, 4 + 1, 0, false⟩ := by
    rw [Parser.m_ParseExpr, Parser.bind_ok _ _ _ _ _ ta,
      Parser.m_ParseExprLoop_pass _ _ _ (Or.inl (hend _ _))]
  have e0 : parseTokens (k + 10) src = Parser.m_ParseComp (k + 10) ⟨src, 0, 0, false⟩ := by
    rw [hsrc]
    rfl
  rw [← hsrc, e0, Parser.m_ParseComp, Parser.bind_ok _ _ _ _ _ ea,
    Parser.m_ParseCompLoop_pass _ _ _ (Or.inl (hend _ _))]

/-- C1 (amended): for all digit runs `a`, `b`, `c` whose values are below the overflow bound
of `long double` (`2 ^ 16384 - 2 ^ 16319`, so that `std::stold` returns), tokenizing and then
parsing `a+b*c` returns `BinaryOp(+, Number a, BinaryOp(*, Number b, Number c))`, and
tokenizing and then parsing `a^b%c` returns
`BinaryOp(%, BinaryOp(^, Number a, Number b), Number c)`; in both runs all five tokens are
consumed.  The budget `n` only has to cover the length of the text. -/
theorem C1_operator_precedence (a b c : List Char)
    (ha : Lexer.DigitRun a) (hb : Lexer.DigitRun b) (hc : Lexer.DigitRun c)
    (ra : digitsValue a < LDBL.overflowBound) (rb : digitsValue b < LDBL.overflowBound)
    (rc : digitsValue c < LDBL.overflowBound)
    (hlen : a.length + b.length + c.length + 2 < SIZE_MOD) (n : Nat)
    (hn : a.length + b.length + c.length + 12 ≤ n) :
    parseText n (a ++ '+' :: (b ++ '*' :: c)) =
        some (Res.ok (Expr.BinaryOpExpr Op.Plus (Expr.Number a)
            (some (Expr.BinaryOpExpr Op.Mult (Expr.Number b) (some (Expr.Number c)))))
          ⟨Lexer.binTokens a b c '+' Tokens.Plus '*' Tokens.Mult, 5, 0, false⟩) ∧
      parseText n (a ++ '^' :: (b ++ '%' :: c)) =
        some (Res.ok (Expr.BinaryOpExpr Op.Mod (Expr.BinaryOpExpr Op.Pow (Expr.Number a)
            (some (Expr.Number b))) (some (Expr.Number c)))
          ⟨Lexer.binTokens a b c '^' Tokens.Pow '%' Tokens.Mod, 5, 0, false⟩) := by
  obtain ⟨k, rfl⟩ : ∃ k, n = k + 10 := ⟨n - 10, by omega⟩
  have l1 : (a ++ '+' :: (b ++ '*' :: c)).length = a.length + b.length + c.length + 2 := by
    simp
    omega
  have l2 : (a ++ '^' :: (b ++ '%' :: c)).length = a.length + b.length + c.length + 2 := by
    simp
    omega
  constructor
  · unfold parseText
    rw [Lexer.lex_bin a b c '+' Tokens.Plus '*' Tokens.Mult ha hb hc (by decide) (by decide)
      Lexer.lexSwitch_plus Lexer.lexSwitch_mult (by rw [l1]; exact hlen) _ (by rw [l1]; omega)]
    simp only []
    rw [parse_plus_mult a b c k (std.sto_digitRun LDBL a ha ra) (std.sto_digitRun LDBL b hb rb)
      (std.sto_digitRun LDBL c hc rc)]
  · unfold parseText
    rw [Lexer.lex_bin a b c '^' Tokens.Pow '%' Tokens.Mod ha hb hc (by decide) (by decide)
      Lexer.lexSwitch_pow Lexer.lexSwitch_mod (by rw [l2]; exact hlen) _ (by rw [l2]; omega)]
    simp only []
    rw [parse_pow_mod a b c k (std.sto_digitRun LDBL a ha ra) (std.sto_digitRun LDBL b hb rb)
      (std.sto_digitRun LDBL c hc rc)]

/-- Witness of C1 at `2+3*4` and `2^3%2`. -/
theorem C1_operator_precedence_witness :
    (Lexer.DigitRun ['2'] ∧ Lexer.DigitRun ['3'] ∧ Lexer.DigitRun ['4'] ∧
      digitsValue ['2'] < LDBL.overflowBound ∧ digitsValue ['3'] < LDBL.overflowBound ∧
      digitsValue ['4'] < LDBL.overflowBound ∧
      1 + 1 + 1 + 2 < SIZE_MOD ∧ 1 + 1 + 1 + 12 ≤ 15) ∧
    parseText 15 "2+3*4".toList =
        some (Res.ok (Expr.BinaryOpExpr Op.Plus (Expr.Number ['2'])
            (some (Expr.BinaryOpExpr Op.Mult (Expr.Number ['3']) (some (Expr.Number ['4'])))))
          ⟨Lexer.binTokens ['2'] ['3'] ['4'] '+' Tokens.Plus '*' Tokens.Mult, 5, 0, false⟩) ∧
    parseText 15 "2^3%2".toList =
        some (Res.ok (Expr.BinaryOpExpr Op.Mod (Expr.BinaryOpExpr Op.Pow (Expr.Number ['2'])
            (some (Expr.Number ['3']))) (some (Expr.Number ['2'])))
          ⟨Lexer.binTokens ['2'] ['3'] ['2'] '^' Tokens.Pow '%' Tokens.Mod, 5, 0, false⟩) :=
  ⟨⟨by decide, by decide, by decide, by decide!, by decide!, by decide!, by decide, by decide⟩,
    (C1_operator_precedence ['2'] ['3'] ['4'] (by decide) (by decide) (by decide) (by decide!)
      (by decide!) (by decide!) (by decide) 15 (by decide)).1,
    (C1_operator_precedence ['2'] ['3'] ['2'] (by decide) (by decide) (by decide) (by decide!)
      (by decide!) (by decide!) (by decide) 15 (by decide)).2⟩


/-! ## Concrete runs -/

/-- A run of `parseText`: the lexer delivers `toks` for every budget from `n` on, and the
parser, checked by evaluation with budget `n`, ends with `r`. -/
theorem parseText_run (text : List Char) (toks : List TokenHandler) (r : Res Expr) (n k : Nat)
    (hl : Lexer.lex (k + n) text = .ok toks)
    (hp : Res.beqWith Expr.beq (parseTokens n toks) r = true) (hr : r ≠ Res.timeout) :
    parseText (k + n) text = some r := by
  unfold parseText
  rw [hl]
  simp only []
  rw [Nat.add_comm k n,
    parseTokens_mono n toks r (Res.beqWith_sound Expr.beq (fun a b => Expr.beq_sound a b) _ _ hp)
      hr k]

/-! ## Numeric literals -/

/-- C2: the text `1'000'000.5e-2` is tokenized into ten tokens, and parsing them returns the
single node `Number` whose literal text, the one handed to `std::stold`, is `1000000.5e-2`:
the texts of the Digit, Dot, Edelim and Minus tokens in order, without the Delim tokens.  The
cursor ends at 10, past the last token.  The number written by that text is
`10000005 * 10 ^ (-3)`, that is 10000.005. -/
theorem C2_numeric_literal_assembly (k : Nat) :
    Lexer.lex (k + 17) "1'000'000.5e-2".toList = .ok literalTokens ∧
      literalTokens.length = 10 ∧
      parseText (k + 17) "1'000'000.5e-2".toList =
        some (Res.ok (Expr.Number "1000000.5e-2".toList) ⟨literalTokens, 10, 0, false⟩) ∧
      decimalOf "1000000.5e-2".toList = some (10000005, -3) :=
  ⟨rfl, rfl, parseText_run _ _ _ 17 k rfl (by decide!) (by simp), by decide⟩

/-- C3: the text `1.5` does not parse to a number.  The parser raises
`SyntaxError: invalid syntax` at the first token, because `m_IsValidAfterNumber` does not
accept a Dot token after a Digit token; the same holds for the tokens of `d1.d2` with any
texts `d1`, `d2`. -/
theorem C3_plain_decimal_rejected (k : Nat) :
    Lexer.lex (k + 6) "1.5".toList =
        .ok [⟨['1'], Tokens.Digit, 0⟩, ⟨['.'], Tokens.Dot, 1⟩, ⟨['5'], Tokens.Digit, 2⟩] ∧
      parseText (k + 6) "1.5".toList =
        some (Res.raise (Exn.BaseException "SyntaxError" "invalid syntax" 0)) ∧
      ∀ (d1 d2 : List Char) (p1 p2 p3 : Nat),
        parseTokens (k + 6)
            [⟨d1, Tokens.Digit, p1⟩, ⟨['.'], Tokens.Dot, p2⟩, ⟨d2, Tokens.Digit, p3⟩] =
          Res.raise (Exn.BaseException "SyntaxError" "invalid syntax" p1) :=
  ⟨rfl, parseText_run _ _ _ 6 k rfl (by decide!) (by simp), fun _ _ _ _ _ => rfl⟩

/-! ## Function definitions and calls -/

/-- C4: the text `f(x) = x + 1` does not parse to a `Function` node.  The lexer emits an
Assign token for `=`, no token of kind `FunctionDef` exists in the sequence, and `parse`
returns the call `FunctionCall("f", [Identifier "x"])` with the cursor left at 4, on the
Assign token. -/
theorem C4_definition_parsed_as_call (k : Nat) :
    Lexer.lex (k + 15) "f(x) = x + 1".toList = .ok defTokens ∧
      parseText (k + 15) "f(x) = x + 1".toList =
        some (Res.ok (Expr.FunctionCall ['f'] [Expr.Identifier ['x']])
          ⟨defTokens, 4, 0, false⟩) :=
  ⟨rfl, parseText_run _ _ _ 15 k rfl (by decide!) (by simp)⟩

/-- C6: the text `f(5) = x` raises no error.  The parser never reaches
`m_ParseFunctionDefArgs`, and `parse` returns `FunctionCall("f", [Number 5])` with the cursor
left at 4, on the Assign token. -/
theorem C6_numeric_parameter_accepted (k : Nat) :
    parseText (k + 15) "f(5) = x".toList =
      some (Res.ok (Expr.FunctionCall ['f'] [Expr.Number ['5']])
        ⟨[⟨['f'], Tokens.Identifier, 0⟩, ⟨['('], Tokens.Lparen, 1⟩, ⟨['5'], Tokens.Digit, 2⟩,
          ⟨[')'], Tokens.Rparen, 3⟩, ⟨['='], Tokens.Assign, 5⟩,
          ⟨['x'], Tokens.Identifier, 7⟩], 4, 0, false⟩) :=
  parseText_run _ _ _ 15 k rfl (by decide!) (by simp)

/-! ## Conditionals -/

/-- C7: the text `if (a < b) a else b` parses to an `IfExpr` without an else branch.  The
lexer emits the word `else` as an Identifier token (the `case 'e'` of the switch comes before
the keyword table), so `parse` returns `IfExpr(Comparaison(<, a, b), a, nullptr)` and leaves
the cursor at 7 of 9 tokens. -/
theorem C7_else_branch_dropped (k : Nat) :
    Lexer.lex (k + 19) "if (a < b) a else b".toList = .ok ifTokens ∧
      ifTokens.length = 9 ∧
      parseText (k + 19) "if (a < b) a else b".toList =
        some (Res.ok (Expr.IfExpr
            (Expr.Comparaison Op.Less (Expr.Identifier ['a']) (Expr.Identifier ['b']))
            (Expr.Identifier ['a']) none)
          ⟨ifTokens, 7, 1, false⟩) :=
  ⟨rfl, rfl, parseText_run _ _ _ 19 k rfl (by decide!) (by simp)⟩

/-! ## Commas in argument lists -/

namespace Parser

theorem IsArg.ne_fdef {a : TokenHandler} (h : IsArg a) : ¬ (a.token = Tokens.FunctionDef) := by
  rcases h with ⟨h, _⟩ | h <;> rw [h] <;> decide

/-- A call whose argument list ends in a Comma right before the Rparen token: the argument
is parsed, then the loop of `m_ParseFunctionArgs` raises `SyntaxError` at the Comma. -/
theorem parse_comma_before_rparen (f lp a cm rp : TokenHandler) (k : Nat)
    (hf : f.token = Tokens.Identifier) (hlp : lp.token = Tokens.Lparen) (ha : IsArg a)
    (hcm : cm.token = Tokens.Comma) (hrp : rp.token = Tokens.Rparen) :
    parseTokens (k + 15) [f, lp, a, cm, rp] =
      Res.raise (Exn.BaseException "SyntaxError" "invalid syntax" cm.pos) := by
  obtain ⟨src, hsrc⟩ : ∃ src : List TokenHandler, src = [f, lp, a, cm, rp] := ⟨_, rfl⟩
  have hl : src.length = 5 := by rw [hsrc]; rfl
  have hlen : src.length < SIZE_MOD := by rw [hl]; decide
  have g0 : src[0]? = some f := by rw [hsrc]; rfl
  have g1 : src[0 + 1]? = some lp := by rw [hsrc]; rfl
  have g2 : src[2]? = some a := by rw [hsrc]; rfl
  have g3 : src[2 + 1]? = some cm := by rw [hsrc]; rfl
  have g4 : src[3 + 1]? = some rp := by rw [hsrc]; rfl
  -- the argument
  have fa := m_ParseFactor_arg k src 2 0 a cm g2 ha g3 (Or.inl hcm) hlen
  have ca := m_ParseComp_of_factor k _ _ _ fa
    (quiet_of_kind src (2 + 1) 0 true cm g3 (by rw [hcm]; decide))
  -- the second round of the loop, on the Comma
  have hget3 := m_Get_eq ⟨src, 2 + 1, 0, true⟩ cm g3
  have hpeek3 := m_Peek_eq ⟨src, 2 + 1, 0, true⟩ rp g4 hlen
  have herr := m_Err_any (List Expr) ⟨src, 2 + 1, 0, true⟩ cm g3
  have l2 : m_ParseFunctionArgsLoop (k + 6) [leafOf a] ⟨src, 2 + 1, 0, true⟩ =
      Res.raise (Exn.BaseException "SyntaxError" "invalid syntax" cm.pos) := by
    rw [m_ParseFunctionArgsLoop]
    simp only [bind_apply, hget3, hcm, if_true, List.length_singleton, gt_iff_lt,
      Nat.lt_add_one, hpeek3, hrp, ne_eq, not_true_eq_false, if_false, herr]
  -- the first round of the loop, on the argument
  have hget2 := m_Get_eq ⟨src, 2, 0, true⟩ a g2
  have hne2 : decide (2 < src.length) = true := by rw [hl]; decide
  have l1 : m_ParseFunctionArgsLoop (k + 7) [] ⟨src, 2, 0, true⟩ =
      Res.raise (Exn.BaseException "SyntaxError" "invalid syntax" cm.pos) := by
    rw [m_ParseFunctionArgsLoop]
    simp only [bind_apply, hget2, ha.ne_comma, if_false, not_eof_apply, hne2, Bool.not_true,
      Bool.false_eq_true, ca, pure_apply, List.nil_append, hget3, hcm, ne_eq, reduceCtorEq,
      not_false_eq_true, if_true, l2]
  have ar : m_ParseFunctionArgs (k + 8) ⟨src, 2, 0, false⟩ =
      Res.raise (Exn.BaseException "SyntaxError" "invalid syntax" cm.pos) := by
    rw [m_ParseFunctionArgs]
    simp only [bind_apply, set_in_func_args, hget2, ne_eq, ha.ne_rparen, not_false_eq_true,
      if_true, l1]
  have hnone : ∀ t ∈ [a, cm, rp], (t.token == Tokens.FunctionDef) = false := by
    intro t ht
    have : t.token ≠ Tokens.FunctionDef := by
      simp at ht
      rcases ht with rfl | rfl | rfl
      · exact ha.ne_fdef
      · rw [hcm]; decide
      · rw [hrp]; decide
    simpa using this
  have hidx := findIdx_eq_length_of_false (fun t : TokenHandler => t.token == Tokens.FunctionDef)
    _ hnone
  have hdrop : src.drop 2 = [a, cm, rp] := by rw [hsrc]; rfl
  have dc : m_ParseFunctionDefOrCall (k + 9) f ⟨src, 2, 0, false⟩ =
      Res.raise (Exn.BaseException "SyntaxError" "invalid syntax" cm.pos) := by
    rw [m_ParseFunctionDefOrCall]
    simp only [bind_apply, get_rest, hdrop, hidx, ne_eq, not_true_eq_false, decide_False,
      Bool.false_and, Bool.false_eq_true, if_false, Bool.not_false, if_true, ar]
  have hget0 := m_Get_eq ⟨src, 0, 0, false⟩ f g0
  have hpeek0 := m_Peek_eq ⟨src, 0, 0, false⟩ lp g1 hlen
  have hadv0 := m_Advance_eq src 0 0 false 2 (by rw [hl]; decide) (by decide)
  have fc : m_ParseFactor (k + 9 + 1) ⟨src, 0, 0, false⟩ =
      Res.raise (Exn.BaseException "SyntaxError" "invalid syntax" cm.pos) := by
    rw [m_ParseFactor]
    simp only [bind_apply, hget0, hf, reduceCtorEq, if_false, if_true, hpeek0, hlp, hadv0,
      Nat.zero_add, dc]
  have e0 : parseTokens (k + 15) src = m_ParseComp (k + 9 + 6) ⟨src, 0, 0, false⟩ := by
    rw [hsrc]
    rfl
  rw [← hsrc, e0]
  exact m_ParseComp_raise_of_factor (k + 9) _ _ fc

end Parser

/-- C9 (amended): for every identifier `f` and every argument `a` that is one Digit or one
Identifier token, parsing the token sequences of `f(,)` and `f(,a)` raises an error of
category `SyntaxError`, reported at the comma; so does parsing the token sequence of `f(a,)`
when `a` is an Identifier token or a Digit token whose text `std::stod` converts without
throwing: there the argument is parsed, and a Digit token converted, before the comma is
read.  No tree is returned. -/
theorem C9_dangling_commas_rejected (f : List Char) (a : TokenHandler) (pf pl pc pr k : Nat)
    (hk : a.token = Tokens.Digit ∨ a.token = Tokens.Identifier) :
    parseTokens (k + 9) [⟨f, Tokens.Identifier, pf⟩, ⟨['('], Tokens.Lparen, pl⟩,
        ⟨[','], Tokens.Comma, pc⟩, ⟨[')'], Tokens.Rparen, pr⟩] =
        Res.raise (Exn.BaseException "SyntaxError" "invalid syntax" pc) ∧
      (Parser.IsArg a →
        parseTokens (k + 15) [⟨f, Tokens.Identifier, pf⟩, ⟨['('], Tokens.Lparen, pl⟩,
          a, ⟨[','], Tokens.Comma, pc⟩, ⟨[')'], Tokens.Rparen, pr⟩] =
          Res.raise (Exn.BaseException "SyntaxError" "invalid syntax" pc)) ∧
      parseTokens (k + 9) [⟨f, Tokens.Identifier, pf⟩, ⟨['('], Tokens.Lparen, pl⟩,
        ⟨[','], Tokens.Comma, pc⟩, a, ⟨[')'], Tokens.Rparen, pr⟩] =
        Res.raise (Exn.BaseException "SyntaxError" "invalid syntax" pc) := by
  refine ⟨rfl, ?_, ?_⟩
  · intro ha
    exact Parser.parse_comma_before_rparen ⟨f, Tokens.Identifier, pf⟩ ⟨['('], Tokens.Lparen, pl⟩
      a ⟨[','], Tokens.Comma, pc⟩ ⟨[')'], Tokens.Rparen, pr⟩ k rfl rfl ha rfl rfl
  · obtain ⟨v, kd, p⟩ := a
    rcases hk with h | h
    · simp only at h
      subst h
      rfl
    · simp only at h
      subst h
      rfl

/-- Witness of C9 at the tokens of `f(,)`, `f(5,)` and `f(,5)`. -/
theorem C9_dangling_commas_rejected_witness :
    (((⟨['5'], Tokens.Digit, 2⟩ : TokenHandler).token = Tokens.Digit ∨
        (⟨['5'], Tokens.Digit, 2⟩ : TokenHandler).token = Tokens.Identifier) ∧
      Parser.IsArg ⟨['5'], Tokens.Digit, 2⟩) ∧
      parseTokens 15 [⟨['f'], Tokens.Identifier, 0⟩, ⟨['('], Tokens.Lparen, 1⟩,
        ⟨[','], Tokens.Comma, 2⟩, ⟨[')'], Tokens.Rparen, 3⟩] =
        Res.raise (Exn.BaseException "SyntaxError" "invalid syntax" 2) ∧
      parseTokens 15 [⟨['f'], Tokens.Identifier, 0⟩, ⟨['('], Tokens.Lparen, 1⟩,
        ⟨['5'], Tokens.Digit, 2⟩, ⟨[','], Tokens.Comma, 3⟩, ⟨[')'], Tokens.Rparen, 4⟩] =
        Res.raise (Exn.BaseException "SyntaxError" "invalid syntax" 3) ∧
      parseTokens 15 [⟨['f'], Tokens.Identifier, 0⟩, ⟨['('], Tokens.Lparen, 1⟩,
        ⟨[','], Tokens.Comma, 2⟩, ⟨['5'], Tokens.Digit, 3⟩, ⟨[')'], Tokens.Rparen, 4⟩] =
        Res.raise (Exn.BaseException "SyntaxError" "invalid syntax" 2) :=
  ⟨⟨Or.inl rfl, Or.inl ⟨rfl, by decide!⟩⟩,
    (C9_dangling_commas_rejected ['f'] ⟨['5'], Tokens.Digit, 2⟩ 0 1 2 3 6 (Or.inl rfl)).1,
    (C9_dangling_commas_rejected ['f'] ⟨['5'], Tokens.Digit, 2⟩ 0 1 3 4 0 (Or.inl rfl)).2.1
      (Or.inl ⟨rfl, by decide!⟩),
    (C9_dangling_commas_rejected ['f'] ⟨['5'], Tokens.Digit, 3⟩ 0 1 2 4 6 (Or.inl rfl)).2.2⟩

/-- C10: the tokens of `f(a,,b)` are accepted: `parse` returns
`FunctionCall("f", [Identifier "a", Identifier "b"])` with all seven tokens consumed and
raises no error.  The second comma passes the test of `m_ParseFunctionArgs` (an argument was
pushed before, the next token is not `)`, the cursor is not at the end) and is skipped. -/
theorem C10_adjacent_commas_accepted (k : Nat) :
    Lexer.lex (k + 18) "f(a,,b)".toList = .ok commaTokens ∧
      commaTokens.length = 7 ∧
      parseText (k + 18) "f(a,,b)".toList =
        some (Res.ok (Expr.FunctionCall ['f'] [Expr.Identifier ['a'], Expr.Identifier ['b']])
          ⟨commaTokens, 7, 0, false⟩) :=
  ⟨rfl, rfl, parseText_run _ _ _ 18 k rfl (by decide!) (by simp)⟩


/-! ## Nested negation: the lexer -/

namespace Lexer

theorem prefixText_succ (j : Nat) : prefixText (j + 1) = '-' :: '(' :: prefixText j := by
  simp [prefixText, List.replicate_succ]

theorem prefixText_length (j : Nat) : (prefixText j).length = 2 * j := by
  induction j with
  | zero => rfl
  | succ j ih =>
    rw [prefixText_succ]
    simp [ih]
    omega

theorem lexLoop_prefix (j : Nat) :
    ∀ (m : Nat) (toks : List TokenHandler) (pre rest : List Char),
      (pre ++ (prefixText j ++ rest)).length < SIZE_MOD →
      lexLoop (m + 2 * j) ⟨toks, pre.length, pre ++ (prefixText j ++ rest)⟩ =
        lexLoop m ⟨toks ++ prefixTokens pre.length j, pre.length + 2 * j,
          pre ++ (prefixText j ++ rest)⟩ := by
  induction j with
  | zero =>
    intro m toks pre rest _
    simp [prefixTokens]
  | succ j ih =>
    intro m toks pre rest hlen
    have e : m + 2 * (j + 1) = (m + 2 * j + 1) + 1 := by omega
    have hsrc : pre ++ (prefixText (j + 1) ++ rest) =
        pre ++ '-' :: ('(' :: (prefixText j ++ rest)) := by
      rw [prefixText_succ]
      simp
    rw [hsrc] at hlen
    rw [e, hsrc]
    rw [lexLoop_single _ _ _ _ pre ('(' :: (prefixText j ++ rest)) '-' Tokens.Minus rfl rfl hlen
      (lexSwitch_minus _)]
    rw [lexLoop_single _ _ _ _ (pre ++ ['-']) (prefixText j ++ rest) '(' Tokens.Lparen
      (by simp) (by simp) hlen (lexSwitch_lparen _)]
    have hsrc2 : pre ++ '-' :: ('(' :: (prefixText j ++ rest)) =
        (pre ++ ['-', '(']) ++ (prefixText j ++ rest) := by simp
    have hp : pre.length + 1 + 1 = (pre ++ ['-', '(']).length := by simp
    have ep : pre.length + 2 * (j + 1) = pre.length + 2 + 2 * j := by omega
    rw [hsrc2, hp, ih m _ (pre ++ ['-', '(']) rest (by rw [← hsrc2]; exact hlen), ep]
    simp [prefixTokens]

theorem lexLoop_suffix (j : Nat) :
    ∀ (m : Nat) (toks : List TokenHandler) (pre rest : List Char),
      (pre ++ (List.replicate j ')' ++ rest)).length < SIZE_MOD →
      lexLoop (m + j) ⟨toks, pre.length, pre ++ (List.replicate j ')' ++ rest)⟩ =
        lexLoop m ⟨toks ++ suffixTokens pre.length j, pre.length + j,
          pre ++ (List.replicate j ')' ++ rest)⟩ := by
  induction j with
  | zero =>
    intro m toks pre rest _
    simp [suffixTokens]
  | succ j ih =>
    intro m toks pre rest hlen
    have e : m + (j + 1) = (m + j) + 1 := by omega
    have hsrc : pre ++ (List.replicate (j + 1) ')' ++ rest) =
        pre ++ ')' :: (List.replicate j ')' ++ rest) := by
      simp [List.replicate_succ]
    rw [hsrc] at hlen
    rw [e, hsrc]
    rw [lexLoop_single _ _ _ _ pre (List.replicate j ')' ++ rest) ')' Tokens.Rparen rfl rfl hlen
      (lexSwitch_rparen _)]
    have hsrc2 : pre ++ ')' :: (List.replicate j ')' ++ rest) =
        (pre ++ [')']) ++ (List.replicate j ')' ++ rest) := by simp
    have hp : pre.length + 1 = (pre ++ [')']).length := by simp
    have ep : pre.length + (j + 1) = pre.length + 1 + j := by omega
    rw [hsrc2, hp, ih m _ (pre ++ [')']) rest (by rw [← hsrc2]; exact hlen), ep]
    simp [suffixTokens]

theorem noDigitAhead_replicate (j : Nat) : NoDigitAhead (List.replicate j ')' ++ []) := by
  cases j with
  | zero => exact noDigitAhead_nil
  | succ j =>
    rw [List.replicate_succ]
    exact noDigitAhead_cons _ _ (by decide)

theorem negText_length (j : Nat) (d : List Char) :
    (negText j d).length = 3 * j + 1 + d.length := by
  simp [negText, prefixText_length]
  omega

/-- The lexer on the text of a nested negation. -/
theorem lex_neg (j : Nat) (d : List Char) (hd : DigitRun d)
    (hlen : 3 * j + 1 + d.length < SIZE_MOD) (n : Nat) (hn : 3 * j + d.length + 3 ≤ n) :
    lex n (negText j d) = .ok (negTokens j d) := by
  obtain ⟨k, rfl⟩ : ∃ k, n = (((k + d.length + 1) + j + 1) + 1) + 2 * j :=
    ⟨n - (3 * j + d.length + 3), by omega⟩
  have hl := negText_length j d
  have hdpos : 0 < d.length := List.length_pos.mpr hd.1
  unfold lex
  have s0 : negText j d = [] ++ (prefixText j ++ '-' :: (d ++ (List.replicate j ')' ++ []))) := by
    simp [negText]
  have hlen0 : ([] ++ (prefixText j ++ '-' :: (d ++ (List.replicate j ')' ++ [])))).length <
      SIZE_MOD := by
    rw [← s0, hl]
    exact hlen
  rw [s0]
  have h1 := lexLoop_prefix j (((k + d.length + 1) + j + 1) + 1) []
    [] ('-' :: (d ++ (List.replicate j ')' ++ []))) hlen0
  simp only [List.length_nil, List.nil_append, Nat.zero_add] at h1 hlen0 ⊢
  rw [h1]
  rw [lexLoop_single _ _ _ _ (prefixText j) (d ++ (List.replicate j ')' ++ [])) '-' Tokens.Minus
    rfl (prefixText_length j).symm hlen0 (lexSwitch_minus _)]
  rw [lexLoop_digits _ _ _ _ (prefixText j ++ ['-']) d (List.replicate j ')' ++ [])
    (by simp) (by simp [prefixText_length]) hlen0 hd (noDigitAhead_replicate j) (by omega)]
  have s1 : prefixText j ++ '-' :: (d ++ (List.replicate j ')' ++ [])) =
      (prefixText j ++ '-' :: d) ++ (List.replicate j ')' ++ []) := by simp
  have hp : 2 * j + 1 + d.length = (prefixText j ++ '-' :: d).length := by
    simp [prefixText_length]
    omega
  have e1 : k + d.length + 1 + j = (k + d.length + 1) + j := rfl
  rw [s1, hp, lexLoop_suffix j (k + d.length + 1) _ (prefixText j ++ '-' :: d) []
    (by rw [← s1]; exact hlen0)]
  obtain ⟨i, hi⟩ : ∃ i, k + d.length + 1 = i + 1 := ⟨k + d.length, rfl⟩
  rw [hi, lexLoop_end _ _ _ _ (by simp; omega)]
  have e2 : 2 * j + (d.length + 1) = 2 * j + 1 + d.length := by omega
  simp [negTokens, prefixText_length, e2]

end Lexer

/-! ## Nested negation: the parser -/

namespace Parser

/-- The Minus branch of `m_ParseFactor` before `(`, an identifier, a digit or a boolean: the
result is the `NegativeExpr` of the comparison-level expression that follows. -/
theorem m_ParseFactor_minus (n : Nat) (src : List TokenHandler) (pos c : Nat) (f : Bool)
    (m nx : TokenHandler) (e : Expr) (p1 : Parser)
    (hm : src[pos]? = some m) (hmk : m.token = Tokens.Minus)
    (hnx : src[pos + 1]? = some nx)
    (hnk : nx.token = Tokens.Lparen ∨ nx.token = Tokens.Identifier ∨ nx.token = Tokens.Digit ∨
      nx.token = Tokens.Boolean)
    (hlen : src.length < SIZE_MOD)
    (hc : m_ParseComp n ⟨src, pos + 1, c, f⟩ = Res.ok e p1) :
    m_ParseFactor (n + 1) ⟨src, pos, c, f⟩ = Res.ok (Expr.NegativeExpr e) p1 := by
  have hlt : pos < src.length := lt_of_getElem? hm
  have hget := m_Get_eq ⟨src, pos, c, f⟩ m hm
  have hget1 := m_Get_eq ⟨src, pos + 1, c, f⟩ nx hnx
  have hadv := m_Advance_eq src pos c f 1 hlt (by omega)
  have hne : decide (pos < src.length) = true := by simp [hlt]
  rw [m_ParseFactor]
  simp only [bind_apply, hget, hmk, reduceCtorEq, if_false, if_true, not_eof_apply, hne, hadv,
    hget1, hnk, hc, pure_apply]

/-- The Lparen branch of `m_ParseFactor`: the expression between the parentheses, with the
cursor moved past the closing Rparen token. -/
theorem m_ParseFactor_lparen (n : Nat) (src : List TokenHandler) (pos c : Nat) (f : Bool)
    (lp rp : TokenHandler) (e : Expr) (pos2 c2 : Nat) (f2 : Bool)
    (hl : src[pos]? = some lp) (hlk : lp.token = Tokens.Lparen)
    (hin : pos + 1 < src.length) (hlen : src.length < SIZE_MOD)
    (hc : m_ParseComp n ⟨src, pos + 1, size_add c 1, f⟩ = Res.ok e ⟨src, pos2, c2, f2⟩)
    (hr : src[pos2]? = some rp) (hrk : rp.token = Tokens.Rparen) :
    m_ParseFactor (n + 1) ⟨src, pos, c, f⟩ = Res.ok e ⟨src, pos2 + 1, c2, f2⟩ := by
  have hlt : pos < src.length := lt_of_getElem? hl
  have hlt2 : pos2 < src.length := lt_of_getElem? hr
  have hget := m_Get_eq ⟨src, pos, c, f⟩ lp hl
  have hget2 := m_Get_eq ⟨src, pos2, c2, f2⟩ rp hr
  have hadv := m_Advance_eq src pos (size_add c 1) f 1 hlt (by omega)
  have hadv2 := m_Advance_eq src pos2 c2 f2 1 hlt2 (by omega)
  have hne : decide (pos + 1 < src.length) = true := by simp [hin]
  rw [m_ParseFactor]
  simp only [bind_apply, hget, hlk, if_true, incr_ParensCount, hadv, not_eof_apply, hne, hc,
    hget2, hrk, ne_eq, not_true_eq_false, if_false, hadv2, pure_apply]

/-- The Digit branch of `m_ParseFactor` outside an argument list, on one Digit token that is
the last token or is followed by an Rparen token: the number assembled by `m_GetDigit` is the
text of that token. -/
theorem m_ParseFactor_digit (n : Nat) (pre post : List TokenHandler) (dg : TokenHandler)
    (c : Nat) (hdk : dg.token = Tokens.Digit) (hpost : PostOk post)
    (hlen : (pre ++ dg :: post).length < SIZE_MOD) (hcv : std.stold dg.value = none) :
    m_ParseFactor (n + 3) ⟨pre ++ dg :: post, pre.length, c, false⟩ =
      Res.ok (Expr.Number dg.value) ⟨pre ++ dg :: post, pre.length + 1, c, false⟩ := by
  have g0 : (pre ++ dg :: post)[pre.length]? = some dg := getElem?_mid _ _ _
  have hget := m_Get_eq ⟨pre ++ dg :: post, pre.length, c, false⟩ dg g0
  have hadv := m_Advance_eq (pre ++ dg :: post) pre.length c false 1 (by simp)
    (by simp at hlen; omega)
  have hne : decide (pre.length < (pre ++ dg :: post).length) = true := by simp
  have hvp : m_IsValidPunc dg = true := by simp [m_IsValidPunc, hdk]
  have hva : m_IsValidAfterNumber dg = true := by simp [m_IsValidAfterNumber, hdk]
  rcases hpost with rfl | ⟨t, l, rfl, htk⟩
  · have hpeek := m_Peek_clamp ⟨pre ++ [dg], pre.length, c, false⟩ dg (by simp) g0 hlen
    have hne1 : decide (pre.length + 1 < (pre ++ [dg]).length) = false := by simp
    rw [m_ParseFactor]
    simp only [bind_apply, hget, hdk, reduceCtorEq, if_false, if_true, not_eof_apply, hne,
      get_in_func_args, Bool.not_false, Bool.and_self, hpeek, hva, Bool.true_or, m_GetDigit]
    rw [m_GetDigitLoop]
    simp only [bind_apply, not_eof_apply, hne, if_true, hget, hvp, hdk, hadv]
    rw [m_GetDigitLoop]
    simp only [bind_apply, not_eof_apply, hne1, Bool.false_eq_true, if_false, pure_apply,
      List.nil_append, throwing, hcv]
  · have g1 : (pre ++ dg :: t :: l)[pre.length + 1]? = some t := getElem?_mid_add _ _ _ _
    have hpeek := m_Peek_eq ⟨pre ++ dg :: t :: l, pre.length, c, false⟩ t g1 hlen
    have hget1 := m_Get_eq ⟨pre ++ dg :: t :: l, pre.length + 1, c, false⟩ t g1
    have hne1 : decide (pre.length + 1 < (pre ++ dg :: t :: l).length) = true := by simp
    have hvt : m_IsValidAfterNumber t = true := by simp [m_IsValidAfterNumber, htk]
    have hvpt : m_IsValidPunc t = false := by simp [m_IsValidPunc, htk]
    rw [m_ParseFactor]
    simp only [bind_apply, hget, hdk, reduceCtorEq, if_false, if_true, not_eof_apply, hne,
      get_in_func_args, Bool.not_false, Bool.and_self, hpeek, hvt, Bool.true_or, m_GetDigit]
    rw [m_GetDigitLoop]
    simp only [bind_apply, not_eof_apply, hne, if_true, hget, hvp, hdk, hadv]
    rw [m_GetDigitLoop]
    simp only [bind_apply, not_eof_apply, hne1, if_true, hget1, hvpt, Bool.false_eq_true,
      if_false, pure_apply, List.nil_append, throwing, hcv]

theorem quiet_of_postOk (pre post : List TokenHandler) (c : Nat) (f : Bool)
    (hpost : PostOk post) : Quiet ⟨pre ++ post, pre.length, c, f⟩ := by
  rcases hpost with rfl | ⟨t, l, rfl, htk⟩
  · left
    simp
  · right
    exact ⟨t, getElem?_mid _ _ _, by rw [htk]; decide⟩

theorem prefixTokens_length (j : Nat) : ∀ off, (prefixTokens off j).length = 2 * j := by
  induction j with
  | zero => intro off; rfl
  | succ j ih =>
    intro off
    simp [prefixTokens, ih]
    omega

theorem suffixTokens_length (j : Nat) : ∀ off, (suffixTokens off j).length = j := by
  induction j with
  | zero => intro off; rfl
  | succ j ih =>
    intro off
    simp [suffixTokens, ih]

theorem suffixTokens_snoc (j : Nat) : ∀ off,
    suffixTokens off (j + 1) = suffixTokens off j ++ [⟨[')'], Tokens.Rparen, off + j⟩] := by
  induction j with
  | zero => intro off; rfl
  | succ j ih =>
    intro off
    have h := ih (off + 1)
    have e : off + 1 + j = off + (j + 1) := by omega
    rw [e] at h
    rw [suffixTokens, h]
    rfl

/-- Parsing the tokens of a nested negation that is the whole input or sits inside
parentheses: the result is the chain of `j + 1` nodes `NegativeExpr`, the cursor moves over
all `3 * j + 2` tokens and `m_ParensCount` grows by `j`. -/
theorem m_ParseComp_neg (j : Nat) (d : List Char) (hcv : std.stold d = none) :
    ∀ (off soff pm pd : Nat) (pre post : List TokenHandler) (c k : Nat),
      PostOk post →
      (pre ++ (prefixTokens off j ++ (⟨['-'], Tokens.Minus, pm⟩ :: ⟨d, Tokens.Digit, pd⟩ ::
        (suffixTokens soff j ++ post)))).length < SIZE_MOD →
      c + j < SIZE_MOD →
      m_ParseComp (12 * j + 14 + k)
          ⟨pre ++ (prefixTokens off j ++ (⟨['-'], Tokens.Minus, pm⟩ :: ⟨d, Tokens.Digit, pd⟩ ::
            (suffixTokens soff j ++ post))), pre.length, c, false⟩ =
        Res.ok (negTree j d)
          ⟨pre ++ (prefixTokens off j ++ (⟨['-'], Tokens.Minus, pm⟩ :: ⟨d, Tokens.Digit, pd⟩ ::
            (suffixTokens soff j ++ post))), pre.length + 3 * j + 2, c + j, false⟩ := by
  induction j with
  | zero =>
    intro off soff pm pd pre post c k hpost hlen _
    simp only [prefixTokens, suffixTokens, List.nil_append] at hlen ⊢
    have s1 : pre ++ (⟨['-'], Tokens.Minus, pm⟩ :: ⟨d, Tokens.Digit, pd⟩ :: post) =
        (pre ++ [⟨['-'], Tokens.Minus, pm⟩]) ++ (⟨d, Tokens.Digit, pd⟩ :: post) := by simp
    have s2 : pre ++ (⟨['-'], Tokens.Minus, pm⟩ :: ⟨d, Tokens.Digit, pd⟩ :: post) =
        (pre ++ [⟨['-'], Tokens.Minus, pm⟩, ⟨d, Tokens.Digit, pd⟩]) ++ post := by simp
    have hq : Quiet ⟨pre ++ (⟨['-'], Tokens.Minus, pm⟩ :: ⟨d, Tokens.Digit, pd⟩ :: post),
        pre.length + 1 + 1, c, false⟩ := by
      have h := quiet_of_postOk (pre ++ [⟨['-'], Tokens.Minus, pm⟩, ⟨d, Tokens.Digit, pd⟩]) post
        c false hpost
      rw [← s2] at h
      simpa using h
    have hdig : m_ParseFactor (k + 2 + 1)
        ⟨pre ++ (⟨['-'], Tokens.Minus, pm⟩ :: ⟨d, Tokens.Digit, pd⟩ :: post), pre.length + 1, c,
          false⟩ =
        Res.ok (Expr.Number d)
          ⟨pre ++ (⟨['-'], Tokens.Minus, pm⟩ :: ⟨d, Tokens.Digit, pd⟩ :: post),
            pre.length + 1 + 1, c, false⟩ := by
      have h := m_ParseFactor_digit k (pre ++ [⟨['-'], Tokens.Minus, pm⟩]) post
        ⟨d, Tokens.Digit, pd⟩ c rfl hpost (by rw [← s1]; exact hlen) hcv
      rw [← s1] at h
      simpa using h
    have hcomp := m_ParseComp_of_factor (k + 2) _ _ _ hdig hq
    have hminus := m_ParseFactor_minus (k + 2 + 6) _ pre.length c false
      ⟨['-'], Tokens.Minus, pm⟩ ⟨d, Tokens.Digit, pd⟩ _ _ (getElem?_mid _ _ _) rfl
      (getElem?_mid_add _ _ _ _) (Or.inr (Or.inr (Or.inl rfl))) hlen hcomp
    have hfin := m_ParseComp_of_factor (k + 2 + 6) _ _ _ hminus hq
    have e : 12 * 0 + 14 + k = k + 2 + 6 + 6 := by omega
    rw [e, hfin]
    simp [negTree]
  | succ j ih =>
    intro off soff pm pd pre post c k hpost hlen hc
    have e : 12 * (j + 1) + 14 + k = (12 * j + 14 + k) + 6 + 6 := by omega
    have hsrc : pre ++ (prefixTokens off (j + 1) ++ (⟨['-'], Tokens.Minus, pm⟩ ::
          ⟨d, Tokens.Digit, pd⟩ :: (suffixTokens soff (j + 1) ++ post))) =
        (pre ++ [⟨['-'], Tokens.Minus, off⟩, ⟨['('], Tokens.Lparen, off + 1⟩]) ++
          (prefixTokens (off + 2) j ++ (⟨['-'], Tokens.Minus, pm⟩ :: ⟨d, Tokens.Digit, pd⟩ ::
            (suffixTokens soff j ++ ⟨[')'], Tokens.Rparen, soff + j⟩ :: post))) := by
      rw [suffixTokens_snoc]
      simp [prefixTokens]
    rw [hsrc] at hlen
    rw [e, hsrc]
    have hpost1 : PostOk (⟨[')'], Tokens.Rparen, soff + j⟩ :: post) :=
      Or.inr ⟨_, _, rfl, rfl⟩
    have ih1 := ih (off + 2) soff pm pd
      (pre ++ [⟨['-'], Tokens.Minus, off⟩, ⟨['('], Tokens.Lparen, off + 1⟩])
      (⟨[')'], Tokens.Rparen, soff + j⟩ :: post) (c + 1) k hpost1 hlen (by omega)
    generalize hS : (pre ++ [⟨['-'], Tokens.Minus, off⟩, ⟨['('], Tokens.Lparen, off + 1⟩]) ++
          (prefixTokens (off + 2) j ++ (⟨['-'], Tokens.Minus, pm⟩ :: ⟨d, Tokens.Digit, pd⟩ ::
            (suffixTokens soff j ++ ⟨[')'], Tokens.Rparen, soff + j⟩ :: post))) = src at *
    have hl : src.length = pre.length + 3 * j + 5 + post.length := by
      rw [← hS]
      simp [prefixTokens_length, suffixTokens_length]
      omega
    have g0 : src[pre.length]? = some ⟨['-'], Tokens.Minus, off⟩ := by
      rw [← hS, List.append_assoc]
      exact getElem?_mid _ _ _
    have g1 : src[pre.length + 1]? = some ⟨['('], Tokens.Lparen, off + 1⟩ := by
      rw [← hS, List.append_assoc]
      exact getElem?_mid_add _ _ _ _
    obtain ⟨A, hA⟩ : ∃ A : List TokenHandler, A =
        (pre ++ [⟨['-'], Tokens.Minus, off⟩, ⟨['('], Tokens.Lparen, off + 1⟩]) ++
          (prefixTokens (off + 2) j ++ (⟨['-'], Tokens.Minus, pm⟩ :: ⟨d, Tokens.Digit, pd⟩ ::
            suffixTokens soff j)) := ⟨_, rfl⟩
    have hAl : A.length = pre.length + 2 + 3 * j + 2 := by
      rw [hA]
      simp [prefixTokens_length, suffixTokens_length]
      omega
    have s3 : src = A ++ ⟨[')'], Tokens.Rparen, soff + j⟩ :: post := by
      rw [← hS, hA]
      simp
    have s4 : src = (A ++ [⟨[')'], Tokens.Rparen, soff + j⟩]) ++ post := by
      rw [s3]
      simp
    have g2 : src[pre.length + 2 + 3 * j + 2]? = some ⟨[')'], Tokens.Rparen, soff + j⟩ := by
      rw [← hAl, s3]
      exact getElem?_mid _ _ _
    have hq : Quiet ⟨src, pre.length + 2 + 3 * j + 2 + 1, c + 1 + j, false⟩ := by
      have h := quiet_of_postOk (A ++ [⟨[')'], Tokens.Rparen, soff + j⟩]) post (c + 1 + j) false
        hpost
      have l4 : (A ++ [(⟨[')'], Tokens.Rparen, soff + j⟩ : TokenHandler)]).length =
          pre.length + 2 + 3 * j + 2 + 1 := by
        simp [hAl]
      rw [← s4, l4] at h
      exact h
    have hpl : (pre ++ [(⟨['-'], Tokens.Minus, off⟩ : TokenHandler),
          (⟨['('], Tokens.Lparen, off + 1⟩ : TokenHandler)]).length = pre.length + 1 + 1 := by
      simp
    rw [hpl] at ih1
    have hc1 : size_add c 1 = c + 1 := size_add_of_lt (by omega)
    have e5 : pre.length + 1 + 1 + 3 * j + 2 = pre.length + 2 + 3 * j + 2 := by omega
    rw [e5] at ih1
    have hlp := m_ParseFactor_lparen (12 * j + 14 + k) src (pre.length + 1) c false
      ⟨['('], Tokens.Lparen, off + 1⟩ ⟨[')'], Tokens.Rparen, soff + j⟩ (negTree j d)
      (pre.length + 2 + 3 * j + 2) (c + 1 + j) false g1 rfl (by omega) hlen
      (by rw [hc1]; exact ih1) g2 rfl
    have hcomp := m_ParseComp_of_factor (12 * j + 14 + k) _ _ _ hlp hq
    have hminus := m_ParseFactor_minus (12 * j + 14 + k + 6) src pre.length c false
      ⟨['-'], Tokens.Minus, off⟩ ⟨['('], Tokens.Lparen, off + 1⟩ _ _ g0 rfl g1 (Or.inl rfl)
      hlen hcomp
    have hfin := m_ParseComp_of_factor (12 * j + 14 + k + 6) _ _ _ hminus hq
    rw [hfin]
    have e6 : pre.length + 2 + 3 * j + 2 + 1 = pre.length + 3 * (j + 1) + 2 := by omega
    have e7 : c + 1 + j = c + (j + 1) := by omega
    rw [e6, e7]
    rfl

end Parser

/-- C8 (amended): for every depth `j ≥ 0` and every digit run `d` whose value is below the
overflow bound of `long double` (`2 ^ 16384 - 2 ^ 16319`, so that `std::stold` returns), the
text made of `j` copies of `-(`, then `-d`, then `j` closing `)` is tokenized into `3 * j + 2`
tokens, and parsing them returns the chain of `j + 1` nodes `NegativeExpr` around `Number d`
with every token consumed (`-(-(-5))` is the case `j = 2`, `d = 5`: eight tokens, a chain of
depth three). -/
theorem C8_nested_negation (j : Nat) (d : List Char) (hd : Lexer.DigitRun d)
    (hr : digitsValue d < LDBL.overflowBound)
    (hlen : 3 * j + 1 + d.length < SIZE_MOD) (n : Nat) (hn : 12 * j + 14 + d.length ≤ n) :
    parseText n (negText j d) =
        some (Res.ok (negTree j d) ⟨negTokens j d, 3 * j + 2, j, false⟩) ∧
      (negTokens j d).length = 3 * j + 2 := by
  have hl : (negTokens j d).length = 3 * j + 2 := by
    simp [negTokens, Parser.prefixTokens_length, Parser.suffixTokens_length]
    omega
  have hdpos : 0 < d.length := List.length_pos.mpr hd.1
  refine ⟨?_, hl⟩
  obtain ⟨k, rfl⟩ : ∃ k, n = 12 * j + 14 + k := ⟨n - (12 * j + 14), by omega⟩
  unfold parseText
  rw [Lexer.lex_neg j d hd hlen _ (by omega)]
  simp only []
  unfold parseTokens Parser.ctor
  rw [if_pos (by rw [hl]; omega)]
  simp only []
  unfold Parser.parse
  have h := Parser.m_ParseComp_neg j d (std.sto_digitRun LDBL d hd hr) 0 (2 * j + 1 + d.length)
    (2 * j) (2 * j + 1 + d.length - 1)
    [] [] 0 k (Or.inl rfl)
    (by
      have e : [] ++ (prefixTokens 0 j ++ (⟨['-'], Tokens.Minus, 2 * j⟩ ::
          ⟨d, Tokens.Digit, 2 * j + 1 + d.length - 1⟩ ::
          (suffixTokens (2 * j + 1 + d.length) j ++ []))) = negTokens j d := by
        simp [negTokens]
      rw [e, hl]
      omega)
    (by omega)
  simp only [List.nil_append, List.append_nil, List.length_nil, Nat.zero_add] at h
  unfold negTokens
  rw [h]

/-- Witness of C8 at `-(-(-5))`. -/
theorem C8_nested_negation_witness :
    (Lexer.DigitRun ['5'] ∧ digitsValue ['5'] < LDBL.overflowBound ∧
      3 * 2 + 1 + 1 < SIZE_MOD ∧ 12 * 2 + 14 + 1 ≤ 39) ∧
      parseText 39 "-(-(-5))".toList =
        some (Res.ok
          (Expr.NegativeExpr (Expr.NegativeExpr (Expr.NegativeExpr (Expr.Number ['5']))))
          ⟨negTokens 2 ['5'], 8, 2, false⟩) ∧
      (negTokens 2 ['5']).length = 8 :=
  ⟨⟨by decide, by decide!, by decide, by decide⟩,
    C8_nested_negation 2 ['5'] (by decide) (by decide!) (by decide) 39 (by decide)⟩


/-! ## Runs of `parsevec` -/

namespace Parser

theorem parsevecLoop_le (n : Nat) :
    ∀ exprs, Le (parsevecLoop n exprs) (parsevecLoop (n + 1) exprs) := by
  induction n with
  | zero =>
    intro exprs
    rw [parsevecLoop]
    exact Le.bot _
  | succ n ih =>
    intro exprs
    have hc := (mono_all n).comp
    rw [parsevecLoop, parsevecLoop]
    repeat' first
      | with_reducible refine Le.bind ?_ (fun _ => ?_)
      | with_reducible refine Le.ite _ ?_ ?_
      | with_reducible exact ih _
      | with_reducible exact hc
      | with_reducible exact Le.refl _

theorem parsevec_le_add (n k : Nat) : Le (parsevec n) (parsevec (n + k)) := by
  induction k with
  | zero => exact Le.refl _
  | succ k ih => exact Le.trans ih (parsevecLoop_le (n + k) [])

end Parser

/-- A run of `parsevecTokens` that ends within the budget `n` ends with the same result for
every larger budget. -/
theorem parsevecTokens_mono (n : Nat) (toks : List TokenHandler) (r : Res (List Expr))
    (h : parsevecTokens n toks = r) (hr : r ≠ Res.timeout) (k : Nat) :
    parsevecTokens (n + k) toks = r := by
  unfold parsevecTokens at h ⊢
  cases hc : Parser.ctor toks with
  | ok u p =>
    rw [hc] at h
    simp only [] at h ⊢
    rcases Parser.parsevec_le_add n k p with h1 | h1
    · exfalso
      apply hr
      rw [← h]
      exact h1
    · rw [h1, h]
  | raise e =>
    rw [hc] at h
    exact h
  | timeout =>
    rw [hc] at h
    exact h

/-- A run of `parsevecText`: the lexer delivers `toks` for every budget from `n` on, and
`parsevec`, checked by evaluation with budget `n`, ends with `r`. -/
theorem parsevecText_run (text : List Char) (toks : List TokenHandler) (r : Res (List Expr))
    (n k : Nat) (hl : Lexer.lex (k + n) text = .ok toks)
    (hp : Res.beqWith Expr.beqList (parsevecTokens n toks) r = true) (hr : r ≠ Res.timeout) :
    parsevecText (k + n) text = some r := by
  have hs : ∀ a b : List Expr, Expr.beqList a b = true → a = b := by
    intro a b hab
    have h := Expr.beq_sound (Expr.FunctionCall [] a) (Expr.FunctionCall [] b)
      (by simp [Expr.beq, hab])
    injection h
  unfold parsevecText
  rw [hl]
  simp only []
  rw [Nat.add_comm k n,
    parsevecTokens_mono n toks r (Res.beqWith_sound Expr.beqList hs _ _ hp) hr k]

/-! ## Malformed numeric literals -/

namespace Parser

theorem countDot_cons (t : TokenHandler) (r : List TokenHandler) :
    countDot (t :: r) = countDot r + if t.token = Tokens.Dot then 1 else 0 := by
  simp [countDot, List.countP_cons]

theorem countEdelim_cons (t : TokenHandler) (r : List TokenHandler) :
    countEdelim (t :: r) = countEdelim r + if t.token = Tokens.Edelim then 1 else 0 := by
  simp [countEdelim, List.countP_cons]

/-- The loop of `m_GetDigit` over tokens of the literal kinds raises `SyntaxError` when it
meets a second Dot token or a second exponent marker. -/
theorem m_GetDigitLoop_malformed (c : Nat) (f : Bool) : ∀ (rest pre : List TokenHandler)
    (n : Nat) (temp : List Char) (dec e : Bool),
    (∀ t ∈ rest, IsLiteralKind t) →
    (2 ≤ dec.toNat + countDot rest ∨ 2 ≤ e.toNat + countEdelim rest) →
    (pre ++ rest).length < SIZE_MOD → rest.length ≤ n →
    ∃ pos, m_GetDigitLoop n temp dec e ⟨pre ++ rest, pre.length, c, f⟩ =
      Res.raise (Exn.BaseException "SyntaxError" "invalid syntax" pos) := by
  intro rest
  induction rest with
  | nil =>
    intro pre n temp dec e _ hcount _ _
    exfalso
    cases dec <;> cases e <;> simp [countDot, countEdelim] at hcount
  | cons t r ih =>
    intro pre n temp dec e hk hcount hlen hn
    obtain ⟨m, rfl⟩ : ∃ m, n = m + 1 := ⟨n - 1, by simp at hn; omega⟩
    have g0 : (pre ++ t :: r)[pre.length]? = some t := getElem?_mid _ _ _
    have hget := m_Get_eq ⟨pre ++ t :: r, pre.length, c, f⟩ t g0
    have hadv := m_Advance_eq (pre ++ t :: r) pre.length c f 1 (by simp)
      (by simp at hlen; omega)
    have hne : decide (pre.length < (pre ++ t :: r).length) = true := by simp
    have hsrc : pre ++ t :: r = (pre ++ [t]) ++ r := by simp
    have hpl : pre.length + 1 = (pre ++ [t]).length := by simp
    have hkr : ∀ x ∈ r, IsLiteralKind x := fun x hx => hk x (by simp [hx])
    have hlen1 : ((pre ++ [t]) ++ r).length < SIZE_MOD := by rw [← hsrc]; exact hlen
    have hm : r.length ≤ m := by simp at hn; omega
    have next : ∀ (temp1 : List Char) (dec1 e1 : Bool),
        (2 ≤ dec1.toNat + countDot r ∨ 2 ≤ e1.toNat + countEdelim r) →
        ∃ pos, m_GetDigitLoop m temp1 dec1 e1 ⟨pre ++ t :: r, pre.length + 1, c, f⟩ =
          Res.raise (Exn.BaseException "SyntaxError" "invalid syntax" pos) := by
      intro temp1 dec1 e1 hc1
      rw [hsrc, hpl]
      exact ih (pre ++ [t]) m temp1 dec1 e1 hkr hc1 hlen1 hm
    rcases hk t (by simp) with htk | htk | htk | htk
    · have hvp : m_IsValidPunc t = true := by simp [m_IsValidPunc, htk]
      have hc1 : 2 ≤ dec.toNat + countDot r ∨ 2 ≤ e.toNat + countEdelim r := by
        simp only [countDot_cons, countEdelim_cons, htk, reduceCtorEq, if_true, if_false,
          Nat.add_zero] at hcount
        exact hcount
      obtain ⟨pos, hpos⟩ := next (temp ++ t.value) dec e hc1
      refine ⟨pos, ?_⟩
      rw [m_GetDigitLoop]
      simp only [bind_apply, not_eof_apply, hne, if_true, hget, hvp, htk, hadv, hpos]
    · have hvp : m_IsValidPunc t = true := by simp [m_IsValidPunc, htk]
      cases dec with
      | true =>
        refine ⟨t.pos, ?_⟩
        have herr := m_Err_text_eq ⟨pre ++ t :: r, pre.length, c, f⟩ t g0
        rw [m_GetDigitLoop]
        simp only [bind_apply, not_eof_apply, hne, if_true, hget, hvp, htk, reduceCtorEq,
          if_false, herr]
      | false =>
        have hc1 : 2 ≤ true.toNat + countDot r ∨ 2 ≤ e.toNat + countEdelim r := by
          simp only [countDot_cons, countEdelim_cons, htk, reduceCtorEq, if_true, if_false,
            Nat.add_zero, Bool.toNat_true, Bool.toNat_false] at hcount ⊢
          omega
        obtain ⟨pos, hpos⟩ := next (temp ++ t.value) true e hc1
        refine ⟨pos, ?_⟩
        rw [m_GetDigitLoop]
        simp only [bind_apply, not_eof_apply, hne, if_true, hget, hvp, htk, reduceCtorEq,
          if_false, Bool.false_eq_true, hadv, hpos]
    · have hvp : m_IsValidPunc t = true := by simp [m_IsValidPunc, htk]
      have hc1 : 2 ≤ dec.toNat + countDot r ∨ 2 ≤ e.toNat + countEdelim r := by
        simp only [countDot_cons, countEdelim_cons, htk, reduceCtorEq, if_true, if_false,
          Nat.add_zero] at hcount
        exact hcount
      obtain ⟨pos, hpos⟩ := next temp dec e hc1
      refine ⟨pos, ?_⟩
      rw [m_GetDigitLoop]
      simp only [bind_apply, not_eof_apply, hne, if_true, hget, hvp, htk, reduceCtorEq,
        if_false, hadv, hpos]
    · have hvp : m_IsValidPunc t = true := by simp [m_IsValidPunc, htk]
      cases e with
      | true =>
        refine ⟨t.pos, ?_⟩
        have herr := m_Err_text_eq ⟨pre ++ t :: r, pre.length, c, f⟩ t g0
        rw [m_GetDigitLoop]
        simp only [bind_apply, not_eof_apply, hne, if_true, hget, hvp, htk, reduceCtorEq,
          if_false, herr]
      | false =>
        have hc1 : 2 ≤ dec.toNat + countDot r ∨ 2 ≤ true.toNat + countEdelim r := by
          simp only [countDot_cons, countEdelim_cons, htk, reduceCtorEq, if_true, if_false,
            Nat.add_zero, Bool.toNat_true, Bool.toNat_false] at hcount ⊢
          omega
        obtain ⟨pos, hpos⟩ := next (temp ++ t.value) dec true hc1
        refine ⟨pos, ?_⟩
        rw [m_GetDigitLoop]
        simp only [bind_apply, not_eof_apply, hne, if_true, hget, hvp, htk, reduceCtorEq,
          if_false, Bool.false_eq_true, hadv, hpos]

/-- The Digit branch of `m_ParseFactor` on a malformed literal. -/
theorem m_ParseFactor_malformed (n : Nat) (d : TokenHandler) (rest : List TokenHandler)
    (hd : d.token = Tokens.Digit) (hk : ∀ t ∈ rest, IsLiteralKind t)
    (hcount : 2 ≤ countDot rest ∨ 2 ≤ countEdelim rest)
    (hlen : (d :: rest).length < SIZE_MOD) (hn : (d :: rest).length ≤ n) :
    ∃ pos, m_ParseFactor (n + 1) ⟨d :: rest, 0, 0, false⟩ =
      Res.raise (Exn.BaseException "SyntaxError" "invalid syntax" pos) := by
  cases rest with
  | nil => simp [countDot, countEdelim] at hcount
  | cons t r =>
    have g0 : (d :: t :: r)[0]? = some d := rfl
    have g1 : (d :: t :: r)[0 + 1]? = some t := by simp
    have hget := m_Get_eq ⟨d :: t :: r, 0, 0, false⟩ d g0
    have hpeek := m_Peek_eq ⟨d :: t :: r, 0, 0, false⟩ t g1 hlen
    have hne : decide ((0 : Nat) < (d :: t :: r).length) = true := by simp
    rcases hk t (by simp) with htk | htk | htk | htk
    · have hva : m_IsValidAfterNumber t = true := by simp [m_IsValidAfterNumber, htk]
      obtain ⟨pos, hpos⟩ := m_GetDigitLoop_malformed 0 false (d :: t :: r) [] n [] false false
        (by
          intro x hx
          rcases List.mem_cons.mp hx with rfl | hx
          · exact Or.inl hd
          · exact hk x hx)
        (by
          rw [countDot_cons, countEdelim_cons, hd]
          simp only [reduceCtorEq, if_false, Nat.add_zero, Bool.toNat_false, Nat.zero_add]
          exact hcount)
        hlen hn
      refine ⟨pos, ?_⟩
      rw [m_ParseFactor]
      simp only [bind_apply, hget, hd, reduceCtorEq, if_false, if_true, not_eof_apply, hne,
        get_in_func_args, Bool.not_false, Bool.and_self, hpeek, hva, Bool.true_or, m_GetDigit]
      simp only [List.nil_append, List.length_nil] at hpos
      rw [hpos]
    · have hva : m_IsValidAfterNumber t = false := by
        simp [m_IsValidAfterNumber, m_IsAnOp, htk]
      have hcp : m_IsCompareToken t.token = false := by simp [m_IsCompareToken, htk]
      have hlg : m_IsLogical t.token = false := by simp [m_IsLogical, htk]
      refine ⟨d.pos, ?_⟩
      have herr := m_Err_eq ⟨d :: t :: r, 0, 0, false⟩ d g0
      rw [m_ParseFactor]
      simp only [bind_apply, hget, hd, reduceCtorEq, if_false, if_true, not_eof_apply, hne,
        get_in_func_args, Bool.not_false, Bool.and_self, hpeek, hva, hcp, hlg, Bool.or_self,
        Bool.false_eq_true, herr]
    · have hva : m_IsValidAfterNumber t = true := by simp [m_IsValidAfterNumber, htk]
      obtain ⟨pos, hpos⟩ := m_GetDigitLoop_malformed 0 false (d :: t :: r) [] n [] false false
        (by
          intro x hx
          rcases List.mem_cons.mp hx with rfl | hx
          · exact Or.inl hd
          · exact hk x hx)
        (by
          rw [countDot_cons, countEdelim_cons, hd]
          simp only [reduceCtorEq, if_false, Nat.add_zero, Bool.toNat_false, Nat.zero_add]
          exact hcount)
        hlen hn
      refine ⟨pos, ?_⟩
      rw [m_ParseFactor]
      simp only [bind_apply, hget, hd, reduceCtorEq, if_false, if_true, not_eof_apply, hne,
        get_in_func_args, Bool.not_false, Bool.and_self, hpeek, hva, Bool.true_or, m_GetDigit]
      simp only [List.nil_append, List.length_nil] at hpos
      rw [hpos]
    · have hva : m_IsValidAfterNumber t = true := by simp [m_IsValidAfterNumber, htk]
      obtain ⟨pos, hpos⟩ := m_GetDigitLoop_malformed 0 false (d :: t :: r) [] n [] false false
        (by
          intro x hx
          rcases List.mem_cons.mp hx with rfl | hx
          · exact Or.inl hd
          · exact hk x hx)
        (by
          rw [countDot_cons, countEdelim_cons, hd]
          simp only [reduceCtorEq, if_false, Nat.add_zero, Bool.toNat_false, Nat.zero_add]
          exact hcount)
        hlen hn
      refine ⟨pos, ?_⟩
      rw [m_ParseFactor]
      simp only [bind_apply, hget, hd, reduceCtorEq, if_false, if_true, not_eof_apply, hne,
        get_in_func_args, Bool.not_false, Bool.and_self, hpeek, hva, Bool.true_or, m_GetDigit]
      simp only [List.nil_append, List.length_nil] at hpos
      rw [hpos]

end Parser

/-- C11: malformed numeric literals are rejected.  For every token sequence that starts with
a Digit token, consists only of Digit, Dot, Delim and exponent-marker tokens and holds more
than one Dot token or more than one exponent-marker token, `parse` raises the structured
error with the category `SyntaxError` (message `invalid syntax`), for every budget from the
length of the sequence plus six on. -/
theorem C11_malformed_literal_rejected (toks : List TokenHandler) (n : Nat)
    (hd : toks.head?.map (fun t => t.token) = some Tokens.Digit)
    (hk : ∀ t ∈ toks, Parser.IsLiteralKind t)
    (hcount : 2 ≤ Parser.countDot toks ∨ 2 ≤ Parser.countEdelim toks)
    (hlen : toks.length < SIZE_MOD) (hn : toks.length + 6 ≤ n) :
    ∃ pos, parseTokens n toks =
      Res.raise (Exn.BaseException "SyntaxError" "invalid syntax" pos) := by
  cases toks with
  | nil => simp at hd
  | cons d rest =>
    have hdk : d.token = Tokens.Digit := by simpa using hd
    obtain ⟨m, rfl⟩ : ∃ m, n = m + 6 := ⟨n - 6, by omega⟩
    have hc : 2 ≤ Parser.countDot rest ∨ 2 ≤ Parser.countEdelim rest := by
      rw [Parser.countDot_cons, Parser.countEdelim_cons, hdk] at hcount
      simp only [reduceCtorEq, if_false, Nat.add_zero] at hcount
      exact hcount
    obtain ⟨pos, hpos⟩ := Parser.m_ParseFactor_malformed m d rest hdk
      (fun t ht => hk t (List.mem_cons_of_mem d ht)) hc hlen (by omega)
    have e : parseTokens (m + 6) (d :: rest) =
        Parser.m_ParseComp (m + 6) ⟨d :: rest, 0, 0, false⟩ := by
      simp [parseTokens, Parser.ctor, Parser.parse]
    rw [e]
    exact ⟨pos, Parser.m_ParseComp_raise_of_factor m _ _ hpos⟩

/-- Witness of C11 at `1.2.3`: five tokens, two of them Dot tokens. -/
theorem C11_malformed_literal_rejected_witness :
    (twoDotTokens.head?.map (fun t => t.token) = some Tokens.Digit ∧
      (∀ t ∈ twoDotTokens, Parser.IsLiteralKind t) ∧
      (2 ≤ Parser.countDot twoDotTokens ∨ 2 ≤ Parser.countEdelim twoDotTokens) ∧
      twoDotTokens.length < SIZE_MOD ∧ twoDotTokens.length + 6 ≤ 11 ∧
      Lexer.lex 11 "1.2.3".toList = .ok twoDotTokens) ∧
    ∃ pos, parseTokens 11 twoDotTokens =
      Res.raise (Exn.BaseException "SyntaxError" "invalid syntax" pos) :=
  ⟨⟨by decide, by decide, by decide, by decide, by decide, rfl⟩,
    C11_malformed_literal_rejected twoDotTokens 11 (by decide) (by decide) (by decide)
      (by decide) (by decide)⟩

/-! ## Two-character operators, keywords and the exponent marker in the lexer -/

/-- C12: the texts `x==y`, `x<=y` and `x>=y` are each tokenized into four tokens, not three.
The lexer emits the two-character token at the first character and advances by one
character only, so the second character `=` is read again and emitted as an Assign token. -/
theorem C12_second_char_lexed_again (k : Nat) :
    Lexer.lex (k + 6) "x==y".toList = .ok eqTokens ∧
      Lexer.lex (k + 6) "x<=y".toList =
        .ok [⟨['x'], Tokens.Identifier, 0⟩, ⟨['<', '='], Tokens.LessThanOrEqual, 1⟩,
          ⟨['='], Tokens.Assign, 2⟩, ⟨['y'], Tokens.Identifier, 3⟩] ∧
      Lexer.lex (k + 6) "x>=y".toList =
        .ok [⟨['x'], Tokens.Identifier, 0⟩, ⟨['>', '='], Tokens.GreaterThanOrEqual, 1⟩,
          ⟨['='], Tokens.Assign, 2⟩, ⟨['y'], Tokens.Identifier, 3⟩] ∧
      eqTokens.length = 4 :=
  ⟨rfl, rfl, rfl, rfl⟩

/-- C13: the words `else`, `not` and `null` are tokenized as Identifier tokens, not as
keywords: `else` starts with `e` and is taken by the `case 'e'` of the switch, which never
consults `m_GetKeyword`; `not` and `null` are not in `m_GetKeyword`.  The words `if`, `and`,
`or` give their keyword kinds, `true` and `false` give Boolean, and `foo` gives Identifier. -/
theorem C13_keyword_table (k : Nat) :
    Lexer.lex (k + 6) "else".toList = .ok [⟨"else".toList, Tokens.Identifier, 3⟩] ∧
      Lexer.lex (k + 6) "not".toList = .ok [⟨"not".toList, Tokens.Identifier, 2⟩] ∧
      Lexer.lex (k + 6) "null".toList = .ok [⟨"null".toList, Tokens.Identifier, 3⟩] ∧
      Lexer.lex (k + 6) "if".toList = .ok [⟨"if".toList, Tokens.KeywordIf, 1⟩] ∧
      Lexer.lex (k + 6) "and".toList = .ok [⟨"and".toList, Tokens.KeywordAnd, 2⟩] ∧
      Lexer.lex (k + 6) "or".toList = .ok [⟨"or".toList, Tokens.KeywordOr, 1⟩] ∧
      Lexer.lex (k + 7) "true".toList = .ok [⟨"true".toList, Tokens.Boolean, 3⟩] ∧
      Lexer.lex (k + 7) "false".toList = .ok [⟨"false".toList, Tokens.Boolean, 4⟩] ∧
      Lexer.lex (k + 6) "foo".toList = .ok [⟨"foo".toList, Tokens.Identifier, 2⟩] :=
  ⟨rfl, rfl, rfl, rfl, rfl, rfl, rfl, rfl, rfl⟩

/-- C14: an `e` that is the last character of the text is tokenized as an Identifier, not as
the exponent marker: `m_Peek` clamps its index to the last character, which is the `e`
itself and passes `m_IsAlpha`.  So `1e` gives Digit, Identifier and `e` alone gives
Identifier; `1e5`, where a digit follows, gives the Edelim token, and `exp` an Identifier. -/
theorem C14_trailing_e_is_identifier (k : Nat) :
    Lexer.lex (k + 4) "1e".toList =
        .ok [⟨['1'], Tokens.Digit, 0⟩, ⟨['e'], Tokens.Identifier, 1⟩] ∧
      Lexer.lex (k + 3) "e".toList = .ok [⟨['e'], Tokens.Identifier, 0⟩] ∧
      Lexer.lex (k + 5) "1e5".toList =
        .ok [⟨['1'], Tokens.Digit, 0⟩, ⟨['e'], Tokens.Edelim, 1⟩, ⟨['5'], Tokens.Digit, 2⟩] ∧
      Lexer.lex (k + 5) "exp".toList = .ok [⟨"exp".toList, Tokens.Identifier, 2⟩] :=
  ⟨rfl, rfl, rfl, rfl⟩

/-! ## The lexer returns on every source -/

namespace Lexer

theorem src_at_of {src : List Char} {i : Nat} {c : Char} (h : src[i]? = some c) :
    src_at src i = .ok c := by
  unfold src_at
  rw [h]

theorem m_Get_of (toks : List TokenHandler) (pos : Nat) (src : List Char) (c : Char)
    (h : src[pos]? = some c) : m_Get ⟨toks, pos, src⟩ = .ok c := by
  have hlt : pos < src.length := Parser.lt_of_getElem? h
  unfold m_Get
  simp only []
  rw [if_neg (by omega)]
  exact src_at_of h

/-- The read `m_Peek(1)` stays inside a non-empty source. -/
theorem m_Peek_total (toks : List TokenHandler) (pos : Nat) (src : List Char)
    (h : 0 < src.length) : ∃ k, m_Peek ⟨toks, pos, src⟩ 1 = .ok k := by
  unfold m_Peek
  simp only []
  by_cases hc : size_add pos 1 ≥ src.length
  · rw [if_pos hc, Parser.size_sub_one h]
    have hlt : src.length - 1 < src.length := by omega
    exact ⟨src[src.length - 1], src_at_of (List.getElem?_eq_getElem hlt)⟩
  · rw [if_neg hc]
    have hlt : size_add pos 1 < src.length := by omega
    exact ⟨src[size_add pos 1], src_at_of (List.getElem?_eq_getElem hlt)⟩

theorem otherChars_drop {src : List Char} {pos : Nat} {c : Char} (h : src[pos]? = some c) :
    otherChars (src.drop pos) =
      (if isOther c = true then [[c]] else []) ++ otherChars (src.drop (pos + 1)) := by
  have hlt : pos < src.length := Parser.lt_of_getElem? h
  have hc : src[pos] = c := by
    rw [List.getElem?_eq_getElem hlt] at h
    exact Option.some.inj h
  rw [List.drop_eq_getElem_cons hlt, hc]
  unfold otherChars
  by_cases ho : isOther c = true
  · simp [List.filter_cons, ho]
  · simp [List.filter_cons, ho]

theorem unknownTexts_append_one (toks : List TokenHandler) (t : TokenHandler) :
    unknownTexts (toks ++ [t]) =
      unknownTexts toks ++ (if t.token = Tokens.Unkown then [t.value] else []) := by
  unfold unknownTexts
  by_cases h : t.token = Tokens.Unkown
  · simp [List.filter_append, List.filter_cons, h]
  · simp [List.filter_append, List.filter_cons, h]

theorem isOther_of_alpha {c : Char} (h : m_IsAlpha c = true) : isOther c = false := by
  simp [isOther, h]

theorem isOther_of_digit {c : Char} (h : m_IsDigit c = true) : isOther c = false := by
  simp [isOther, h]

/-- The loop of `m_GetIdent` returns; it moves the cursor forward over letters only, past
the first character when that is a letter, and not beyond the end of the source. -/
theorem m_GetIdentLoop_total (toks : List TokenHandler) (src : List Char)
    (hlen : src.length < SIZE_MOD) : ∀ (n pos : Nat) (out : List Char),
    pos ≤ src.length → src.length - pos + 1 ≤ n →
    ∃ out1 pos1, m_GetIdentLoop n ⟨toks, pos, src⟩ out = .ok (out1, ⟨toks, pos1, src⟩) ∧
      pos ≤ pos1 ∧ pos1 ≤ src.length ∧
      (∀ c, src[pos]? = some c → m_IsAlpha c = true → pos < pos1) ∧
      otherChars (src.drop pos) = otherChars (src.drop pos1) := by
  intro n
  induction n with
  | zero =>
    intro pos out _ hn
    omega
  | succ n ih =>
    intro pos out hpos hn
    by_cases hlt : pos < src.length
    · have hc : src[pos]? = some src[pos] := List.getElem?_eq_getElem hlt
      have hne : not_eof ⟨toks, pos, src⟩ = true := by simp [not_eof, hlt]
      rw [m_GetIdentLoop, hne, m_Get_of toks pos src _ hc]
      simp only [if_true]
      by_cases ha : m_IsAlpha src[pos] = true
      · have hadv : m_Advance ⟨toks, pos, src⟩ 1 = ⟨toks, pos + 1, src⟩ := by
          unfold m_Advance
          simp only []
          rw [size_add_of_lt (by omega)]
        obtain ⟨out1, pos1, h1, h2, h3, _, h5⟩ := ih (pos + 1) (out ++ [src[pos]])
          (by omega) (by omega)
        refine ⟨out1, pos1, ?_, by omega, h3, fun _ _ _ => by omega, ?_⟩
        · simp only [ha, if_true, hadv]
          exact h1
        · rw [otherChars_drop hc, isOther_of_alpha ha, ← h5]
          simp
      · refine ⟨out, pos, ?_, Nat.le_refl _, hpos, ?_, rfl⟩
        · simp only [ha, Bool.false_eq_true, if_false]
        · intro c hc1 hc2
          rw [hc] at hc1
          rw [Option.some.inj hc1] at ha
          exact absurd hc2 ha
    · have hne : not_eof ⟨toks, pos, src⟩ = false := by simp [not_eof]; omega
      refine ⟨out, pos, ?_, Nat.le_refl _, hpos, ?_, rfl⟩
      · rw [m_GetIdentLoop, hne]
        simp only [Bool.false_eq_true, if_false]
      · intro c hc1 _
        exact absurd (Parser.lt_of_getElem? hc1) hlt

/-- The loop of `m_GetDigit` returns; it moves the cursor forward over digits only, past the
first character when that is a digit, and not beyond the end of the source. -/
theorem m_GetDigitLoop_total (toks : List TokenHandler) (src : List Char)
    (hlen : src.length < SIZE_MOD) : ∀ (n pos : Nat) (out : List Char),
    pos ≤ src.length → src.length - pos + 1 ≤ n →
    ∃ out1 pos1, m_GetDigitLoop n ⟨toks, pos, src⟩ out = .ok (out1, ⟨toks, pos1, src⟩) ∧
      pos ≤ pos1 ∧ pos1 ≤ src.length ∧
      (∀ c, src[pos]? = some c → m_IsDigit c = true → pos < pos1) ∧
      otherChars (src.drop pos) = otherChars (src.drop pos1) := by
  intro n
  induction n with
  | zero =>
    intro pos out _ hn
    omega
  | succ n ih =>
    intro pos out hpos hn
    by_cases hlt : pos < src.length
    · have hc : src[pos]? = some src[pos] := List.getElem?_eq_getElem hlt
      have hne : not_eof ⟨toks, pos, src⟩ = true := by simp [not_eof, hlt]
      rw [m_GetDigitLoop, hne, m_Get_of toks pos src _ hc]
      simp only [if_true]
      by_cases ha : m_IsDigit src[pos] = true
      · have hadv : m_Advance ⟨toks, pos, src⟩ 1 = ⟨toks, pos + 1, src⟩ := by
          unfold m_Advance
          simp only []
          rw [size_add_of_lt (by omega)]
        obtain ⟨out1, pos1, h1, h2, h3, _, h5⟩ := ih (pos + 1) (out ++ [src[pos]])
          (by omega) (by omega)
        refine ⟨out1, pos1, ?_, by omega, h3, fun _ _ _ => by omega, ?_⟩
        · simp only [ha, if_true, hadv]
          exact h1
        · rw [otherChars_drop hc, isOther_of_digit ha, ← h5]
          simp
      · refine ⟨out, pos, ?_, Nat.le_refl _, hpos, ?_, rfl⟩
        · simp only [ha, Bool.false_eq_true, if_false]
        · intro c hc1 hc2
          rw [hc] at hc1
          rw [Option.some.inj hc1] at ha
          exact absurd hc2 ha
    · have hne : not_eof ⟨toks, pos, src⟩ = false := by simp [not_eof]; omega
      refine ⟨out, pos, ?_, Nat.le_refl _, hpos, ?_, rfl⟩
      · rw [m_GetDigitLoop, hne]
        simp only [Bool.false_eq_true, if_false]
      · intro c hc1 _
        exact absurd (Parser.lt_of_getElem? hc1) hlt

/-- The function `m_GetIdent` on a letter: it returns with the cursor on the last letter of
the run. -/
theorem m_GetIdent_total (toks : List TokenHandler) (src : List Char)
    (hlen : src.length < SIZE_MOD) (n pos : Nat) (c : Char) (hc : src[pos]? = some c)
    (ha : m_IsAlpha c = true) (hn : src.length - pos + 1 ≤ n) :
    ∃ out1 pos1, m_GetIdent n ⟨toks, pos, src⟩ = .ok (out1, ⟨toks, pos1, src⟩) ∧
      pos ≤ pos1 ∧ pos1 < src.length ∧
      otherChars (src.drop pos) = otherChars (src.drop (pos1 + 1)) := by
  have hlt : pos < src.length := Parser.lt_of_getElem? hc
  obtain ⟨out1, pos1, h1, _, h3, h4, h5⟩ :=
    m_GetIdentLoop_total toks src hlen n pos [] (by omega) hn
  have h6 := h4 c hc ha
  refine ⟨out1, pos1 - 1, ?_, by omega, by omega, ?_⟩
  · unfold m_GetIdent
    rw [h1]
    simp only [m_Advance]
    rw [size_add_neg_one (by omega) (by omega)]
  · rw [h5]
    have e : pos1 - 1 + 1 = pos1 := by omega
    rw [e]

/-- The function `m_GetDigit` on a digit: it returns with the cursor on the last digit of
the run. -/
theorem m_GetDigit_total (toks : List TokenHandler) (src : List Char)
    (hlen : src.length < SIZE_MOD) (n pos : Nat) (c : Char) (hc : src[pos]? = some c)
    (ha : m_IsDigit c = true) (hn : src.length - pos + 1 ≤ n) :
    ∃ out1 pos1, m_GetDigit n ⟨toks, pos, src⟩ = .ok (out1, ⟨toks, pos1, src⟩) ∧
      pos ≤ pos1 ∧ pos1 < src.length ∧
      otherChars (src.drop pos) = otherChars (src.drop (pos1 + 1)) := by
  have hlt : pos < src.length := Parser.lt_of_getElem? hc
  obtain ⟨out1, pos1, h1, _, h3, h4, h5⟩ :=
    m_GetDigitLoop_total toks src hlen n pos [] (by omega) hn
  have h6 := h4 c hc ha
  refine ⟨out1, pos1 - 1, ?_, by omega, by omega, ?_⟩
  · unfold m_GetDigit
    rw [h1]
    simp only [m_Advance]
    rw [size_add_neg_one (by omega) (by omega)]
  · rw [h5]
    have e : pos1 - 1 + 1 = pos1 := by omega
    rw [e]

theorem m_GetKeyword_ne_unkown (ident : List Char) : m_GetKeyword ident ≠ Tokens.Unkown := by
  unfold m_GetKeyword
  split_ifs <;> decide

/-- One token that is not Unkown, added at a character that is not `isOther`. -/
theorem step_known (toks : List TokenHandler) (src : List Char) (pos : Nat) (c : Char)
    (hc : src[pos]? = some c) (ho : isOther c = false) (T : Tokens) (v : List Char)
    (hT : T ≠ Tokens.Unkown) :
    ∃ toks1 pos1, (Except.ok (m_AddTok ⟨toks, pos, src⟩ T v) : Except Fault Lexer) =
        .ok ⟨toks1, pos1, src⟩ ∧ pos ≤ pos1 ∧ pos1 < src.length ∧
      unknownTexts toks1 ++ otherChars (src.drop (pos1 + 1)) =
        unknownTexts toks ++ otherChars (src.drop pos) := by
  refine ⟨toks ++ [⟨v, T, pos⟩], pos, rfl, Nat.le_refl _, Parser.lt_of_getElem? hc, ?_⟩
  rw [unknownTexts_append_one, otherChars_drop hc, ho]
  simp [hT]

/-- A token that is not Unkown, added behind a run of letters or of digits. -/
theorem step_run (toks : List TokenHandler) (src : List Char) (pos pos1 : Nat)
    (h2 : pos ≤ pos1) (h3 : pos1 < src.length)
    (h5 : otherChars (src.drop pos) = otherChars (src.drop (pos1 + 1)))
    (T : Tokens) (v : List Char) (hT : T ≠ Tokens.Unkown) :
    ∃ toks1 pos2, (Except.ok (m_AddTok ⟨toks, pos1, src⟩ T v) : Except Fault Lexer) =
        .ok ⟨toks1, pos2, src⟩ ∧ pos ≤ pos2 ∧ pos2 < src.length ∧
      unknownTexts toks1 ++ otherChars (src.drop (pos2 + 1)) =
        unknownTexts toks ++ otherChars (src.drop pos) := by
  refine ⟨toks ++ [⟨v, T, pos1⟩], pos1, rfl, h2, h3, ?_⟩
  rw [unknownTexts_append_one, h5]
  simp [hT]

/-- The `default:` label returns: a run of digits or of letters gives one token that is not
Unkown, a character that satisfies `isOther` gives one Unkown token with that character as
text, and white space gives no token. -/
theorem lexDefault_total (toks : List TokenHandler) (src : List Char)
    (hlen : src.length < SIZE_MOD) (n pos : Nat) (c : Char) (hc : src[pos]? = some c)
    (hp : isPunct c = false) (hn : src.length - pos + 1 ≤ n) :
    ∃ toks1 pos1, lexDefault n ⟨toks, pos, src⟩ = .ok ⟨toks1, pos1, src⟩ ∧
      pos ≤ pos1 ∧ pos1 < src.length ∧
      unknownTexts toks1 ++ otherChars (src.drop (pos1 + 1)) =
        unknownTexts toks ++ otherChars (src.drop pos) := by
  have hlt : pos < src.length := Parser.lt_of_getElem? hc
  unfold lexDefault
  rw [m_Get_of toks pos src c hc]
  simp only []
  by_cases hd : m_IsDigit c = true
  · obtain ⟨out1, pos1, h1, h2, h3, h5⟩ := m_GetDigit_total toks src hlen n pos c hc hd hn
    rw [if_pos hd, h1]
    exact step_run toks src pos pos1 h2 h3 h5 Tokens.Digit out1 (by decide)
  · rw [if_neg hd]
    by_cases ha : m_IsAlpha c = true
    · obtain ⟨out1, pos1, h1, h2, h3, h5⟩ := m_GetIdent_total toks src hlen n pos c hc ha hn
      rw [if_pos ha, h1]
      exact step_run toks src pos pos1 h2 h3 h5 (m_GetKeyword out1) out1
        (m_GetKeyword_ne_unkown out1)
    · rw [if_neg ha]
      by_cases hs : isspace c = true
      · have ho : isOther c = false := by simp [isOther, hs]
        refine ⟨toks, pos, ?_, Nat.le_refl _, hlt, ?_⟩
        · simp [hs]
        · rw [otherChars_drop hc, ho]
          simp
      · have ho : isOther c = true := by simp [isOther, hp, hd, ha, hs]
        refine ⟨toks ++ [⟨[c], Tokens.Unkown, pos⟩], pos, ?_, Nat.le_refl _, hlt, ?_⟩
        · simp [hs, m_AddTok]
        · rw [unknownTexts_append_one, otherChars_drop hc, ho]
          simp

theorem isOther_of_punct {c : Char} (h : isPunct c = true) : isOther c = false := by
  simp [isOther, h]

/-- The `switch` of `lex` returns on every character of the source, with the cursor not
moved back and still inside the source; it adds an Unkown token exactly for a character that
satisfies `isOther`. -/
theorem lexSwitch_total (toks : List TokenHandler) (src : List Char)
    (hlen : src.length < SIZE_MOD) (n pos : Nat) (c : Char) (hc : src[pos]? = some c)
    (hn : src.length - pos + 1 ≤ n) :
    ∃ toks1 pos1, lexSwitch n c ⟨toks, pos, src⟩ = .ok ⟨toks1, pos1, src⟩ ∧
      pos ≤ pos1 ∧ pos1 < src.length ∧
      unknownTexts toks1 ++ otherChars (src.drop (pos1 + 1)) =
        unknownTexts toks ++ otherChars (src.drop pos) := by
  have hlt : pos < src.length := Parser.lt_of_getElem? hc
  obtain ⟨k, hk⟩ := m_Peek_total toks pos src (by omega)
  unfold lexSwitch
  by_cases h1 : c = '*'
  · rw [if_pos h1]
    exact step_known toks src pos c hc (by rw [h1]; decide) _ _ (by decide)
  rw [if_neg h1]
  by_cases h2 : c = '+'
  · rw [if_pos h2]
    exact step_known toks src pos c hc (by rw [h2]; decide) _ _ (by decide)
  rw [if_neg h2]
  by_cases h3 : c = '-'
  · rw [if_pos h3]
    exact step_known toks src pos c hc (by rw [h3]; decide) _ _ (by decide)
  rw [if_neg h3]
  by_cases h4 : c = '/'
  · rw [if_pos h4]
    exact step_known toks src pos c hc (by rw [h4]; decide) _ _ (by decide)
  rw [if_neg h4]
  by_cases h5 : c = '('
  · rw [if_pos h5]
    exact step_known toks src pos c hc (by rw [h5]; decide) _ _ (by decide)
  rw [if_neg h5]
  by_cases h6 : c = ')'
  · rw [if_pos h6]
    exact step_known toks src pos c hc (by rw [h6]; decide) _ _ (by decide)
  rw [if_neg h6]
  by_cases h7 : c = '^'
  · rw [if_pos h7]
    exact step_known toks src pos c hc (by rw [h7]; decide) _ _ (by decide)
  rw [if_neg h7]
  by_cases h8 : c = '%'
  · rw [if_pos h8]
    exact step_known toks src pos c hc (by rw [h8]; decide) _ _ (by decide)
  rw [if_neg h8]
  by_cases h9 : c = ','
  · rw [if_pos h9]
    exact step_known toks src pos c hc (by rw [h9]; decide) _ _ (by decide)
  rw [if_neg h9]
  by_cases h10 : c = '.'
  · rw [if_pos h10]
    exact step_known toks src pos c hc (by rw [h10]; decide) _ _ (by decide)
  rw [if_neg h10]
  by_cases h11 : c = Char.ofNat 39
  · rw [if_pos h11]
    exact step_known toks src pos c hc (by rw [h11]; decide) _ _ (by decide)
  rw [if_neg h11]
  by_cases h12 : c = 'e'
  · rw [if_pos h12, hk]
    simp only []
    have hae : m_IsAlpha c = true := by rw [h12]; decide
    by_cases hka : m_IsAlpha k = true
    · obtain ⟨out1, pos1, g1, g2, g3, g5⟩ := m_GetIdent_total toks src hlen n pos c hc hae hn
      rw [if_pos hka, g1]
      exact step_run toks src pos pos1 g2 g3 g5 Tokens.Identifier out1 (by decide)
    · rw [if_neg hka]
      exact step_known toks src pos c hc (isOther_of_alpha hae) _ _ (by decide)
  rw [if_neg h12]
  by_cases h13 : c = '='
  · rw [if_pos h13, hk]
    simp only []
    have ho : isOther c = false := by rw [h13]; decide
    by_cases hke : k = '='
    · rw [if_pos hke]
      exact step_known toks src pos c hc ho _ _ (by decide)
    · rw [if_neg hke]
      exact step_known toks src pos c hc ho _ _ (by decide)
  rw [if_neg h13]
  by_cases h14 : c = '<'
  · rw [if_pos h14, hk]
    simp only []
    have ho : isOther c = false := by rw [h14]; decide
    by_cases hke : k = '='
    · rw [if_pos hke]
      exact step_known toks src pos c hc ho _ _ (by decide)
    · rw [if_neg hke]
      exact step_known toks src pos c hc ho _ _ (by decide)
  rw [if_neg h14]
  by_cases h15 : c = '>'
  · rw [if_pos h15, hk]
    simp only []
    have ho : isOther c = false := by rw [h15]; decide
    by_cases hke : k = '='
    · rw [if_pos hke]
      exact step_known toks src pos c hc ho _ _ (by decide)
    · rw [if_neg hke]
      exact step_known toks src pos c hc ho _ _ (by decide)
  rw [if_neg h15]
  by_cases h16 : c = ';'
  · rw [if_pos h16]
    exact step_known toks src pos c hc (by rw [h16]; decide) _ _ (by decide)
  rw [if_neg h16]
  exact lexDefault_total toks src hlen n pos c hc
    (by simp [isPunct, h1, h2, h3, h4, h5, h6, h7, h8, h9, h10, h11, h13, h14, h15, h16]) hn

/-- The loop of `lex` returns from every cursor inside the source or at its end, and the
Unkown tokens it adds are the characters from the cursor on that satisfy `isOther`. -/
theorem lexLoop_total (src : List Char) (hlen : src.length < SIZE_MOD) :
    ∀ (n pos : Nat) (toks : List TokenHandler), pos ≤ src.length → src.length - pos + 2 ≤ n →
    ∃ out, lexLoop n ⟨toks, pos, src⟩ = .ok out ∧
      unknownTexts out = unknownTexts toks ++ otherChars (src.drop pos) := by
  intro n
  induction n with
  | zero =>
    intro pos toks _ hn
    omega
  | succ n ih =>
    intro pos toks hpos hn
    by_cases hlt : pos < src.length
    · have hc : src[pos]? = some src[pos] := List.getElem?_eq_getElem hlt
      obtain ⟨toks1, pos1, h1, h2, h3, h4⟩ :=
        lexSwitch_total toks src hlen n pos _ hc (by omega)
      have hadv : m_Advance ⟨toks1, pos1, src⟩ 1 = ⟨toks1, pos1 + 1, src⟩ := by
        unfold m_Advance
        simp only []
        rw [size_add_of_lt (by omega)]
      obtain ⟨out, g1, g2⟩ := ih (pos1 + 1) toks1 (by omega) (by omega)
      refine ⟨out, ?_, ?_⟩
      · rw [lexLoop]
        simp only [hlt, if_true, src_at_of hc, h1, hadv]
        exact g1
      · rw [g2, h4]
    · refine ⟨toks, ?_, ?_⟩
      · rw [lexLoop]
        simp only [hlt, if_false]
      · have e : src.drop pos = [] := List.drop_eq_nil_of_le (by omega)
        rw [e]
        simp [otherChars]

/-- The `switch` of `lex` on white space adds no token and leaves the cursor in place. -/
theorem lexSwitch_space (n : Nat) (l : Lexer) (c : Char) (hc : l.m_Src[l.m_Pos]? = some c)
    (hs : isspace c = true) : lexSwitch n c l = .ok l := by
  have hget : m_Get l = .ok c := m_Get_of l.m_Tokens l.m_Pos l.m_Src c hc
  have hcases : ((((c = ' ' ∨ c = '\t') ∨ c = '\n') ∨ c = Char.ofNat 11) ∨ c = Char.ofNat 12) ∨
      c = '\r' := by
    simpa [isspace] using hs
  rcases hcases with ((((h | h) | h) | h) | h) | h <;> subst h <;>
    simp [lexSwitch, lexDefault, hget, m_IsDigit, m_IsAlpha, isspace]

/-- The loop of `lex` over white space up to the end of the source adds no token. -/
theorem lexLoop_space (src : List Char) (hlen : src.length < SIZE_MOD)
    (hs : ∀ c ∈ src, isspace c = true) :
    ∀ (n pos : Nat) (toks : List TokenHandler), pos ≤ src.length → src.length - pos + 1 ≤ n →
    lexLoop n ⟨toks, pos, src⟩ = .ok toks := by
  intro n
  induction n with
  | zero =>
    intro pos toks _ hn
    omega
  | succ n ih =>
    intro pos toks hpos hn
    by_cases hlt : pos < src.length
    · have hc : src[pos]? = some src[pos] := List.getElem?_eq_getElem hlt
      have hsp : isspace src[pos] = true := hs _ (List.getElem_mem hlt)
      have hadv : m_Advance ⟨toks, pos, src⟩ 1 = ⟨toks, pos + 1, src⟩ := by
        unfold m_Advance
        simp only []
        rw [size_add_of_lt (by omega)]
      rw [lexLoop]
      simp only [hlt, if_true, src_at_of hc, lexSwitch_space n ⟨toks, pos, src⟩ _ hc hsp, hadv]
      exact ih (pos + 1) toks (by omega) (by omega)
    · rw [lexLoop]
      simp only [hlt, if_false]

end Lexer

/-- C15: the tokenizer never fails.  For every source (of a length that fits `std::size_t`)
and every budget from the length of the source plus two on, `lex` returns a token vector; a
read outside the source would end the run with `Fault.out_of_range` instead.  The texts of
the Unkown tokens are, in order, the characters of the source that are not white space, a
digit, a letter, `_` or one of the operator and punctuation characters, one token for each
such character.  A source of white space only, the empty source included, gives the empty
token vector. -/
theorem C15_lexer_never_fails (src : List Char) (n : Nat) (hlen : src.length < SIZE_MOD)
    (hn : src.length + 2 ≤ n) :
    ∃ toks, Lexer.lex n src = .ok toks ∧
      Lexer.unknownTexts toks = Lexer.otherChars src ∧
      ((∀ c ∈ src, Lexer.isspace c = true) → toks = []) := by
  obtain ⟨toks, h1, h2⟩ := Lexer.lexLoop_total src hlen n 0 [] (Nat.zero_le _) (by omega)
  refine ⟨toks, h1, ?_, ?_⟩
  · rw [h2]
    simp [Lexer.unknownTexts]
  · intro hs
    have h3 := Lexer.lexLoop_space src hlen hs n 0 [] (Nat.zero_le _) (by omega)
    rw [h3] at h1
    injection h1 with h1
    exact h1.symm

/-- Witness of C15 at the source `@ #`: two Unkown tokens. -/
theorem C15_lexer_never_fails_witness :
    ("@ #".toList.length < SIZE_MOD ∧ "@ #".toList.length + 2 ≤ 5) ∧
      ∃ toks, Lexer.lex 5 "@ #".toList = .ok toks ∧
        Lexer.unknownTexts toks = Lexer.otherChars "@ #".toList ∧
        ((∀ c ∈ "@ #".toList, Lexer.isspace c = true) → toks = []) :=
  ⟨by decide, C15_lexer_never_fails "@ #".toList 5 (by decide) (by decide)⟩

/-! ## Tokenizing the joined token texts -/

/-- C16: re-tokenizing changes the token kinds of `x==y`.  Its four tokens have the texts
`x`, `==`, `=`, `y`; joined with single spaces they give `x == = y`, which is tokenized into
five tokens of kinds Identifier, Equals, Assign, Assign, Identifier. -/
theorem C16_retokenizing_changes_kinds (k : Nat) :
    Lexer.lex (k + 6) "x==y".toList = .ok eqTokens ∧
      joinTexts eqTokens = "x == = y".toList ∧
      Lexer.lex (k + 10) (joinTexts eqTokens) = .ok eqAgainTokens ∧
      kindsOf eqTokens =
        [Tokens.Identifier, Tokens.Equals, Tokens.Assign, Tokens.Identifier] ∧
      kindsOf eqAgainTokens =
        [Tokens.Identifier, Tokens.Equals, Tokens.Assign, Tokens.Assign, Tokens.Identifier] ∧
      kindsOf eqAgainTokens ≠ kindsOf eqTokens :=
  ⟨rfl, rfl, rfl, rfl, rfl, by decide⟩

/-! ## The constructor on an empty token vector -/

/-- C17: constructing a parser over the empty token vector does not raise the structured
`ParseError`.  The constructor calls `m_ThrowErr`, which first reads `m_Get().pos`; on the
empty `m_Src` the index `m_Src.size() - 1` wraps around and `at` throws `std::out_of_range`.
The empty text and a text of white space give the empty token vector. -/
theorem C17_empty_input_out_of_range (n : Nat) :
    Parser.ctor [] = Res.raise Exn.out_of_range ∧
      parseTokens n [] = Res.raise Exn.out_of_range ∧
      parsevecTokens n [] = Res.raise Exn.out_of_range ∧
      parseText (n + 1) [] = some (Res.raise Exn.out_of_range) ∧
      parseText (n + 4) "  \t".toList = some (Res.raise Exn.out_of_range) :=
  ⟨rfl, rfl, rfl, rfl, rfl⟩

/-! ## Semicolons and nested calls -/

/-- C18 (amended): the Semicolon skips two tokens.  At a Semicolon token with at least two
tokens behind it, `m_ParseFactor` moves the cursor over the Semicolon and over the token
right behind it, and returns what `m_ParseComp` returns from there: a fresh comparison-level
expression.  So `parsevec` on the tokens of `a;x b+c` returns
`[Identifier a, BinaryOp(+, Identifier b, Identifier c)]`, the `x` being skipped, and on the
tokens of `a;b+c` it returns `[Identifier a, BinaryOp(+, Identifier c, nullptr)]`, the `b`
being skipped. -/
theorem C18_semicolon_skips_two_tokens (n : Nat) (src : List TokenHandler) (pos c : Nat)
    (f : Bool) (semi : TokenHandler) (hs : src[pos]? = some semi)
    (hk : semi.token = Tokens.Semicolon) (hin : pos + 2 < src.length)
    (hlen : src.length < SIZE_MOD) (k : Nat) :
    Parser.m_ParseFactor (n + 1) ⟨src, pos, c, f⟩ = Parser.m_ParseComp n ⟨src, pos + 2, c, f⟩ ∧
      parsevecText (k + 15) "a;x b+c".toList =
        some (Res.ok [Expr.Identifier ['a'],
            Expr.BinaryOpExpr Op.Plus (Expr.Identifier ['b']) (some (Expr.Identifier ['c']))]
          ⟨semiSkipTokens, 6, 0, false⟩) ∧
      parsevecText (k + 20) "a;b+c".toList =
        some (Res.ok [Expr.Identifier ['a'],
            Expr.BinaryOpExpr Op.Plus (Expr.Identifier ['c']) none]
          ⟨semiTokens, 5, 0, false⟩) := by
  refine ⟨?_, parsevecText_run _ _ _ 15 k rfl (by decide!) (by simp),
    parsevecText_run _ _ _ 20 k rfl (by decide!) (by simp)⟩
  have hget := Parser.m_Get_eq ⟨src, pos, c, f⟩ semi hs
  have hadv := Parser.m_Advance_eq src pos c f 2 (by omega) (by omega)
  rw [Parser.m_ParseFactor]
  simp only [Parser.bind_apply, hget, hk, reduceCtorEq, if_false, if_true, hadv]

/-- Witness of C18 at the Semicolon of `a;x b+c`. -/
theorem C18_semicolon_skips_two_tokens_witness :
    (semiSkipTokens[1]? = some ⟨[';'], Tokens.Semicolon, 1⟩ ∧
      (⟨[';'], Tokens.Semicolon, 1⟩ : TokenHandler).token = Tokens.Semicolon ∧
      1 + 2 < semiSkipTokens.length ∧ semiSkipTokens.length < SIZE_MOD) ∧
    Parser.m_ParseFactor (12 + 1) ⟨semiSkipTokens, 1, 0, false⟩ =
        Parser.m_ParseComp 12 ⟨semiSkipTokens, 1 + 2, 0, false⟩ ∧
      parsevecText (0 + 15) "a;x b+c".toList =
        some (Res.ok [Expr.Identifier ['a'],
            Expr.BinaryOpExpr Op.Plus (Expr.Identifier ['b']) (some (Expr.Identifier ['c']))]
          ⟨semiSkipTokens, 6, 0, false⟩) ∧
      parsevecText (0 + 20) "a;b+c".toList =
        some (Res.ok [Expr.Identifier ['a'],
            Expr.BinaryOpExpr Op.Plus (Expr.Identifier ['c']) none]
          ⟨semiTokens, 5, 0, false⟩) :=
  ⟨⟨rfl, rfl, by decide, by decide⟩,
    C18_semicolon_skips_two_tokens 12 semiSkipTokens 1 0 false ⟨[';'], Tokens.Semicolon, 1⟩ rfl
      rfl (by decide) (by decide) 0⟩

/-- Counterexample to C18 as stated: `a` parses to `Identifier a` and `b+c` parses to
`BinaryOp(+, Identifier b, Identifier c)`, each consuming all its tokens, but `parsevec` on
the tokens of `a;b+c` returns `[Identifier a, BinaryOp(+, Identifier c, nullptr)]`, not the
two trees; and on the tokens of `x = a; y = b` it raises `SyntaxError` instead of returning
two assignments, the `y` being skipped. -/
theorem C18_separator_counterexample :
    parseText 20 "a".toList =
        some (Res.ok (Expr.Identifier ['a']) ⟨[⟨['a'], Tokens.Identifier, 0⟩], 1, 0, false⟩) ∧
      parseText 20 "b+c".toList =
        some (Res.ok (Expr.BinaryOpExpr Op.Plus (Expr.Identifier ['b'])
            (some (Expr.Identifier ['c'])))
          ⟨[⟨['b'], Tokens.Identifier, 0⟩, ⟨['+'], Tokens.Plus, 1⟩,
            ⟨['c'], Tokens.Identifier, 2⟩], 3, 0, false⟩) ∧
      parsevecText 20 "a;b+c".toList =
        some (Res.ok [Expr.Identifier ['a'],
            Expr.BinaryOpExpr Op.Plus (Expr.Identifier ['c']) none]
          ⟨semiTokens, 5, 0, false⟩) ∧
      parsevecText 20 "a;b+c".toList ≠
        some (Res.ok [Expr.Identifier ['a'],
            Expr.BinaryOpExpr Op.Plus (Expr.Identifier ['b']) (some (Expr.Identifier ['c']))]
          ⟨semiTokens, 5, 0, false⟩) ∧
      parsevecText 20 "x = a; y = b".toList =
        some (Res.raise (Exn.BaseException "SyntaxError" "invalid syntax" 9)) := by
  have h3 : parsevecText (0 + 20) "a;b+c".toList =
      some (Res.ok [Expr.Identifier ['a'],
          Expr.BinaryOpExpr Op.Plus (Expr.Identifier ['c']) none]
        ⟨semiTokens, 5, 0, false⟩) :=
    parsevecText_run _ _ _ 20 0 rfl (by decide!) (by simp)
  refine ⟨parseText_run _ _ _ 6 14 rfl (by decide!) (by simp),
    parseText_run _ _ _ 7 13 rfl (by decide!) (by simp), h3, ?_,
    parsevecText_run _ _ _ 14 6 rfl (by decide!) (by simp)⟩
  have h4 : parsevecText 20 "a;b+c".toList =
      some (Res.ok [Expr.Identifier ['a'],
          Expr.BinaryOpExpr Op.Plus (Expr.Identifier ['c']) none]
        ⟨semiTokens, 5, 0, false⟩) := h3
  rw [h4]
  simp

/-- C19: the text `f(g(1), 2, 3)` does not parse to a call.  The nested call `g(1)` ends
with `is_in_func_args = false`, so the argument `2` takes the Digit branch for numbers
outside an argument list, where the Comma token behind it is not valid after a number:
`SyntaxError` at the `2`.  The text `f(2, g(1), 3)` parses, because the `3` behind the
nested call is followed by the Rparen token. -/
theorem C19_nested_call_first_rejected (k : Nat) :
    Lexer.lex (k + 24) "f(g(1), 2, 3)".toList = .ok nestedFirstTokens ∧
      parseText (k + 24) "f(g(1), 2, 3)".toList =
        some (Res.raise (Exn.BaseException "SyntaxError" "invalid syntax" 8)) ∧
      parseText (k + 26) "f(2, g(1), 3)".toList =
        some (Res.ok (Expr.FunctionCall ['f'] [Expr.Number ['2'],
            Expr.FunctionCall ['g'] [Expr.Number ['1']], Expr.Number ['3']])
          ⟨nestedSecondTokens, 11, 0, false⟩) :=
  ⟨rfl, parseText_run _ _ _ 24 k rfl (by decide!) (by simp),
    parseText_run _ _ _ 26 k rfl (by decide!) (by simp)⟩

/-! ## A Semicolon as the last token -/

namespace Parser

theorem bind_timeout {α β : Type} (x : P α) (f : α → P β) (p : Parser)
    (h : x p = Res.timeout) : (x >>= f) p = Res.timeout := by
  rw [bind_apply, h]

/-- With the cursor behind the last token, `m_Get` reads the last token. -/
theorem m_Get_eof (pre : List TokenHandler) (t : TokenHandler) (pos c : Nat) (f : Bool)
    (hpos : pre.length + 1 ≤ pos) :
    m_Get ⟨pre ++ [t], pos, c, f⟩ = Res.ok t ⟨pre ++ [t], pos, c, f⟩ := by
  unfold m_Get vec_at
  have hl : (pre ++ [t]).length = pre.length + 1 := by simp
  simp only [hl]
  rw [if_pos (by omega), size_sub_one (by omega)]
  have e : pre.length + 1 - 1 = pre.length := by omega
  rw [e, getElem?_mid]

/-- With the cursor behind a last token that is a Semicolon, `m_ParseFactor` calls
`m_ParseComp` in the same state, so no function of the expression chain returns, whatever
the budget. -/
theorem stuck_all (pre : List TokenHandler) (t : TokenHandler) (ht : t.token = Tokens.Semicolon)
    (pos c : Nat) (f : Bool) (hpos : pre.length + 1 ≤ pos) (n : Nat) :
    m_ParseFactor n ⟨pre ++ [t], pos, c, f⟩ = Res.timeout ∧
      m_ParseLogical n ⟨pre ++ [t], pos, c, f⟩ = Res.timeout ∧
      m_ParseSu n ⟨pre ++ [t], pos, c, f⟩ = Res.timeout ∧
      m_ParseTerm n ⟨pre ++ [t], pos, c, f⟩ = Res.timeout ∧
      m_ParseExpr n ⟨pre ++ [t], pos, c, f⟩ = Res.timeout ∧
      m_ParseComp n ⟨pre ++ [t], pos, c, f⟩ = Res.timeout := by
  induction n with
  | zero =>
    refine ⟨?_, ?_, ?_, ?_, ?_, ?_⟩
    · rw [m_ParseFactor]; rfl
    · rw [m_ParseLogical]; rfl
    · rw [m_ParseSu]; rfl
    · rw [m_ParseTerm]; rfl
    · rw [m_ParseExpr]; rfl
    · rw [m_ParseComp]; rfl
  | succ n ih =>
    obtain ⟨hF, hL, hS, hT, hE, hC⟩ := ih
    refine ⟨?_, ?_, ?_, ?_, ?_, ?_⟩
    · have hget := m_Get_eof pre t pos c f hpos
      have hadv := m_Advance_eof ⟨pre ++ [t], pos, c, f⟩ 2 (by simp; omega)
      rw [m_ParseFactor]
      simp only [bind_apply, hget, ht, reduceCtorEq, if_false, if_true, hadv, hC]
    · rw [m_ParseLogical]; exact bind_timeout _ _ _ hF
    · rw [m_ParseSu]; exact bind_timeout _ _ _ hL
    · rw [m_ParseTerm]; exact bind_timeout _ _ _ hS
    · rw [m_ParseExpr]; exact bind_timeout _ _ _ hT
    · rw [m_ParseComp]; exact bind_timeout _ _ _ hE

/-- With the cursor on a last token that is a Semicolon, `m_ParseComp` does not return: the
factor advances the cursor by two, behind the last token, and calls `m_ParseComp`. -/
theorem m_ParseComp_last_semicolon (pre : List TokenHandler) (t : TokenHandler)
    (ht : t.token = Tokens.Semicolon) (c : Nat) (f : Bool) (hlen : pre.length + 2 < SIZE_MOD)
    (n : Nat) : m_ParseComp n ⟨pre ++ [t], pre.length, c, f⟩ = Res.timeout := by
  have hF : ∀ n, m_ParseFactor n ⟨pre ++ [t], pre.length, c, f⟩ = Res.timeout := by
    intro n
    cases n with
    | zero => rw [m_ParseFactor]; rfl
    | succ n =>
      have hget := m_Get_eq ⟨pre ++ [t], pre.length, c, f⟩ t (getElem?_mid _ _ _)
      have hadv := m_Advance_eq (pre ++ [t]) pre.length c f 2 (by simp) hlen
      have hC := (stuck_all pre t ht (pre.length + 2) c f (by omega) n).2.2.2.2.2
      rw [m_ParseFactor]
      simp only [bind_apply, hget, ht, reduceCtorEq, if_false, if_true, hadv, hC]
  have hL : ∀ n, m_ParseLogical n ⟨pre ++ [t], pre.length, c, f⟩ = Res.timeout := by
    intro n
    cases n with
    | zero => rw [m_ParseLogical]; rfl
    | succ n => rw [m_ParseLogical]; exact bind_timeout _ _ _ (hF n)
  have hS : ∀ n, m_ParseSu n ⟨pre ++ [t], pre.length, c, f⟩ = Res.timeout := by
    intro n
    cases n with
    | zero => rw [m_ParseSu]; rfl
    | succ n => rw [m_ParseSu]; exact bind_timeout _ _ _ (hL n)
  have hT : ∀ n, m_ParseTerm n ⟨pre ++ [t], pre.length, c, f⟩ = Res.timeout := by
    intro n
    cases n with
    | zero => rw [m_ParseTerm]; rfl
    | succ n => rw [m_ParseTerm]; exact bind_timeout _ _ _ (hS n)
  have hE : ∀ n, m_ParseExpr n ⟨pre ++ [t], pre.length, c, f⟩ = Res.timeout := by
    intro n
    cases n with
    | zero => rw [m_ParseExpr]; rfl
    | succ n => rw [m_ParseExpr]; exact bind_timeout _ _ _ (hT n)
  cases n with
  | zero => rw [m_ParseComp]; rfl
  | succ n => rw [m_ParseComp]; exact bind_timeout _ _ _ (hE n)

/-- On the tokens of `a;`, `m_ParseComp` at the first token either runs out of budget or
returns the identifier with the cursor on the Semicolon. -/
theorem m_ParseComp_ident_semicolon (n : Nat) :
    m_ParseComp n ⟨identSemiTokens, 0, 0, false⟩ = Res.timeout ∨
      m_ParseComp n ⟨identSemiTokens, 0, 0, false⟩ =
        Res.ok (Expr.Identifier ['a']) ⟨identSemiTokens, 1, 0, false⟩ := by
  have h6 : m_ParseComp 6 ⟨identSemiTokens, 0, 0, false⟩ =
      Res.ok (Expr.Identifier ['a']) ⟨identSemiTokens, 1, 0, false⟩ :=
    Res.beqWith_sound Expr.beq Expr.beq_sound _ _ (by decide!)
  rcases Nat.le_total n 6 with h | h
  · obtain ⟨k, hk⟩ := Nat.exists_eq_add_of_le h
    rcases m_ParseComp_le_add n k ⟨identSemiTokens, 0, 0, false⟩ with h1 | h1
    · exact Or.inl h1
    · right
      rw [← h1, ← hk, h6]
  · obtain ⟨k, hk⟩ := Nat.exists_eq_add_of_le h
    rcases m_ParseComp_le_add 6 k ⟨identSemiTokens, 0, 0, false⟩ with h1 | h1
    · rw [h6] at h1
      cases h1
    · right
      rw [hk, h1, h6]

end Parser

/-- C20: the parser does not terminate when a Semicolon is the last token.  The Semicolon
branch of `m_ParseFactor` calls `m_Advance(2)` and then `m_ParseComp`; behind the last token
`m_Advance` does nothing and `m_Get` reads the last token again, so `m_ParseFactor` is
entered in the same state without end.  In the model no budget is enough: `parse` on the
one-token sequence `;` and `parsevec` on the tokens of `a;` end in `timeout` for every
budget `n`. -/
theorem C20_trailing_semicolon_never_returns (n : Nat) :
    parseTokens n [⟨[';'], Tokens.Semicolon, 0⟩] = Res.timeout ∧
      parsevecTokens n identSemiTokens = Res.timeout ∧
      Lexer.lex (n + 3) [';'] = .ok [⟨[';'], Tokens.Semicolon, 0⟩] ∧
      Lexer.lex (n + 4) ['a', ';'] = .ok identSemiTokens ∧
      parseText (n + 3) [';'] = some Res.timeout ∧
      parsevecText (n + 4) ['a', ';'] = some Res.timeout := by
  have h1 : ∀ n, parseTokens n [⟨[';'], Tokens.Semicolon, 0⟩] = Res.timeout := by
    intro n
    exact Parser.m_ParseComp_last_semicolon [] ⟨[';'], Tokens.Semicolon, 0⟩ rfl 0 false
      (by decide) n
  have h2 : ∀ n, parsevecTokens n identSemiTokens = Res.timeout := by
    intro n
    show Parser.parsevecLoop n [] ⟨identSemiTokens, 0, 0, false⟩ = Res.timeout
    cases n with
    | zero => rw [Parser.parsevecLoop]; rfl
    | succ n =>
      rw [Parser.parsevecLoop, Parser.bind_apply, Parser.not_eof_apply]
      have hne : decide ((0 : Nat) < identSemiTokens.length) = true := by decide
      simp only [hne, if_true]
      rcases Parser.m_ParseComp_ident_semicolon n with h | h
      · exact Parser.bind_timeout _ _ _ h
      · rw [Parser.bind_ok _ _ _ _ _ h]
        cases n with
        | zero => rw [Parser.parsevecLoop]; rfl
        | succ n =>
          rw [Parser.parsevecLoop, Parser.bind_apply, Parser.not_eof_apply]
          have hne1 : decide ((1 : Nat) < identSemiTokens.length) = true := by decide
          simp only [hne1, if_true]
          exact Parser.bind_timeout _ _ _
            (Parser.m_ParseComp_last_semicolon [⟨['a'], Tokens.Identifier, 0⟩]
              ⟨[';'], Tokens.Semicolon, 1⟩ rfl 0 false (by decide) n)
  have h3 : Lexer.lex (n + 3) [';'] = .ok [⟨[';'], Tokens.Semicolon, 0⟩] := rfl
  have h4 : Lexer.lex (n + 4) ['a', ';'] = .ok identSemiTokens := rfl
  refine ⟨h1 n, h2 n, h3, h4, ?_, ?_⟩
  · unfold parseText
    rw [h3]
    simp only []
    rw [h1]
  · unfold parsevecText
    rw [h4]
    simp only []
    rw [h2]


/-! ## The condition of `if` -/

namespace Parser

/-- A run of `m_ParseComp` from the state `p`, checked by evaluation with budget `n`, ends
with the same result for every larger budget. -/
theorem m_ParseComp_run (n k : Nat) (p : Parser) (r : Res Expr)
    (h : Res.beqWith Expr.beq (m_ParseComp n p) r = true) (hr : r ≠ Res.timeout) :
    m_ParseComp (k + n) p = r := by
  have h0 := Res.beqWith_sound Expr.beq (fun a b => Expr.beq_sound a b) _ _ h
  rw [Nat.add_comm k n]
  rcases m_ParseComp_le_add n k p with h1 | h1
  · exfalso
    apply hr
    rw [← h0]
    exact h1
  · rw [h1, h0]

end Parser

/-- C21: the condition of `if (c) -x` does not end at its closing parenthesis.  The
KeywordIf branch parses the condition with `m_ParseComp` from the Lparen token on, and the
loop of `m_ParseExpr` takes the Minus token behind the `)` as a binary operator: the
condition is `BinaryOp(-, Identifier c, Identifier x)` and the cursor is behind the last
token.  There `m_Advance(-1)` does nothing and `m_Get` reads the last token `x`, so the test
for the closing parenthesis raises `SyntaxError`.  The text `if (c) x`, with no operator
behind the `)`, parses to `IfExpr(Identifier c, Identifier x, nullptr)`. -/
theorem C21_condition_absorbs_operator (k : Nat) :
    Lexer.lex (k + 18) "if (c) -x".toList = .ok ifNegTokens ∧
      parseText (k + 18) "if (c) -x".toList =
        some (Res.raise (Exn.BaseException "SyntaxError"
          "expected a closing \x27)\x27 for \x27if\x27 found \x27x\x27" 8)) ∧
      Parser.m_ParseComp (k + 12) ⟨ifNegTokens, 1, 0, false⟩ =
        Res.ok (Expr.BinaryOpExpr Op.Minus (Expr.Identifier ['c'])
            (some (Expr.Identifier ['x'])))
          ⟨ifNegTokens, 6, 1, false⟩ ∧
      parseText (k + 18) "if (c) x".toList =
        some (Res.ok (Expr.IfExpr (Expr.Identifier ['c']) (Expr.Identifier ['x']) none)
          ⟨ifPlainTokens, 5, 1, false⟩) :=
  ⟨rfl, parseText_run _ _ _ 18 k rfl (by decide!) (by simp),
    Parser.m_ParseComp_run 12 k _ _ (by decide!) (by simp),
    parseText_run _ _ _ 18 k rfl (by decide!) (by simp)⟩

/-! ## Unbalanced parentheses -/

/-- C22: the four tokens of `((a)`, two Lparen tokens and one Rparen token, are accepted.
The inner parenthesis consumes the Rparen token and leaves the cursor behind the last token;
there `m_Get` reads the last token, the same Rparen, once more, so the test of the outer
Lparen branch for its closing parenthesis passes: `parsevec` returns `[Identifier a]`.  The
two tokens of `(a`, where the last token is not an Rparen, raise `SyntaxError`. -/
theorem C22_unbalanced_parens_accepted (k : Nat) :
    Lexer.lex (k + 19) "((a)".toList = .ok openParenTokens ∧
      countKind Tokens.Rparen openParenTokens < countKind Tokens.Lparen openParenTokens ∧
      parsevecText (k + 19) "((a)".toList =
        some (Res.ok [Expr.Identifier ['a']] ⟨openParenTokens, 4, 2, false⟩) ∧
      parsevecText (k + 13) "(a".toList =
        some (Res.raise (Exn.BaseException "SyntaxError" "invalid syntax" 1)) :=
  ⟨rfl, by decide, parsevecText_run _ _ _ 19 k rfl (by decide!) (by simp),
    parsevecText_run _ _ _ 13 k rfl (by decide!) (by simp)⟩

/-! ## The token behind a call -/

/-- C23: the token right after the closing parenthesis of a call is skipped when it is the
last token.  `m_ParseFunctionDefOrCall` calls `m_Advance()` and then `m_Advance(-1)`; when
the first call moves the cursor behind the last token, the second does nothing.  On the
tokens of `f(a) b`, `parsevec` returns `[FunctionCall(f, [Identifier a])]` with the cursor
at 5 and no `Identifier b`; on `f(a)+` it returns the same list and raises nothing, while
`a+` raises `SyntaxError`.  On `f(a) b c`, where the token behind the `)` is not the last,
`parse` leaves the cursor at 4, on that token, and `parsevec` returns the three trees. -/
theorem C23_last_token_after_call_skipped (k : Nat) :
    Lexer.lex (k + 16) "f(a) b".toList = .ok callThenIdentTokens ∧
      parsevecText (k + 16) "f(a) b".toList =
        some (Res.ok [Expr.FunctionCall ['f'] [Expr.Identifier ['a']]]
          ⟨callThenIdentTokens, 5, 0, false⟩) ∧
      Lexer.lex (k + 16) "f(a)+".toList = .ok callThenPlusTokens ∧
      parsevecText (k + 16) "f(a)+".toList =
        some (Res.ok [Expr.FunctionCall ['f'] [Expr.Identifier ['a']]]
          ⟨callThenPlusTokens, 5, 0, false⟩) ∧
      parsevecText (k + 8) "a+".toList =
        some (Res.raise (Exn.BaseException "SyntaxError" "invalid syntax" 1)) ∧
      parseText (k + 15) "f(a) b c".toList =
        some (Res.ok (Expr.FunctionCall ['f'] [Expr.Identifier ['a']])
          ⟨callThenTwoTokens, 4, 0, false⟩) ∧
      parsevecText (k + 16) "f(a) b c".toList =
        some (Res.ok [Expr.FunctionCall ['f'] [Expr.Identifier ['a']], Expr.Identifier ['b'],
            Expr.Identifier ['c']]
          ⟨callThenTwoTokens, 6, 0, false⟩) :=
  ⟨rfl, parsevecText_run _ _ _ 16 k rfl (by decide!) (by simp), rfl,
    parsevecText_run _ _ _ 16 k rfl (by decide!) (by simp),
    parsevecText_run _ _ _ 8 k rfl (by decide!) (by simp),
    parseText_run _ _ _ 15 k rfl (by decide!) (by simp),
    parsevecText_run _ _ _ 16 k rfl (by decide!) (by simp)⟩

/-! ## Adjacent digit runs -/

namespace Lexer

/-- The loop of `lex` over white space in the middle of the source adds no token. -/
theorem lexLoop_skip_space (ws : List Char) :
    ∀ (m : Nat) (toks : List TokenHandler) (pre rest : List Char),
      (∀ c ∈ ws, isspace c = true) → (pre ++ (ws ++ rest)).length < SIZE_MOD →
      lexLoop (m + ws.length) ⟨toks, pre.length, pre ++ (ws ++ rest)⟩ =
        lexLoop m ⟨toks, pre.length + ws.length, pre ++ (ws ++ rest)⟩ := by
  induction ws with
  | nil =>
    intro m toks pre rest _ _
    rfl
  | cons c ws ih =>
    intro m toks pre rest hs hlen
    have hc : isspace c = true := hs c (by simp)
    have h1 : pre.length < (pre ++ (c :: ws ++ rest)).length := by simp
    have hg : (pre ++ (c :: ws ++ rest))[pre.length]? = some c := by
      rw [List.cons_append]
      exact getElem?_mid _ _ _
    have hsw := lexSwitch_space (m + ws.length) ⟨toks, pre.length, pre ++ (c :: ws ++ rest)⟩ c
      hg hc
    have hadv : m_Advance ⟨toks, pre.length, pre ++ (c :: ws ++ rest)⟩ 1 =
        ⟨toks, (pre ++ [c]).length, (pre ++ [c]) ++ (ws ++ rest)⟩ := by
      unfold m_Advance
      simp only []
      rw [size_add_of_lt (by simp at hlen; omega)]
      simp
    have e : m + (c :: ws).length = (m + ws.length) + 1 := by simp; omega
    rw [e, lexLoop, if_pos h1, src_at_of hg]
    simp only [hsw, hadv]
    rw [ih m toks (pre ++ [c]) rest (fun x hx => hs x (by simp [hx]))
      (by simpa using hlen)]
    have e2 : (pre ++ [c]).length + ws.length = pre.length + (c :: ws).length := by
      simp
      omega
    have e3 : (pre ++ [c]) ++ (ws ++ rest) = pre ++ (c :: ws ++ rest) := by simp
    rw [e2, e3]

/-- Two digit runs separated by white space are two Digit tokens. -/
theorem lex_two_digits (d1 ws d2 : List Char) (hd1 : DigitRun d1) (hd2 : DigitRun d2)
    (hne : ws ≠ []) (hws : ∀ c ∈ ws, isspace c = true)
    (hlen : d1.length + ws.length + d2.length < SIZE_MOD) (n : Nat)
    (hn : d1.length + ws.length + d2.length + 3 ≤ n) :
    lex n (d1 ++ (ws ++ d2)) = .ok (twoDigitTokens d1 ws d2) := by
  have hl : (d1 ++ (ws ++ d2)).length = d1.length + ws.length + d2.length := by
    simp
    omega
  have hl0 : (d1 ++ (ws ++ (d2 ++ []))).length < SIZE_MOD := by
    rw [List.append_nil, hl]
    exact hlen
  have hnd : NoDigitAhead (ws ++ (d2 ++ [])) := by
    cases ws with
    | nil => exact absurd rfl hne
    | cons c r => exact noDigitAhead_cons _ _ (m_IsDigit_of_isspace (hws c (by simp)))
  have hp1 : 0 < d1.length := List.length_pos.mpr hd1.1
  obtain ⟨k, rfl⟩ : ∃ k, n = (k + d2.length + 2 + ws.length) + 1 :=
    ⟨n - (d2.length + ws.length + 3), by omega⟩
  unfold lex
  have hsrc : d1 ++ (ws ++ d2) = [] ++ (d1 ++ (ws ++ (d2 ++ []))) := by simp
  rw [hsrc, lexLoop_digits _ [] _ 0 [] d1 (ws ++ (d2 ++ [])) rfl rfl
    (by simpa using hl0) hd1 hnd (by omega)]
  have e1 : [] ++ (d1 ++ (ws ++ (d2 ++ []))) = d1 ++ (ws ++ (d2 ++ [])) := by simp
  have e2 : 0 + d1.length = d1.length := by omega
  rw [e1, e2, lexLoop_skip_space ws _ _ d1 (d2 ++ []) hws hl0]
  have e3 : k + d2.length + 2 = (k + d2.length + 1) + 1 := by omega
  have e4 : d1 ++ (ws ++ (d2 ++ [])) = (d1 ++ ws) ++ (d2 ++ []) := by simp
  rw [e3, lexLoop_digits _ _ _ _ (d1 ++ ws) d2 [] e4 (by simp)
    hl0 hd2 noDigitAhead_nil (by omega)]
  rw [lexLoop_end _ _ _ _ (by simp; omega)]
  simp [twoDigitTokens]

end Lexer

/-- Two Digit tokens, outside an argument list, are parsed to one `Number` whose text is the
first text followed by the second, when `std::stold` converts that text. -/
theorem parse_two_digits (t1 t2 : TokenHandler) (h1 : t1.token = Tokens.Digit)
    (h2 : t2.token = Tokens.Digit) (hcv : std.stold (t1.value ++ t2.value) = none) (k : Nat) :
    parseTokens (k + 9) [t1, t2] =
      Res.ok (Expr.Number (t1.value ++ t2.value)) ⟨[t1, t2], 2, 0, false⟩ := by
  have g0 : [t1, t2][0]? = some t1 := rfl
  have g1 : [t1, t2][0 + 1]? = some t2 := rfl
  have hlen : [t1, t2].length < SIZE_MOD := by simp [SIZE_MOD]
  have hget0 := Parser.m_Get_eq ⟨[t1, t2], 0, 0, false⟩ t1 g0
  have hget1 := Parser.m_Get_eq ⟨[t1, t2], 0 + 1, 0, false⟩ t2 g1
  have hpeek := Parser.m_Peek_eq ⟨[t1, t2], 0, 0, false⟩ t2 g1 hlen
  have hadv0 := Parser.m_Advance_eq [t1, t2] 0 0 false 1 (by simp) (by decide)
  have hadv1 := Parser.m_Advance_eq [t1, t2] (0 + 1) 0 false 1 (by simp) (by decide)
  have hne0 : decide (0 < [t1, t2].length) = true := by simp
  have hne1 : decide (0 + 1 < [t1, t2].length) = true := by simp
  have hne2 : decide (0 + 1 + 1 < [t1, t2].length) = false := by simp
  have hvp1 : Parser.m_IsValidPunc t1 = true := by simp [Parser.m_IsValidPunc, h1]
  have hvp2 : Parser.m_IsValidPunc t2 = true := by simp [Parser.m_IsValidPunc, h2]
  have hva : Parser.m_IsValidAfterNumber t2 = true := by
    simp [Parser.m_IsValidAfterNumber, h2]
  have hf : Parser.m_ParseFactor (k + 3 + 1) ⟨[t1, t2], 0, 0, false⟩ =
      Res.ok (Expr.Number (t1.value ++ t2.value)) ⟨[t1, t2], 0 + 1 + 1, 0, false⟩ := by
    rw [Parser.m_ParseFactor]
    simp only [Parser.bind_apply, hget0, h1, reduceCtorEq, if_false, if_true,
      Parser.not_eof_apply, hne0, Parser.get_in_func_args, Bool.not_false, Bool.and_self, hpeek,
      hva, Bool.true_or, Parser.m_GetDigit]
    rw [Parser.m_GetDigitLoop]
    simp only [Parser.bind_apply, Parser.not_eof_apply, hne0, if_true, hget0, hvp1, h1, hadv0]
    rw [Parser.m_GetDigitLoop]
    simp only [Parser.bind_apply, Parser.not_eof_apply, hne1, if_true, hget1, hvp2, h2, hadv1]
    rw [Parser.m_GetDigitLoop]
    simp only [Parser.bind_apply, Parser.not_eof_apply, hne2, Bool.false_eq_true, if_false,
      Parser.pure_apply, List.nil_append, Parser.throwing, hcv]
  have e0 : parseTokens (k + 9) [t1, t2] =
      Parser.m_ParseComp (k + 3 + 6) ⟨[t1, t2], 0, 0, false⟩ := rfl
  rw [e0]
  exact Parser.m_ParseComp_of_factor (k + 3) _ _ _ hf (Or.inl (by simp))

/-- C24 (amended): adjacent digit runs are merged into one number.  For all digit runs `d1`
and `d2` such that the value written by `d1` followed by `d2` is below the overflow bound of
`long double` (`2 ^ 16384 - 2 ^ 16319`, so that `std::stold` returns) and every non-empty run
`ws` of white space, the text `d1 ws d2` is tokenized into two Digit tokens, and parsing them
(outside an argument list) returns the single node `Number` whose literal text is `d1`
followed by `d2`, with the cursor at 2, past both tokens.  The budget only has to cover the
length of the text. -/
theorem C24_adjacent_digit_runs_merged (d1 ws d2 : List Char) (hd1 : Lexer.DigitRun d1)
    (hd2 : Lexer.DigitRun d2) (hr : digitsValue (d1 ++ d2) < LDBL.overflowBound)
    (hne : ws ≠ []) (hws : ∀ c ∈ ws, Lexer.isspace c = true)
    (hlen : d1.length + ws.length + d2.length < SIZE_MOD) (n : Nat)
    (hn : d1.length + ws.length + d2.length + 9 ≤ n) :
    Lexer.lex n (d1 ++ (ws ++ d2)) = .ok (twoDigitTokens d1 ws d2) ∧
      (twoDigitTokens d1 ws d2).length = 2 ∧
      parseText n (d1 ++ (ws ++ d2)) =
        some (Res.ok (Expr.Number (d1 ++ d2)) ⟨twoDigitTokens d1 ws d2, 2, 0, false⟩) := by
  have hl := Lexer.lex_two_digits d1 ws d2 hd1 hd2 hne hws hlen n (by omega)
  refine ⟨hl, rfl, ?_⟩
  obtain ⟨k, rfl⟩ : ∃ k, n = k + 9 := ⟨n - 9, by omega⟩
  unfold parseText
  rw [hl]
  simp only []
  unfold twoDigitTokens
  have hcv : std.stold (d1 ++ d2) = none :=
    std.sto_digitRun LDBL (d1 ++ d2) (Lexer.digitRun_append hd1 hd2) hr
  rw [parse_two_digits ⟨d1, Tokens.Digit, d1.length - 1⟩
    ⟨d2, Tokens.Digit, d1.length + ws.length + d2.length - 1⟩ rfl rfl hcv k]

/-- Witness of C24 at `1 2`: the number with the text `12`. -/
theorem C24_adjacent_digit_runs_merged_witness :
    (Lexer.DigitRun ['1'] ∧ Lexer.DigitRun ['2'] ∧
      digitsValue (['1'] ++ ['2']) < LDBL.overflowBound ∧ [' '] ≠ [] ∧
      (∀ c ∈ [' '], Lexer.isspace c = true) ∧ 1 + 1 + 1 < SIZE_MOD ∧ 1 + 1 + 1 + 9 ≤ 12) ∧
    Lexer.lex 12 "1 2".toList = .ok (twoDigitTokens ['1'] [' '] ['2']) ∧
      (twoDigitTokens ['1'] [' '] ['2']).length = 2 ∧
      parseText 12 "1 2".toList =
        some (Res.ok (Expr.Number ['1', '2'])
          ⟨twoDigitTokens ['1'] [' '] ['2'], 2, 0, false⟩) :=
  ⟨⟨by decide, by decide, by decide!, by decide, by decide, by decide, by decide⟩,
    C24_adjacent_digit_runs_merged ['1'] [' '] ['2'] (by decide) (by decide) (by decide!)
      (by decide) (by decide) (by decide) 12 (by decide)⟩

/-! ## Literals beyond the range of the conversions -/

/-- A run of `parseTokens`, checked by evaluation. -/
theorem parseTokens_eval (n : Nat) (toks : List TokenHandler) (r : Res Expr)
    (hp : Res.beqWith Expr.beq (parseTokens n toks) r = true) : parseTokens n toks = r :=
  Res.beqWith_sound Expr.beq (fun a b => Expr.beq_sound a b) _ _ hp

theorem lexIs_sound (r : Except Fault (List TokenHandler)) (toks : List TokenHandler)
    (h : lexIs r toks = true) : r = .ok toks := by
  cases r with
  | error e => cases h
  | ok t =>
    simp only [lexIs, decide_eq_true_eq] at h
    rw [h]

/-- Counterexample to C1 as stated: with the digit run `a` that writes `10 ^ 4933` (a `1` and
4933 zeros), `b = 3` and `c = 4`, tokenizing and then parsing `a+b*c` returns no tree:
`std::stold` throws `std::out_of_range` on the first literal. -/
theorem C1_long_literal_out_of_range :
    Lexer.DigitRun longRun ∧ Lexer.DigitRun ['3'] ∧ Lexer.DigitRun ['4'] ∧
      parseText 4950 (longRun ++ '+' :: (['3'] ++ '*' :: ['4'])) =
        some (Res.raise Exn.out_of_range) := by
  have hd : Lexer.DigitRun longRun := by decide!
  refine ⟨hd, by decide, by decide, ?_⟩
  have hl := Lexer.lex_bin longRun ['3'] ['4'] '+' Tokens.Plus '*' Tokens.Mult hd (by decide)
    (by decide) (by decide) (by decide) Lexer.lexSwitch_plus Lexer.lexSwitch_mult (by decide!)
    (4940 + 10) (by decide!)
  exact parseText_run _ _ _ 10 4940 hl (by decide!) (by simp)

/-- Counterexample to C5 as stated: on the tokens of `f(a)`, where `a` is the Digit token of
the digit run that writes `10 ^ 309` (a `1` and 309 zeros), `parse` returns no
`FunctionCall`: `std::stod` throws `std::out_of_range` on the argument. -/
theorem C5_long_argument_out_of_range :
    Lexer.lex 320 ('f' :: '(' :: (longArg ++ [')'])) =
        .ok [⟨['f'], Tokens.Identifier, 0⟩, ⟨['('], Tokens.Lparen, 1⟩,
          ⟨longArg, Tokens.Digit, 311⟩, ⟨[')'], Tokens.Rparen, 312⟩] ∧
      parseTokens 16 [⟨['f'], Tokens.Identifier, 0⟩, ⟨['('], Tokens.Lparen, 1⟩,
          ⟨longArg, Tokens.Digit, 311⟩, ⟨[')'], Tokens.Rparen, 312⟩] =
        Res.raise Exn.out_of_range :=
  ⟨lexIs_sound _ _ (by decide!), parseTokens_eval _ _ _ (by decide!)⟩

/-- Counterexample to C8 as stated: for the depth `n = 1` and the digit run `d` that writes
`10 ^ 4933`, tokenizing and then parsing `-d` returns no tree: `std::stold` throws
`std::out_of_range`. -/
theorem C8_long_literal_out_of_range :
    Lexer.DigitRun longRun ∧
      parseText 4944 (negText 0 longRun) = some (Res.raise Exn.out_of_range) := by
  have hd : Lexer.DigitRun longRun := by decide!
  refine ⟨hd, ?_⟩
  have hl := Lexer.lex_neg 0 longRun hd (by decide!) (4930 + 14) (by decide!)
  exact parseText_run _ _ _ 14 4930 hl (by decide!) (by simp)

/-- Counterexample to C9 as stated: on the tokens of `f(a,)`, where `a` is the Digit token of
the digit run that writes `10 ^ 309`, `parse` raises no `SyntaxError`: `std::stod` throws
`std::out_of_range` on the argument before the comma is read. -/
theorem C9_long_argument_out_of_range :
    Lexer.lex 320 ('f' :: '(' :: (longArg ++ [',', ')'])) =
        .ok [⟨['f'], Tokens.Identifier, 0⟩, ⟨['('], Tokens.Lparen, 1⟩,
          ⟨longArg, Tokens.Digit, 311⟩, ⟨[','], Tokens.Comma, 312⟩,
          ⟨[')'], Tokens.Rparen, 313⟩] ∧
      parseTokens 15 [⟨['f'], Tokens.Identifier, 0⟩, ⟨['('], Tokens.Lparen, 1⟩,
          ⟨longArg, Tokens.Digit, 311⟩, ⟨[','], Tokens.Comma, 312⟩,
          ⟨[')'], Tokens.Rparen, 313⟩] =
        Res.raise Exn.out_of_range :=
  ⟨lexIs_sound _ _ (by decide!), parseTokens_eval _ _ _ (by decide!)⟩

/-- Counterexample to C24 as stated: for the digit runs `d1` that writes `10 ^ 2499` and `d2`
of 2500 nines, each below the overflow bound of `long double`, tokenizing and then parsing
`d1 d2` returns no `Number`: `std::stold` throws `std::out_of_range` on the merged text. -/
theorem C24_merged_literal_out_of_range :
    Lexer.DigitRun halfRun ∧ Lexer.DigitRun ninesRun ∧
      digitsValue halfRun < LDBL.overflowBound ∧ digitsValue ninesRun < LDBL.overflowBound ∧
      parseText 5010 (halfRun ++ ([' '] ++ ninesRun)) = some (Res.raise Exn.out_of_range) := by
  have hd1 : Lexer.DigitRun halfRun := by decide!
  have hd2 : Lexer.DigitRun ninesRun := by decide!
  refine ⟨hd1, hd2, by decide!, by decide!, ?_⟩
  have hl := Lexer.lex_two_digits halfRun [' '] ninesRun hd1 hd2 (by decide) (by decide)
    (by decide!) (5001 + 9) (by decide!)
  exact parseText_run _ _ _ 9 5001 hl (by decide!) (by simp)

end ami
